import Mathlib

/-!
Verification development for goplus/tools.

Shallow embedding of

* `gopls/internal/lsp/cache/parse_gox.go` (`parseGopImpl`, `ParseGopSrc`,
  `fixGopAST`, `fixGopSrc`),
* `gopls/internal/lsp/source/rename_check_gox.go` (`gopForEachLexicalRef`,
  `gopCheck`, `gopCheckExport`, `isGopLocal`, `isGopPackageLevel`),
* `gop/analysis/passes/appends/appends.go` (`run`),
* `gopls/internal/goxls/packages/packages.go` (`Load`, `importPkgs`),
* `gopls/internal/lsp/source/completion/format_gox.go` (`item`,
  `formatBuiltin`, `funcId`, `isIndexOverload`),
* `gopls/internal/lsp/source/completion/literal_gox.go` (`functionLiteral`,
  `typeParamInScope`).

Code that lives outside these files (the strict parser, the file set, the
type checker, the safety predicates of the renamer, the delegate loader, the
formatting of types) is taken as a parameter of the embedding. All definitions come first, the
theorems follow.
-/

namespace Goxls

/-! ## Package cache: `parse_gox.go` -/

namespace Cache

/-- A Go byte slice that is known to be non-nil or whose nil-ness is never
tested (`[]byte`). -/
abbrev Bytes := List UInt8

/-- Positions of the file set (`token.Pos`). -/
abbrev Pos := Int

/-- Values of the Go interface `error` as far as `ParseGopSrc` tells them
apart: a `scanner.ErrorList`, or an error of any other dynamic type. -/
inductive GoError (E : Type) where
  | errorList (l : List E)
  | other (msg : String)
  deriving DecidableEq, Repr

/-- Run-time panics that the body of `ParseGopSrc` can raise by itself. -/
inductive Fault where
  /-- `err.(scanner.ErrorList)` on an error of another dynamic type (line 70). -/
  | typeAssertion
  /-- `file.Pos()` on a nil `*ast.File` (line 73). -/
  | nilFile
  /-- `tok.Name()` on a nil `*token.File` (line 105). -/
  | nilTok
  deriving DecidableEq, Repr

/-- Calls and assignments of one run, in program order. This is a ghost
record: it does not influence the run, it only lets theorems speak about
how often a line was executed. -/
inductive Event (Fix : Type) where
  /-- A call of `parser.ParseFile`; `edited` is false for the call of line 66
  and true for the calls of line 108. -/
  | parse (edited : Bool) (buf : Bytes)
  /-- A call of `fixGopAST` (lines 87 and 128). -/
  | fixAST
  /-- A call of `fixGopSrc` (line 95), the first statement of the loop body. -/
  | fixSrc
  /-- The `event.Log` of the last diff (line 105). -/
  | logDiff (before after : Bytes)
  /-- The statement `fixes = append(fixes, srcFix)` (line 120). -/
  | adopt (fix : Fix)
  deriving DecidableEq, Repr

/-- Everything `ParseGopSrc` calls. `σ` is the state of the `*token.FileSet`,
`Tree` the `*ast.File` nodes, `Tok` the `*token.File` descriptors, `Fix` the
type `fixType` and `E` the entries of a `scanner.ErrorList`. The two fixers
are functions of this repository; they are fields so that statements can
range over what an implementation of them may return. -/
structure Deps (σ Tree Tok Fix E : Type) where
  /-- The function `goplsastutil.PurgeFuncBodies`. -/
  purgeFuncBodies : Bytes → Bytes
  /-- The method `uri.Filename()`. -/
  filename : String → String
  /-- The function `parser.ParseFile(fset, filename, src, mode)`: the tree
  (nil or not), the error (nil or not) and the file set afterwards. -/
  parseFile : σ → String → Bytes → Nat → (Option Tree × Option (GoError E)) × σ
  /-- The method `file.Pos()` of a non-nil tree. -/
  pos : Tree → Pos
  /-- The method `fset.File(pos)`, nil when the position is unknown. -/
  fsetFile : σ → Pos → Option Tok
  /-- The method `fset.AddFile(filename, base, size)`. -/
  addFile : σ → String → Int → Nat → Tok × σ
  /-- The method `tok.SetLinesForContent(content)`. -/
  setLinesForContent : Tok → Bytes → Tok
  /-- The function `fixGopAST(n, tok, src)`. -/
  fixAST : Tree → Option Tok → Bytes → List Fix
  /-- The function `fixGopSrc(f, tf, src)`; the new source may be nil. -/
  fixSrc : Tree → Option Tok → Bytes → Option Bytes × Fix

/-- The struct `source.ParsedGopFile`. `Mapper` records the two arguments of
`protocol.NewMapper`. -/
structure ParsedGopFile (Tree Tok E : Type) where
  URI : String
  Mode : Nat
  Src : Bytes
  FixedSrc : Bool
  FixedAST : Bool
  File : Option Tree
  Tok : Option Tok
  Mapper : String × Bytes
  ParseErr : Option (List E)
  deriving DecidableEq, Repr

/-- The local variables of `ParseGopSrc` while it runs lines 82 to 134,
together with the ghost trace and the pending panic, if any. -/
structure Work (σ Tree Tok Fix : Type) where
  fset : σ
  file : Tree
  src : Bytes
  tok : Option Tok
  fixes : List Fix
  fixedSrc : Bool
  fixedAST : Bool
  trace : List (Event Fix)
  fault : Option Fault

/-- What one execution of the loop body ends with: `break`, or the end of the
body (and then `i++`). -/
inductive Step (α : Type) where
  | brk (w : α)
  | next (w : α)

/-- What a run of `ParseGopSrc` yields: the ghost trace, and the pair of
return values or the panic. -/
structure Run (Tree Tok Fix E : Type) where
  trace : List (Event Fix)
  result : Except Fault (ParsedGopFile Tree Tok E × List Fix)

section Defs

variable {σ Tree Tok Fix E : Type}

/-- The body of `fixGopAST` in this repository: it returns no fix. -/
def fixGopAST (_n : Tree) (_tok : Option Tok) (_src : Bytes) : List Fix :=
  []

/-- The body of `fixGopSrc` in this repository: it returns a nil source and
the zero `fixType`. -/
def fixGopSrc (zero : Fix) (_f : Tree) (_tf : Option Tok) (_src : Bytes) :
    Option Bytes × Fix :=
  (none, zero)

/-- The dependencies with the two fixers as they stand in this repository. -/
def Deps.snapshot (d : Deps σ Tree Tok Fix E) (zero : Fix) : Deps σ Tree Tok Fix E :=
  { d with fixAST := fixGopAST, fixSrc := fixGopSrc zero }

/-- Lines 67 to 71: `parseErr = err.(scanner.ErrorList)` when `err != nil`. -/
def assertErrorList : Option (GoError E) → Except Fault (Option (List E))
  | none => .ok none
  | some (.errorList l) => .ok (some l)
  | some (.other _) => .error .typeAssertion

/-- Lines 73 to 80: the token file of the tree, recreated from the buffer
when the file set does not know the position of the tree. -/
def tokenFile (d : Deps σ Tree Tok Fix E) (fset : σ) (uri : String) (file : Tree)
    (src : Bytes) : Option Tok × σ :=
  match d.fsetFile fset (d.pos file) with
  | some t => (some t, fset)
  | none =>
    let (t, fset1) := d.addFile fset (d.filename uri) (-1) src.length
    (some (d.setLinesForContent t src), fset1)

/-- Lines 95 to 132: one execution of the body of `for i := 0; i < 10; i++`. -/
def loopBody (d : Deps σ Tree Tok Fix E) (uri : String) (mode : Nat) (i : Nat)
    (w : Work σ Tree Tok Fix) : Step (Work σ Tree Tok Fix) :=
  let w := { w with trace := w.trace ++ [Event.fixSrc] }
  match d.fixSrc w.file w.tok w.src with
  | (none, _) => .brk w
  | (some newSrc, srcFix) =>
    if i = 9 ∧ w.tok.isNone = true then
      .brk { w with fault := some Fault.nilTok }
    else
      let w := if i = 9 then { w with trace := w.trace ++ [Event.logDiff w.src newSrc] } else w
      let w := { w with trace := w.trace ++ [Event.parse true newSrc] }
      match d.parseFile w.fset (d.filename uri) newSrc mode with
      | ((none, _), fset1) => .brk { w with fset := fset1 }
      | ((some newFile, newErr), fset1) =>
        let w := { w with
          fset := fset1
          file := newFile
          src := newSrc
          tok := d.fsetFile fset1 (d.pos newFile)
          fixes := w.fixes ++ [srcFix]
          fixedSrc := true
          trace := w.trace ++ [Event.adopt srcFix] }
        match newErr with
        | none => .brk w
        | some _ =>
          let astFixes := d.fixAST w.file w.tok w.src
          let fixedAST := decide (astFixes.length > 0)
          .next { w with
            fixedAST := fixedAST
            fixes := if fixedAST then w.fixes ++ astFixes else w.fixes
            trace := w.trace ++ [Event.fixAST] }

/-- The loop `for i := 0; i < 10; i++` from the iteration with index `i` on,
when `k = 10 - i` iterations remain. -/
def repairLoop (d : Deps σ Tree Tok Fix E) (uri : String) (mode : Nat) :
    Nat → Nat → Work σ Tree Tok Fix → Work σ Tree Tok Fix
  | 0, _, w => w
  | k + 1, i, w =>
    match loopBody d uri mode i w with
    | .brk w1 => w1
    | .next w1 => repairLoop d uri mode k (i + 1) w1

/-- Lines 136 to 146: the return statement, or the pending panic. -/
def finish (uri : String) (mode : Nat) (parseErr : Option (List E))
    (w : Work σ Tree Tok Fix) : Run Tree Tok Fix E :=
  match w.fault with
  | some f => ⟨w.trace, .error f⟩
  | none =>
    ⟨w.trace, .ok ({
      URI := uri
      Mode := mode
      Src := w.src
      FixedSrc := w.fixedSrc
      FixedAST := w.fixedAST
      File := some w.file
      Tok := w.tok
      Mapper := (uri, w.src)
      ParseErr := parseErr }, w.fixes)⟩

/-- Lines 82 to 134, entered with the results of the first parse. -/
def repair (d : Deps σ Tree Tok Fix E) (uri : String) (mode : Nat)
    (parseErr : Option (List E)) (w : Work σ Tree Tok Fix) : Work σ Tree Tok Fix :=
  match parseErr with
  | none => w
  | some _ =>
    let astFixes := d.fixAST w.file w.tok w.src
    -- `fixedAST = len(fixes) > 0`: the result parameter `fixes`, not `astFixes`
    let fixedAST := decide (w.fixes.length > 0)
    let w := { w with
      fixedAST := fixedAST
      fixes := if fixedAST then w.fixes ++ astFixes else w.fixes
      trace := w.trace ++ [Event.fixAST] }
    repairLoop d uri mode 10 0 w

/-- The local variables at line 82: the tree and the token file of the first
parse, no fix yet. -/
def Work.init (fset : σ) (file : Tree) (src : Bytes) (tok : Option Tok) :
    Work σ Tree Tok Fix :=
  { fset := fset
    file := file
    src := src
    tok := tok
    fixes := []
    fixedSrc := false
    fixedAST := false
    trace := [Event.parse false src]
    fault := none }

/-- Lines 66 to 147 of `ParseGopSrc`, on the buffer that is parsed. -/
def parseAndRepair (d : Deps σ Tree Tok Fix E) (fset : σ) (uri : String) (src : Bytes)
    (mode : Nat) : Run Tree Tok Fix E :=
  let out := d.parseFile fset (d.filename uri) src mode
  match assertErrorList out.1.2 with
  | .error f => ⟨[Event.parse false src], .error f⟩
  | .ok parseErr =>
    match out.1.1 with
    | none => ⟨[Event.parse false src], .error Fault.nilFile⟩
    | some file =>
      let tf := tokenFile d out.2 uri file src
      finish uri mode parseErr (repair d uri mode parseErr (Work.init tf.2 file src tf.1))

/-- The function `ParseGopSrc(ctx, fset, uri, src, mode, purgeFuncBodies)`.
The context is used for logging only and is left out. -/
def ParseGopSrc (d : Deps σ Tree Tok Fix E) (fset : σ) (uri : String) (src : Bytes)
    (mode : Nat) (purgeFuncBodies : Bool) : Run Tree Tok Fix E :=
  parseAndRepair d fset uri (if purgeFuncBodies then d.purgeFuncBodies src else src) mode

/-- The interface `source.FileHandle` as `parseGopImpl` uses it, and the
context: the two results of `fh.Content()`, `fh.URI()` and `ctx.Err()`. -/
structure FileHandle (E : Type) where
  URI : String
  content : Bytes
  contentErr : Option (GoError E)
  ctxErr : Option (GoError E)

/-- The function `parseGopImpl(ctx, fset, fh, mode, purgeFuncBodies)`: the two
return values, or the panic of `ParseGopSrc`. -/
def parseGopImpl (d : Deps σ Tree Tok Fix E) (fset : σ) (fh : FileHandle E) (mode : Nat)
    (purgeFuncBodies : Bool) :
    Except Fault (Option (ParsedGopFile Tree Tok E) × Option (GoError E)) :=
  match fh.contentErr with
  | some err => .ok (none, some err)
  | none =>
    match fh.ctxErr with
    | some err => .ok (none, some err)
    | none =>
      match (ParseGopSrc d fset fh.URI fh.content mode purgeFuncBodies).result with
      | .error f => .error f
      | .ok (pgf, _) => .ok (some pgf, none)

/-- Tells the calls of `fixGopSrc`, one per execution of the loop body. -/
def Event.isFixSrc : Event Fix → Bool
  | .fixSrc => true
  | _ => false

/-- Tells the calls of `fixGopAST`. -/
def Event.isFixAST : Event Fix → Bool
  | .fixAST => true
  | _ => false

/-- Tells the adoptions of a source fix. -/
def Event.isAdopt : Event Fix → Bool
  | .adopt _ => true
  | _ => false

/-- Tells the parses of an edited buffer. -/
def Event.isReparse : Event Fix → Bool
  | .parse true _ => true
  | _ => false

/-- The state a loop body ends with, whichever way it ends. -/
def Step.work {α : Type} : Step α → α
  | .brk w => w
  | .next w => w

end Defs

/-! ### Concrete dependencies

The runs below instantiate the file set by the number of files registered in
it, and trees, token files and fixes by numbers. -/

/-- Dependencies given by a parser (a function of the file set and the
buffer), the positions the file set knows, the fixes of `fixGopAST` and the
edit of `fixGopSrc`. -/
def demo (parse : Nat → Bytes → Option Nat × Option (GoError String))
    (known : Int → Option Nat) (astFixes : List Nat) (edit : Bytes → Option Bytes) :
    Deps Nat Nat Nat Nat String :=
  { purgeFuncBodies := fun _ => []
    filename := fun uri => uri
    parseFile := fun fset _ buf _ => (parse fset buf, fset + 1)
    pos := fun t => (t : Int)
    fsetFile := fun _ p => known p
    addFile := fun fset _ _ size => (1000 + size, fset + 1)
    setLinesForContent := fun t _ => t
    fixAST := fun _ _ _ => astFixes
    fixSrc := fun _ _ src => (edit src, 1) }

/-- A parser that accepts every buffer. -/
def parseClean (_fset : Nat) (_buf : Bytes) : Option Nat × Option (GoError String) :=
  (some 1, none)

/-- A parser that returns tree 1 and one error on buffers without a byte,
tree 2 and another error on buffers of one byte, and no tree on longer
buffers. -/
def parseByLength (_fset : Nat) (buf : Bytes) : Option Nat × Option (GoError String) :=
  match buf with
  | [] => (some 1, some (.errorList ["expected package"]))
  | [_] => (some 2, some (.errorList ["expected declaration"]))
  | _ => (none, some (.errorList ["no tree"]))

/-- A file set that knows position 1 only. -/
def knownOne (p : Int) : Option Nat :=
  if p = 1 then some 7 else none

/-- A source fixer that appends a semicolon. -/
def appendSemicolon (src : Bytes) : Option Bytes :=
  some (src ++ [59])

/-- A source fixer that has nothing to propose. -/
def noEdit (_src : Bytes) : Option Bytes :=
  none

/-- The local variables after one adopted fix: tree 2 of the buffer `;`. -/
def afterOneFix : Work Nat Nat Nat Nat :=
  { fset := 2
    file := 2
    src := [59]
    tok := none
    fixes := [1]
    fixedSrc := true
    fixedAST := false
    trace := [Event.parse false [], Event.fixAST, Event.fixSrc, Event.parse true [59],
      Event.adopt 1, Event.fixAST]
    fault := none }

/-- A file handle whose content is the empty buffer, read without an error
under a context that is not cancelled. -/
def emptyFile : FileHandle String :=
  { URI := "a.gop", content := [], contentErr := none, ctxErr := none }

end Cache

/-! ## Package source: `rename_check_gox.go` -/

namespace Source

/-- A non-nil `*types.Package`: its address and what `Path()` returns. Two
pointers are equal when the descriptors are. -/
structure Package where
  addr : Nat
  path : String
  deriving DecidableEq, Repr

/-- A non-nil `*ast.Ident`. -/
structure Ident where
  name : String
  pos : Int
  deriving DecidableEq, Repr

/-- The dynamic types of a `types.Object`. -/
inductive ObjKind where
  | PkgName
  | Const
  | TypeName
  | Var
  | Func
  | Label
  | Builtin
  | Nil
  deriving DecidableEq, Repr

/-- A non-nil `*types.Scope` with its chain of parents. -/
inductive Scope where
  | root (addr : Nat)
  | inner (addr : Nat) (parent : Scope)
  deriving DecidableEq, Repr

/-- The method `scope.Parent()`. -/
def Scope.Parent : Scope → Option Scope
  | .root _ => none
  | .inner _ p => some p

/-- A non-nil `types.Object`: its address, its dynamic type and what its
methods return. `isField` is `IsField()` of a `*types.Var`, `hasRecv` is
`recv(f) != nil` of a `*types.Func`. Two objects are the same object when
the descriptors are equal. -/
structure Object where
  addr : Nat
  kind : ObjKind
  name : String
  pos : Int
  pkg : Option Package
  parent : Option Scope
  isField : Bool
  hasRecv : Bool
  deriving DecidableEq, Repr

/-- What the renamer reads from the type checker and from helpers that are
not part of `rename_check_gox.go`. -/
structure TypesEnv where
  /-- The call `pkg.Scope().Lookup(name)`; a nil package has the universe
  scope. -/
  lookup : Option Package → String → Option Object
  /-- The function `ast.IsExported`. -/
  isExported : String → Bool
  /-- The helper `objectKind`. -/
  objectKind : Object → String
  /-- The text of an object under the verb `%q`. -/
  objectString : Object → String

/-- One call of `r.errorf(pos, format, args...)`. -/
structure Conflict where
  pos : Int
  format : String
  args : List String
  deriving DecidableEq, Repr

/-- The six safety predicates that `gopCheck` dispatches to. -/
inductive Check where
  | checkInFileBlock
  | checkLabel
  | checkInPackageBlock
  | checkStructField
  | checkMethod
  | checkInLexicalScope
  deriving DecidableEq, Repr

/-- The struct `renamer` as far as `rename_check_gox.go` reads and writes it:
the new name `to`, the set `objsToUpdate` (the keys mapped to true) and the
errors reported so far. `invoked` is a ghost field: the predicates entered so
far, in order. -/
structure Renamer where
  to_ : String
  objsToUpdate : List Object
  errors : List Conflict
  invoked : List (Check × Object)
  deriving DecidableEq, Repr

/-- Modelled from the spec: the method `r.errorf` is not in
`rename_check_gox.go`; the renamer accumulates the errors of a request, so a
call appends its position, format and arguments to them. -/
def Renamer.errorf (r : Renamer) (pos : Int) (format : String) (args : List String) :
    Renamer :=
  { r with errors := r.errors ++ [⟨pos, format, args⟩] }

/-- The bodies of the six safety predicates, which are not in
`rename_check_gox.go`: each is run on the object and the renamer. -/
structure Checks where
  checkInFileBlock : Object → Renamer → Renamer
  checkLabel : Object → Renamer → Renamer
  checkInPackageBlock : Object → Renamer → Renamer
  checkStructField : Object → Renamer → Renamer
  checkMethod : Object → Renamer → Renamer
  checkInLexicalScope : Object → Renamer → Renamer

/-- The predicate of the given name. -/
def Checks.get (cs : Checks) : Check → Object → Renamer → Renamer
  | .checkInFileBlock => cs.checkInFileBlock
  | .checkLabel => cs.checkLabel
  | .checkInPackageBlock => cs.checkInPackageBlock
  | .checkStructField => cs.checkStructField
  | .checkMethod => cs.checkMethod
  | .checkInLexicalScope => cs.checkInLexicalScope

/-- The loop of `isGopLocal`: the number of scopes from `scope` to the root. -/
def scopeDepth : Option Scope → Nat
  | none => 0
  | some (.root _) => 1
  | some (.inner _ p) => scopeDepth (some p) + 1

/-- The function `isGopLocal(obj)`. -/
def isGopLocal (obj : Object) : Bool :=
  decide (scopeDepth obj.parent ≥ 3)

/-- The function `isGopPackageLevel(obj)`. -/
def isGopPackageLevel (env : TypesEnv) : Option Object → Bool
  | none => false
  | some obj => decide (env.lookup obj.pkg obj.name = some obj)

/-- Enters a safety predicate: the ghost field notes it, then its body runs. -/
def Renamer.enter (r : Renamer) (cs : Checks) (c : Check) (obj : Object) : Renamer :=
  cs.get c obj { r with invoked := r.invoked ++ [(c, obj)] }

/-- The method `r.gopCheck(from)`. -/
def gopCheck (env : TypesEnv) (cs : Checks) (r : Renamer) (from_ : Object) : Renamer :=
  if from_ ∈ r.objsToUpdate then
    r
  else
    let r := { r with objsToUpdate := from_ :: r.objsToUpdate }
    -- NB: order of conditions is important.
    if from_.kind = ObjKind.PkgName then
      r.enter cs Check.checkInFileBlock from_
    else if from_.kind = ObjKind.Label then
      r.enter cs Check.checkLabel from_
    else if isGopPackageLevel env (some from_) then
      r.enter cs Check.checkInPackageBlock from_
    else if from_.kind = ObjKind.Var ∧ from_.isField = true then
      r.enter cs Check.checkStructField from_
    else if from_.kind = ObjKind.Func ∧ from_.hasRecv = true then
      r.enter cs Check.checkMethod from_
    else if isGopLocal from_ then
      r.enter cs Check.checkInLexicalScope from_
    else
      r.errorf from_.pos "unexpected %s object %q (please report a bug)\n"
        [env.objectKind from_, env.objectString from_]

/-- The method `r.gopCheckExport(id, pkg, from)`: the result and the renamer
afterwards. -/
def gopCheckExport (env : TypesEnv) (r : Renamer) (id : Ident) (pkg : Package)
    (from_ : Object) : Bool × Renamer :=
  if env.isExported r.to_ = false ∧ some pkg ≠ from_.pkg then
    let r1 := r.errorf from_.pos "renaming %q to %q would make it unexported"
      [from_.name, r.to_]
    let r2 := r1.errorf id.pos "\tbreaking references from packages such as %q"
      [pkg.path]
    (false, r2)
  else
    (true, r)

/-- The safety predicate that the conditions of `gopCheck` select for the
object, tested in the order of the source; none when no condition holds. -/
def selectCheck (env : TypesEnv) (obj : Object) : Option Check :=
  if obj.kind = ObjKind.PkgName then some Check.checkInFileBlock
  else if obj.kind = ObjKind.Label then some Check.checkLabel
  else if isGopPackageLevel env (some obj) then some Check.checkInPackageBlock
  else if obj.kind = ObjKind.Var ∧ obj.isField = true then some Check.checkStructField
  else if obj.kind = ObjKind.Func ∧ obj.hasRecv = true then some Check.checkMethod
  else if isGopLocal obj then some Check.checkInLexicalScope
  else none

/-- Tells whether one of the six conditions of `gopCheck` holds for the
object, so that a safety predicate is selected for it. -/
def hasCheck (env : TypesEnv) (obj : Object) : Bool :=
  (selectCheck env obj).isSome

/-- What a rename request does with the renamer, as a tree of calls: an
`errorf`, or a call `r.gopCheck(obj)` whose `body` is what the predicate
selected for `obj` does when it is entered (its own `errorf`s and re-entrant
`gopCheck`s); `rest` is what follows the call. -/
inductive Script where
  | done
  | errorf (pos : Int) (format : String) (args : List String) (rest : Script)
  | check (obj : Object) (body : Script) (rest : Script)

/-- The predicates that all run the given body. -/
def Checks.ofBody (f : Renamer → Renamer) : Checks :=
  ⟨fun _ => f, fun _ => f, fun _ => f, fun _ => f, fun _ => f, fun _ => f⟩

/-- Runs a tree of calls: every `check` node is a call of `gopCheck`. -/
def Script.run (env : TypesEnv) : Script → Renamer → Renamer
  | .done, r => r
  | .errorf pos format args rest, r => rest.run env (r.errorf pos format args)
  | .check obj body rest, r =>
    rest.run env (gopCheck env (Checks.ofBody (fun r1 => body.run env r1)) r obj)

/-- How often a safety predicate was entered for the object. -/
def Renamer.entered (r : Renamer) (obj : Object) : Nat :=
  r.invoked.countP (fun e => decide (e.2 = obj))

/-- The objects of the calls of `gopCheck` that a tree of calls makes one
after the other at its top level. -/
def Script.calls : Script → List Object
  | .done => []
  | .errorf _ _ _ rest => rest.calls
  | .check obj _ rest => obj :: rest.calls

/-- A step of a rename request keeps count: it only adds to `objsToUpdate`,
and it enters the predicate of an object once if it records the object and
the object has a predicate, and not at all otherwise. -/
def KeepsCount (env : TypesEnv) (f : Renamer → Renamer) : Prop :=
  ∀ r : Renamer,
    (∀ x, x ∈ r.objsToUpdate → x ∈ (f r).objsToUpdate) ∧
    ∀ x, (f r).entered x = r.entered x +
      if x ∉ r.objsToUpdate ∧ x ∈ (f r).objsToUpdate ∧ hasCheck env x = true then 1 else 0

/-! ### Concrete objects -/

/-- A package `a`. -/
def pkgA : Package := ⟨1, "example.com/a"⟩

/-- A package `b`. -/
def pkgB : Package := ⟨2, "example.com/b"⟩

/-- A package-level variable `V` of package `a`. -/
def objV : Object :=
  { addr := 10, kind := ObjKind.Var, name := "V", pos := 100, pkg := some pkgA,
    parent := some (Scope.inner 2 (Scope.root 1)), isField := false, hasRecv := false }

/-- A struct field `F` of package `a`. -/
def objF : Object :=
  { addr := 11, kind := ObjKind.Var, name := "F", pos := 110, pkg := some pkgA,
    parent := none, isField := true, hasRecv := false }

/-- A type checker in which `V` is found in the scope of package `a`, and in
which the exported names are `V` and `F`. -/
def demoEnv : TypesEnv :=
  { lookup := fun pkg name => if pkg = some pkgA ∧ name = "V" then some objV else none
    isExported := fun name => name == "V" || name == "F"
    objectKind := fun _ => "var"
    objectString := fun obj => obj.name }

/-- A renamer at the start of a request for the new name `v`. -/
def freshRenamer : Renamer :=
  { to_ := "v", objsToUpdate := [], errors := [], invoked := [] }

/-- A renamer that has recorded `V`. -/
def renamerWithV : Renamer :=
  { to_ := "v", objsToUpdate := [objV], errors := [],
    invoked := [(Check.checkInPackageBlock, objV)] }

/-- An identifier `V` at position 200, in a file of package `b`. -/
def identV : Ident := ⟨"V", 200⟩

/-- A request that checks `V`, whose predicate checks `F`, whose predicate
checks `V` again; afterwards the request checks `F` and `V` once more. -/
def demoScript : Script :=
  Script.check objV
    (Script.check objF (Script.check objV Script.done Script.done) Script.done)
    (Script.check objF Script.done (Script.check objV Script.done Script.done))

/-- Predicates that would report an error whenever they are entered. -/
def loudChecks : Checks :=
  Checks.ofBody (fun r => r.errorf 0 "entered" [])

end Source

/-! ## Reference traversal: `gopForEachLexicalRef` -/

namespace Source

/-- Syntax nodes as `gopForEachLexicalRef` tells them apart: identifiers,
selector expressions, composite literals (with the address that keys the
table `Types`, the type expression, nil or not, and the elements),
key-value expressions, and every other node with the non-nil children that
`ast.Walk` visits, in that order. A child that the syntax requires cannot be
nil. -/
inductive Node where
  | ident (id : Ident)
  | selectorExpr (X : Node) (Sel : Ident)
  | compositeLit (addr : Nat) (Typ : Option Node) (Elts : List Node)
  | keyValueExpr (Key Value : Node)
  | other (addr : Nat) (children : List Node)
  deriving Repr

/-- One call `fn(id, block)` and what it returned. -/
structure Call where
  id : Ident
  block : Option Scope
  result : Bool
  deriving DecidableEq, Repr

/-- The interface `Package` as the traversal reads it. -/
structure RefPkg where
  /-- The table `pkg.GopTypesInfo().Uses`; nil for an identifier without an
  entry. -/
  uses : Ident → Option Object
  /-- The entry of `pkg.GopTypesInfo().Types` for the composite literal at
  the address, if any, and whether `Deref(tv.Type).Underlying()` is a
  `*types.Struct`. -/
  litStruct : Nat → Option Bool
  /-- The helper `enclosingBlock(pkg.GetTypesInfo(), stack)`. -/
  enclosingBlock : List Node → Option Scope
  /-- The trees `cgf.File` of `pkg.CompiledGopFiles()`. -/
  files : List Node

/-- The two panics of `gopForEachLexicalRef`. -/
inductive TravPanic where
  /-- The slice expression `stack[:len(stack)-1]` on an empty stack (line 25). -/
  | popEmpty
  /-- The statement `panic(stack)` (line 76). -/
  | stackNotEmpty
  deriving DecidableEq, Repr

/-- The variables that the closure `visit` shares with its caller: `ok`,
`stack`, and the pending panic. `calls` is a ghost field: the calls of `fn`
made so far, in order. -/
structure Trav where
  ok : Bool
  stack : List Node
  calls : List Call
  panicked : Option TravPanic
  deriving Repr

/-- The callback `fn`. Its answer may depend on the calls made before. -/
abbrev RefFn := List Call → Ident → Option Scope → Bool

/-- The variables with another stack. -/
def Trav.withStack (s : Trav) (stack : List Node) : Trav :=
  { s with stack := stack }

/-- The call `visit(nil)` (lines 24 to 27): pops the stack and returns false.
Nothing runs after a panic. -/
def visitNil (s : Trav) : Bool × Trav :=
  if s.panicked.isSome then (false, s)
  else if s.stack.length = 0 then (false, { s with panicked := some TravPanic.popEmpty })
  else (false, s.withStack s.stack.dropLast)

/-- Lines 28 to 32 for a non-nil node: none when `visit` bails out, else the
variables after the push. -/
def enter (n : Node) (s : Trav) : Option Trav :=
  if s.panicked.isSome then none
  else if !s.ok then none
  else some (s.withStack (s.stack ++ [n]))

/-- Lines 35 to 40, after the push: the identifier is reported to `fn` when
`Uses` maps it to `obj`. -/
def visitIdent (pkg : RefPkg) (obj : Option Object) (fn : RefFn) (id : Ident)
    (s : Trav) : Trav :=
  if pkg.uses id = obj then
    let block := pkg.enclosingBlock s.stack
    let result := fn s.calls id block
    { s with
      calls := s.calls ++ [⟨id, block, result⟩]
      ok := if result then s.ok else false }
  else
    s

mutual
/-- The call `ast.Inspect(n, visit)` for a non-nil node: `visit(n)`, and when
that returns true the children of `n` in the order of `ast.Walk`, followed
by `visit(nil)`. -/
def inspect (pkg : RefPkg) (obj : Option Object) (fn : RefFn) : Node → Trav → Trav
  | .ident id, s =>
    match enter (.ident id) s with
    | none => s
    | some s1 => (visitNil (visitIdent pkg obj fn id s1)).2
  | .selectorExpr X Sel, s =>
    match enter (.selectorExpr X Sel) s with
    | none => s
    | some s1 => (visitNil (inspect pkg obj fn X s1)).2
  | .compositeLit addr typ elts, s =>
    match enter (.compositeLit addr typ elts) s with
    | none => s
    | some s1 =>
      match pkg.litStruct addr with
      | none => (visitNil s1).2
      | some true =>
        (visitNil (inspectElts pkg obj fn elts (inspectOpt pkg obj fn typ s1))).2
      | some false =>
        (visitNil (inspectList pkg obj fn elts (inspectOpt pkg obj fn typ s1))).2
  | .keyValueExpr key value, s =>
    match enter (.keyValueExpr key value) s with
    | none => s
    | some s1 => (visitNil (inspect pkg obj fn value (inspect pkg obj fn key s1))).2
  | .other addr children, s =>
    match enter (.other addr children) s with
    | none => s
    | some s1 => (visitNil (inspectList pkg obj fn children s1)).2
/-- The statement `if n != nil { ast.Inspect(n, visit) }`. -/
def inspectOpt (pkg : RefPkg) (obj : Option Object) (fn : RefFn) :
    Option Node → Trav → Trav
  | none, s => s
  | some n, s => inspect pkg obj fn n s
/-- The nodes of a list inspected one after the other. -/
def inspectList (pkg : RefPkg) (obj : Option Object) (fn : RefFn) :
    List Node → Trav → Trav
  | [], s => s
  | n :: ns, s => inspectList pkg obj fn ns (inspect pkg obj fn n s)
/-- Lines 59 to 65: of a key-value element the value is inspected, any other
element is inspected itself. -/
def inspectElts (pkg : RefPkg) (obj : Option Object) (fn : RefFn) :
    List Node → Trav → Trav
  | [], s => s
  | .keyValueExpr _ value :: elts, s =>
    inspectElts pkg obj fn elts (inspect pkg obj fn value s)
  | elt :: elts, s => inspectElts pkg obj fn elts (inspect pkg obj fn elt s)
end

/-- The closure `visit` (lines 23 to 70) on a non-nil node; the calls
`ast.Inspect(child, visit)` in it are `inspect`. -/
def visit (pkg : RefPkg) (obj : Option Object) (fn : RefFn) (n : Node) (s : Trav) :
    Bool × Trav :=
  match enter n s with
  | none => (false, s)
  | some s1 =>
    match n with
    | .ident id => visitNil (visitIdent pkg obj fn id s1)
    | .selectorExpr X _ => visitNil (inspect pkg obj fn X s1)
    | .compositeLit addr typ elts =>
      match pkg.litStruct addr with
      | none => visitNil s1
      | some true => visitNil (inspectElts pkg obj fn elts (inspectOpt pkg obj fn typ s1))
      | some false => (true, s1)
    | _ => (true, s1)

/-- The children part of `ast.Walk`: every child is walked with `visit`. -/
def walkChildren (pkg : RefPkg) (obj : Option Object) (fn : RefFn) : Node → Trav → Trav
  | .ident _, s => s
  | .selectorExpr X Sel, s => inspect pkg obj fn (.ident Sel) (inspect pkg obj fn X s)
  | .compositeLit _ typ elts, s => inspectList pkg obj fn elts (inspectOpt pkg obj fn typ s)
  | .keyValueExpr key value, s => inspect pkg obj fn value (inspect pkg obj fn key s)
  | .other _ children, s => inspectList pkg obj fn children s

/-- Lines 72 to 81: the loop over the compiled files. -/
def filesLoop (pkg : RefPkg) (obj : Option Object) (fn : RefFn) : List Node → Trav → Trav
  | [], s => s
  | f :: fs, s =>
    let s1 := inspect pkg obj fn f s
    if s1.panicked.isSome then s1
    else if s1.stack.length ≠ 0 then { s1 with panicked := some TravPanic.stackNotEmpty }
    else if !s1.ok then s1
    else filesLoop pkg obj fn fs s1

/-- The variables at the start of `gopForEachLexicalRef` (lines 19 and 20). -/
def Trav.start : Trav := ⟨true, [], [], none⟩

/-- The function `gopForEachLexicalRef(pkg, obj, fn)`: the variables at the
return statement; `ok` is the value returned. -/
def gopForEachLexicalRef (pkg : RefPkg) (obj : Option Object) (fn : RefFn) : Trav :=
  filesLoop pkg obj fn pkg.files Trav.start

/-- The part of an element of a struct literal that is traversed: the value
of a key-value element, any other element itself. -/
def eltValue : Node → Node
  | .keyValueExpr _ value => value
  | elt => elt

mutual
/-- All identifiers of a tree, in source order. -/
def idents : Node → List Ident
  | .ident id => [id]
  | .selectorExpr X Sel => idents X ++ [Sel]
  | .compositeLit _ typ elts => identsOpt typ ++ identsList elts
  | .keyValueExpr key value => idents key ++ idents value
  | .other _ children => identsList children
/-- All identifiers of an optional tree. -/
def identsOpt : Option Node → List Ident
  | none => []
  | some n => idents n
/-- All identifiers of a list of trees. -/
def identsList : List Node → List Ident
  | [] => []
  | n :: ns => idents n ++ identsList ns
end

mutual
/-- The references of section 4.5a of the spec, in the order of a depth-first
visit: every identifier that resolves to the target, with the stack of nodes
from the root down to it. Of a selector expression only the base is
traversed; of a composite literal over a struct type the type expression and
the element values, not the keys; other composite literals are traversed
like any node. A composite literal without an entry in `Types`, on which the
spec is silent, contributes nothing. -/
def lexicalRefs (pkg : RefPkg) (obj : Option Object) (stack : List Node) :
    Node → List (Ident × List Node)
  | .ident id => if pkg.uses id = obj then [(id, stack ++ [.ident id])] else []
  | .selectorExpr X Sel => lexicalRefs pkg obj (stack ++ [.selectorExpr X Sel]) X
  | .compositeLit addr typ elts =>
    match pkg.litStruct addr with
    | none => []
    | some true =>
      lexicalRefsOpt pkg obj (stack ++ [.compositeLit addr typ elts]) typ ++
        lexicalRefsElts pkg obj (stack ++ [.compositeLit addr typ elts]) elts
    | some false =>
      lexicalRefsOpt pkg obj (stack ++ [.compositeLit addr typ elts]) typ ++
        lexicalRefsList pkg obj (stack ++ [.compositeLit addr typ elts]) elts
  | .keyValueExpr key value =>
    lexicalRefs pkg obj (stack ++ [.keyValueExpr key value]) key ++
      lexicalRefs pkg obj (stack ++ [.keyValueExpr key value]) value
  | .other addr children => lexicalRefsList pkg obj (stack ++ [.other addr children]) children
/-- The references of an optional tree. -/
def lexicalRefsOpt (pkg : RefPkg) (obj : Option Object) (stack : List Node) :
    Option Node → List (Ident × List Node)
  | none => []
  | some n => lexicalRefs pkg obj stack n
/-- The references of a list of trees. -/
def lexicalRefsList (pkg : RefPkg) (obj : Option Object) (stack : List Node) :
    List Node → List (Ident × List Node)
  | [] => []
  | n :: ns => lexicalRefs pkg obj stack n ++ lexicalRefsList pkg obj stack ns
/-- The references of the elements of a struct literal: those of the values. -/
def lexicalRefsElts (pkg : RefPkg) (obj : Option Object) (stack : List Node) :
    List Node → List (Ident × List Node)
  | [] => []
  | .keyValueExpr _ value :: elts =>
    lexicalRefs pkg obj stack value ++ lexicalRefsElts pkg obj stack elts
  | elt :: elts => lexicalRefs pkg obj stack elt ++ lexicalRefsElts pkg obj stack elts
end

/-- Reports references to `fn` one after the other, as long as `ok` holds. -/
def feed (pkg : RefPkg) (fn : RefFn) : List (Ident × List Node) → Trav → Trav
  | [], s => s
  | (id, stack) :: rest, s =>
    if s.ok then
      feed pkg fn rest
        { s with
          calls := s.calls ++ [⟨id, pkg.enclosingBlock stack, fn s.calls id
            (pkg.enclosingBlock stack)⟩]
          ok := fn s.calls id (pkg.enclosingBlock stack) }
    else
      s

/-- The calls of `fn` are consistent with `ok`: `ok` holds exactly when every
call returned true, every call but the last returned true, and every call
returned what `fn` answers after the calls before it. -/
def Trav.Consistent (fn : RefFn) (s : Trav) : Prop :=
  (s.ok = true ↔ ∀ c ∈ s.calls, c.result = true) ∧
    (∀ c ∈ s.calls.dropLast, c.result = true) ∧
    (∀ pre c post, s.calls = pre ++ c :: post → c.result = fn pre c.id c.block)

/-! ### Concrete trees -/

/-- The struct type `S` of package `a`. -/
def objS : Object :=
  { addr := 12, kind := ObjKind.TypeName, name := "S", pos := 20, pkg := some pkgA,
    parent := some (Scope.inner 2 (Scope.root 1)), isField := false, hasRecv := false }

/-- The variable `s` of package `a`. -/
def objSmall : Object :=
  { addr := 13, kind := ObjKind.Var, name := "s", pos := 60, pkg := some pkgA,
    parent := some (Scope.inner 2 (Scope.root 1)), isField := false, hasRecv := false }

/-- The composite literal `S{F: 1}` at address 9; the key `F` is at position
72, the literal `1` is the node at address 10. -/
def litSF : Node :=
  Node.compositeLit 9 (some (Node.ident ⟨"S", 70⟩))
    [Node.keyValueExpr (Node.ident ⟨"F", 72⟩) (Node.other 10 [])]

/-- The file `package a; type S struct { F int }; var s = S{F: 1}`. -/
def fileSF : Node :=
  Node.other 1 [
    Node.ident ⟨"a", 9⟩,
    Node.other 2 [Node.other 3 [Node.ident ⟨"S", 20⟩,
      Node.other 4 [Node.other 5 [Node.other 6 [Node.ident ⟨"F", 40⟩,
        Node.ident ⟨"int", 42⟩]]]]],
    Node.other 7 [Node.other 8 [Node.ident ⟨"s", 60⟩, litSF]]]

/-- The selector expression `s.F`, with `s` at position 90 and `F` at 92. -/
def selSF : Node :=
  Node.selectorExpr (Node.ident ⟨"s", 90⟩) ⟨"F", 92⟩

/-- The file `package a; var t = s.F`. -/
def fileSel : Node :=
  Node.other 11 [
    Node.ident ⟨"a", 80⟩,
    Node.other 12 [Node.other 13 [Node.ident ⟨"t", 85⟩, selSF]]]

/-- The table `Uses` of the two files: the key of the literal and the selected
name both resolve to the field `F`, the type expression to `S`, the base of
the selector to `s`. -/
def demoUses (id : Ident) : Option Object :=
  if id = ⟨"F", 72⟩ ∨ id = ⟨"F", 92⟩ then some objF
  else if id = ⟨"S", 70⟩ then some objS
  else if id = ⟨"s", 90⟩ then some objSmall
  else none

/-- The package of the two files; the literal at address 9 has a struct type,
and the block of a reference is told by the depth of its stack. -/
def demoPkg : RefPkg :=
  { uses := demoUses
    litStruct := fun addr => if addr = 9 then some true else none
    enclosingBlock := fun stack => some (Scope.root stack.length)
    files := [fileSF, fileSel] }

/-- The same package when the type of the literal at address 9 is not a
struct type. -/
def demoPkgMap : RefPkg :=
  { demoPkg with litStruct := fun addr => if addr = 9 then some false else none }

/-- A callback that accepts every reference. -/
def fnTrue : RefFn := fun _ _ _ => true

/-- A callback that rejects every reference. -/
def fnFalse : RefFn := fun _ _ _ => false

end Source

/-! ## Analysis pass: `appends.go` -/

namespace Appends

/-- The expression `call.Fun`: an identifier, or any other expression. -/
inductive Callee where
  | ident (id : Source.Ident)
  | otherExpr (addr : Nat)
  deriving DecidableEq, Repr

/-- A non-nil `*ast.CallExpr`: its address, its callee and its arguments
(their addresses). -/
structure CallExpr where
  addr : Nat
  Fun : Callee
  Args : List Nat
  deriving DecidableEq, Repr

/-- A node of the files of the pass: a call expression, or a node of another
type. -/
inductive ANode where
  | callExpr (call : CallExpr)
  | otherNode (addr : Nat)
  deriving DecidableEq, Repr

/-- One call `pass.ReportRangef(call, message)`: the node and the message. -/
structure Diagnostic where
  node : CallExpr
  message : String
  deriving DecidableEq, Repr

/-- The struct `analysis.Pass` as `run` reads it: the nodes of the files in the
order of the inspector (depth first, a node before its children), and for
each identifier the dynamic type of its entry in `GopTypesInfo.Uses`, if it
has one. -/
structure Pass where
  nodes : List ANode
  uses : Source.Ident → Option Source.ObjKind

/-- Modelled from the spec: the method `Preorder` of the inspector is not in
`appends.go`; it calls the visitor for each node that matches the declared
node-type filter, here the call expressions, in order. -/
def preorderCalls (nodes : List ANode) (f : CallExpr → List Diagnostic → List Diagnostic)
    (reports : List Diagnostic) : List Diagnostic :=
  nodes.foldl (fun acc n =>
    match n with
    | .callExpr call => f call acc
    | .otherNode _ => acc) reports

/-- The function literal of lines 38 to 47: what it does with one call
expression, given the diagnostics reported so far. -/
def visitCall (pass : Pass) (call : CallExpr) (reports : List Diagnostic) : List Diagnostic :=
  match call.Fun with
  | .ident ident =>
    if ident.name = "append" then
      match pass.uses ident with
      | some Source.ObjKind.Builtin =>
        if call.Args.length = 1 then
          reports ++ [⟨call, "append with no values"⟩]
        else reports
      | _ => reports
    else reports
  | .otherExpr _ => reports

/-- The function `run(pass)`: the diagnostics reported, and the two results,
both nil. -/
def run (pass : Pass) : List Diagnostic × (Option Unit × Option String) :=
  (preorderCalls pass.nodes (visitCall pass) [], (none, none))

/-- The three conditions of the claim on a call expression: the callee is the
bare identifier `append`, `Uses` resolves it to a built-in, and there is one
argument. -/
def isBareAppend (pass : Pass) (call : CallExpr) : Bool :=
  match call.Fun with
  | .ident ident =>
    decide (ident.name = "append") &&
      decide (pass.uses ident = some Source.ObjKind.Builtin) &&
      decide (call.Args.length = 1)
  | .otherExpr _ => false

/-- The diagnostic of the claim for a node: one for a call expression that
meets the three conditions, none for any other node. -/
def expectedReport (pass : Pass) : ANode → Option Diagnostic
  | .callExpr call =>
    if isBareAppend pass call then some ⟨call, "append with no values"⟩ else none
  | .otherNode _ => none

/-- The call `append(s)` at address 1, with the identifier at position 10. -/
def callAppendOne : CallExpr := ⟨1, Callee.ident ⟨"append", 10⟩, [2]⟩

/-- The call `append(s, x)` at address 3. -/
def callAppendTwo : CallExpr := ⟨3, Callee.ident ⟨"append", 30⟩, [4, 5]⟩

/-- The call `append(t)` at address 6 of a function `append` that the file
declares. -/
def callShadowed : CallExpr := ⟨6, Callee.ident ⟨"append", 60⟩, [7]⟩

/-- A pass over the three calls and a node of another type; `append` at
position 60 is a user function. -/
def demoPass : Pass :=
  { nodes := [ANode.otherNode 0, ANode.callExpr callAppendOne, ANode.callExpr callAppendTwo,
      ANode.callExpr callShadowed]
    uses := fun id =>
      if id.pos = 60 then some Source.ObjKind.Func
      else if id.name = "append" then some Source.ObjKind.Builtin
      else none }

end Appends

/-! ## Package loading: `packages.go` -/

namespace Packages

/-- The struct `packages.Package` of the delegate loader as `Load` reads it:
the identifier, the errors of the package and the entries of the map
`Imports` (distinct paths). -/
inductive GoPackage where
  | mk (ID : String) (Errors : List String) (Imports : List (String × GoPackage))
  deriving Repr

/-- The field `Errors`. -/
def GoPackage.Errors : GoPackage → List String
  | .mk _ errors _ => errors

/-- The field `Imports`. -/
def GoPackage.Imports : GoPackage → List (String × GoPackage)
  | .mk _ _ imports => imports

/-- The struct `Package`: the embedded `packages.Package`, the two file
lists, the map `Imports` (nil, or its entries) and `TypesInfo` (nil or not). -/
inductive Package where
  | mk (embedded : GoPackage) (GopFiles CompiledGopFiles : List String)
      (Imports : Option (List (String × Package))) (TypesInfo : Option Unit)
  deriving Repr

/-- The embedded field `Package`. -/
def Package.embedded : Package → GoPackage
  | .mk e _ _ _ _ => e

/-- The field `Imports` of the wrapper. -/
def Package.Imports : Package → Option (List (String × Package))
  | .mk _ _ _ imports _ => imports

/-- The promoted field `Errors`. -/
def Package.Errors (p : Package) : List String :=
  p.embedded.Errors

/-- The function `importPkgs(pkgs)`. -/
def importPkgs (pkgs : List (String × GoPackage)) : Option (List (String × Package)) :=
  if pkgs.length = 0 then
    none
  else
    some (pkgs.map (fun entry => (entry.1, Package.mk entry.2 [] [] none none)))

/-- The function `Load(cfg, patterns...)`, given the delegate
`packages.Load`: the package list (nil or not) and the error. -/
def Load {Config : Type} (delegate : Config → List String → List GoPackage × Option String)
    (cfg : Config) (patterns : List String) : Option (List Package) × Option String :=
  match (delegate cfg patterns).2 with
  | some err => (none, some err)
  | none =>
    (some ((delegate cfg patterns).1.map
      (fun pkg => Package.mk pkg [] [] (importPkgs pkg.Imports) none)), none)

/-- A package `c` without imports, with one error. -/
def goC : GoPackage := GoPackage.mk "c" ["c.gop:1:1: bad import"] []

/-- A package `b` that imports `c`. -/
def goB : GoPackage := GoPackage.mk "b" [] [("example.com/c", goC)]

/-- A package `a` that imports `b`. -/
def goA : GoPackage := GoPackage.mk "a" [] [("example.com/b", goB)]

/-- A delegate that loads `a` and `c`. -/
def loadAC (_cfg : Unit) (_patterns : List String) : List GoPackage × Option String :=
  ([goA, goC], none)

/-- A delegate that fails. -/
def loadFails (_cfg : Unit) (_patterns : List String) : List GoPackage × Option String :=
  ([], some "invalid pattern")

end Packages

/-! ## Completion: `format_gox.go` -/

namespace Completion

/-- The values of `typeModKind` that `item` tells apart; any other value is
`otherMod`. -/
inductive TypeMod where
  | reference
  | dereference
  | chanRead
  | invoke
  | takeSlice
  | takeDotDotDot
  | index
  | otherMod (n : Nat)
  deriving DecidableEq, Repr

/-- The values of `protocol.CompletionItemKind` that `format_gox.go` names;
any other value is `otherKind`. -/
inductive ItemKind where
  | TextCompletion
  | ConstantCompletion
  | FieldCompletion
  | VariableCompletion
  | FunctionCompletion
  | MethodCompletion
  | ModuleCompletion
  | InterfaceCompletion
  | ClassCompletion
  | otherKind (n : Nat)
  deriving DecidableEq, Repr

/-- The two completion item tags of `format_gox.go`. -/
inductive ItemTag where
  | CompletionItemTagOverload
  | ComplDeprecated
  deriving DecidableEq, Repr

/-- A `protocol.TextEdit`: where it applies and the new text. -/
structure TextEdit where
  pos : Int
  newText : String
  deriving DecidableEq, Repr

/-- What `item` reads from a `*source.signature`: `Format()`, `TypeParams()`
and `Params()`. -/
structure FSig where
  format : String
  typeParams : List String
  params : List String
  deriving DecidableEq, Repr

/-- The calls made on a `snippet.Builder`, in order. The builder is the list
of the calls made on it so far. `writePlaceholder` is `WritePlaceholder(nil)`
and `writePlaceholderText` is `WritePlaceholder` with a function that writes
the text. -/
inductive SnipOp where
  | writeText (text : String)
  | writePlaceholder
  | writePlaceholderText (text : String)
  | writeFinalTabstop
  | prependText (text : String)
  | structFieldSnippet (detail : String)
  | functionCallSnippet (name : String) (typeParams params : List String)
  deriving DecidableEq, Repr

/-- The struct `importInfo`. -/
structure ImportInfo where
  importPath : String
  name : String
  deriving DecidableEq, Repr

/-- The errors that `item` returns: its two sentinels, or an error of a
callee. -/
inductive ItemError where
  | errNoMatch
  | errLowScore
  | other (msg : String)
  deriving DecidableEq, Repr

/-- The run-time panics in the body of `item`. -/
inductive ItemPanic where
  /-- The index expression `c.path[0]` on an empty path (line 367). -/
  | emptyPath
  /-- The call `Underlying()` on a nil type (lines 127 and 164). -/
  | nilType
  /-- The type assertion `o.(*types.Func)` (line 180). -/
  | notFunc
  /-- The type assertion `o.Type().(*types.Signature)` (line 182). -/
  | notSignature
  deriving DecidableEq, Repr

/-- The struct `CompletionItem`. A `Kind` of none is the zero value; the
`snippet` is nil or a builder. -/
structure CompletionItem where
  Label : String
  InsertText : String
  AdditionalTextEdits : List TextEdit
  Detail : String
  Kind : Option ItemKind
  Tags : List ItemTag
  Score : ℚ
  Depth : Nat
  snippet : Option (List SnipOp)
  isSlice : Bool
  isOverload : Bool
  Documentation : String
  Deprecated : Bool
  deriving DecidableEq, Repr

/-- The zero value `CompletionItem{}`. -/
def CompletionItem.zero : CompletionItem :=
  { Label := "", InsertText := "", AdditionalTextEdits := [], Detail := "", Kind := none,
    Tags := [], Score := 0, Depth := 0, snippet := none, isSlice := false,
    isOverload := false, Documentation := "", Deprecated := false }

/-- The type of the receiver of a method as `writeFuncName` tells it apart:
an interface, a named type (the path of the package of its origin, if it has
a package, and its name), or any other type. -/
inductive RecvType where
  | iface
  | named (pkgPath : Option String) (name : String)
  | otherType
  deriving DecidableEq, Repr

/-- A non-nil `*types.Func` as `writeFuncName` reads it: whether `Type()` is
non-nil, the type of the receiver of its signature if it has one, the path
of `Pkg()` if that is non-nil, and `Name()`. -/
structure FuncObj where
  hasType : Bool
  recv : Option RecvType
  pkgPath : Option String
  name : String
  deriving DecidableEq, Repr

/-- A node of `c.path` as `wantTypeParams` reads it: `Pos()`, and for a
`*ast.FuncDecl` the end of its receiver list, if it has one. -/
structure PathNode where
  pos : Int
  funcDecl : Option (Option Int)
  deriving DecidableEq, Repr

/-- What the completer calls but does not change: the rest of `gopCompleter`
and the packages it uses. `O` are the values of `types.Object`, `T` those of
`types.Type` and `S` the `*types.Signature`s. A floating-point score is a
rational number here. -/
structure Env (O T S : Type) where
  /-- The method `c.matcher.Score`. -/
  score : String → ℚ
  /-- The method `c.deepState.isHighScore`. -/
  isHighScore : ℚ → Bool
  /-- The option `c.opts.snippets`. -/
  snippets : Bool
  /-- The option `c.opts.documentation`. -/
  documentation : Bool
  /-- The option `c.opts.fullDocumentation`. -/
  fullDocumentation : Bool
  /-- The option `CompletionTags` of the view. -/
  completionTags : Bool
  /-- The option `CompletionDeprecated` of the view. -/
  completionDeprecated : Bool
  /-- The variable `showGopStyle`. -/
  showGopStyle : Bool
  /-- The field `c.path`. -/
  path : List PathNode
  /-- The test `obj.Parent() == types.Universe`. -/
  inUniverse : O → Bool
  /-- The method `obj.Type()`, nil or not. -/
  objType : O → Option T
  /-- The dynamic type of the object. -/
  objKind : O → Source.ObjKind
  /-- The method `obj.Name()`. -/
  objName : O → String
  /-- The method `IsField()` of a `*types.Var`. -/
  objIsField : O → Bool
  /-- The helper `isTypeName`. -/
  isTypeName : O → Bool
  /-- The helper `isSlice`. -/
  isSlice : O → Bool
  /-- The path `obj.Imported().Path()` of a `*types.PkgName`. -/
  importedPath : O → String
  /-- The function `types.TypeString(t, c.qf)`, also on a nil type. -/
  typeString : Option T → String
  /-- For a type that is a `*types.Named`, the text
  `source.FormatTypeParams(typeparams.ForNamed(named))`. -/
  namedTypeParams : T → Option String
  /-- The function `source.FormatType(t, c.qf)`. -/
  formatType : Option T → String × ItemKind
  /-- The test `t.(*types.Struct)`. -/
  isStructType : Option T → Bool
  /-- The function `source.FormatVarType`. -/
  formatVarType : O → Except String String
  /-- The assertion `t.Underlying().(*types.Signature)` on a non-nil type. -/
  underlyingSig : T → Option S
  /-- The test `sig != nil && sig.Recv() != nil`. -/
  sigHasRecv : S → Bool
  /-- The types of `sig.Results()`. -/
  sigResults : S → List T
  /-- The function `source.NewSignature` on a signature. -/
  newSignature : S → Except String FSig
  /-- The function `source.NewBuiltinSignature` on a name. -/
  newBuiltinSignature : String → Except String FSig
  /-- The objects that `gogen.CheckSigFuncExObjects(sig)` returns. -/
  overloads : S → List O
  /-- The assertion `o.(*types.Func)`. -/
  asFunc : O → Option FuncObj
  /-- The assertion `o.Type().(*types.Signature)`. -/
  asSignature : O → Option S
  /-- The function `types.IsInterface` on the type of an object. -/
  isInterface : O → Bool
  /-- The method `c.pkg.GopFile` on the file of the completer: its error. -/
  gopFileErr : Option String
  /-- The function `source.GopComputeOneImportFixEdits` on an import. -/
  computeImportFix : ImportInfo → Except String (List TextEdit)
  /-- The position `sel.Pos()` of `enclosingSelector(c.path, c.pos)`, if that
  is non-nil. -/
  enclosingSelector : Option Int
  /-- The method `c.editText`. -/
  editText : Int → Int → String → Except String (List TextEdit)
  /-- The text of a type to convert to, `types.TypeString(cand.convertTo, c.qf)`. -/
  convertString : T → String
  /-- Whether the type to convert to is a `*types.Pointer` or a
  `*types.Signature`. -/
  convertNeedsParens : T → Bool
  /-- The text of a string under the verb `%q`. -/
  quote : String → String
  /-- Whether the start position of the object is valid. -/
  posIsValid : O → Bool
  /-- The text `comment.Text()` of `source.HoverDocForObject`, or its error. -/
  hoverDoc : O → Except String String
  /-- The function `doc.Synopsis`. -/
  synopsis : String → String

/-- The struct `candidate` as `item` reads it; `pathLen` is `len(cand.path)`. -/
structure Candidate (O T : Type) where
  obj : O
  name : String
  score : ℚ
  pathLen : Nat
  mods : List TypeMod
  imp : Option ImportInfo
  convertTo : Option T
  detail : String

/-- The calls of `item` that act on something outside it. This is a ghost
record. -/
inductive Effect where
  | isHighScore
  | importEdits
  | editText
  | hoverDoc
  | logError
  deriving DecidableEq, Repr

/-- What `item` changes in the completer: the map `c.skipFunc` (the keys set
to true, in the order they were set) and, as a ghost field, the effects so
far. -/
structure CState where
  skipFunc : List String
  effects : List Effect
  deriving DecidableEq, Repr

/-- How a call of `item` ends: with its two results, or with a panic. -/
inductive Outcome where
  | ret (item : CompletionItem) (err : Option ItemError)
  | panic (p : ItemPanic)
  deriving DecidableEq, Repr

/-- How a part of `item` ends early: with an error, or with a panic. -/
inductive Stop where
  | err (e : ItemError)
  | panic (p : ItemPanic)
  deriving DecidableEq, Repr

/-- The early end of `item` as an outcome: an error comes with the zero
`CompletionItem`. -/
def Stop.outcome : Stop → Outcome
  | .err e => Outcome.ret CompletionItem.zero (some e)
  | .panic p => Outcome.panic p

/-- The bytes of a Go string. -/
def goBytes (s : String) : List UInt8 :=
  s.toUTF8.data.toList

/-- The function `isIndexOverload(fn, name)` on the bytes of the two strings.
The index expressions are in range because `len(fn) == n+3` is tested
first. -/
def isIndexOverloadBytes (fn name : List UInt8) : Bool :=
  let n := name.length
  if fn.length = n + 3 ∧ fn.take n = name ∧ fn.get? n = some 95 ∧ fn.get? (n + 1) = some 95 then
    match fn.get? (n + 2) with
    | some c => (decide (48 ≤ c.toNat) && decide (c.toNat ≤ 57)) ||
        (decide (97 ≤ c.toNat) && decide (c.toNat ≤ 122))
    | none => false
  else
    false

/-- The function `isIndexOverload(fn, name)`. -/
def isIndexOverload (fn name : String) : Bool :=
  isIndexOverloadBytes (goBytes fn) (goBytes name)

/-- The function `writeFuncName(buf, f)`: the text it appends to the buffer. -/
def writeFuncName (buf : String) (f : FuncObj) : String :=
  let buf :=
    if f.hasType then
      match f.recv with
      | some recv =>
        let buf := buf ++ "("
        let buf :=
          match recv with
          | .iface => buf ++ "interface"
          | .named pkgPath name =>
            let buf :=
              match pkgPath with
              | some path => buf ++ path ++ "."
              | none => buf
            buf ++ name
          | .otherType => buf
        buf ++ ")" ++ "."
      | none =>
        match f.pkgPath with
        | some path => buf ++ path ++ "."
        | none => buf
    else buf
  buf ++ f.name

/-- The function `funcId(fn)`. -/
def funcId (fn : FuncObj) : String :=
  writeFuncName "" fn

/-- The function `strings.TrimPrefix` on the characters of the strings. -/
def trimPrefix (s pre : String) : String :=
  if pre.data.isPrefixOf s.data then ⟨s.data.drop pre.data.length⟩ else s

/-- The function `strings.HasPrefix` on the characters of the strings. -/
def hasPrefix (s pre : String) : Bool :=
  pre.data.isPrefixOf s.data

section Item

variable {O T S : Type}

/-- The method `c.wantTypeParams()`; none when `c.path[0]` panics. -/
def wantTypeParams (c : Env O T S) : Option Bool :=
  match c.path with
  | [] => none
  | first :: _ =>
    let rec go (start : Int) : List PathNode → Nat → Bool
      | [], _ => false
      | nd :: rest, i =>
        match nd.funcDecl with
        | some recv =>
          match recv with
          | some recvEnd => decide (i > 0) && decide (start < recvEnd)
          | none => false
        | none => go start rest (i + 1)
    some (go first.pos c.path 0)

/-- The method `c.importEdits(imp)` on a non-nil import. -/
def importEdits (c : Env O T S) (imp : ImportInfo) : Except String (List TextEdit) :=
  match c.gopFileErr with
  | some err => .error err
  | none => c.computeImportFix imp

/-- The method `c.formatBuiltin(ctx, cand)`. -/
def formatBuiltin (c : Env O T S) (cand : Candidate O T) : Outcome :=
  let obj := cand.obj
  let item : CompletionItem :=
    { CompletionItem.zero with
      Label := c.objName obj
      InsertText := c.objName obj
      Score := cand.score }
  match c.objKind obj with
  | .Const => Outcome.ret { item with Kind := some ItemKind.ConstantCompletion } none
  | .Builtin =>
    match c.newBuiltinSignature (c.objName obj) with
    | .error err => Outcome.ret CompletionItem.zero (some (ItemError.other err))
    | .ok sig =>
      Outcome.ret { item with
        Kind := some ItemKind.FunctionCompletion
        Detail := "func" ++ sig.format
        snippet := some [SnipOp.functionCallSnippet (c.objName obj) sig.typeParams
          sig.params] } none
  | .TypeName =>
    if c.isInterface obj then
      Outcome.ret { item with Kind := some ItemKind.InterfaceCompletion } none
    else
      Outcome.ret { item with Kind := some ItemKind.ClassCompletion } none
  | .Nil => Outcome.ret { item with Kind := some ItemKind.VariableCompletion } none
  | _ => Outcome.ret item none

/-- The local variables of `item` that lines 80 to 141 set. -/
structure Described where
  label : String
  detail : String
  insert : String
  kind : ItemKind
  snip : List SnipOp

/-- Lines 80 to 141 of `item`: label, detail, insert text, kind and the first
text of the snippet, by the dynamic type of the object. -/
def describe (c : Env O T S) (cand : Candidate O T) : Except Stop Described :=
  let obj := cand.obj
  let label := cand.name
  let detail := if (c.objType obj).isNone then "" else c.typeString (c.objType obj)
  let typeParams : Except Stop String :=
    if c.isTypeName obj then
      match wantTypeParams c with
      | none => .error (Stop.panic ItemPanic.emptyPath)
      | some false => .ok label
      | some true =>
        match c.objType obj with
        | none => .ok label
        | some t =>
          match c.namedTypeParams t with
          | some tp => .ok (label ++ tp)
          | none => .ok label
    else .ok label
  match typeParams with
  | .error stop => .error stop
  | .ok label =>
    let insert := label
    let snip := [SnipOp.writeText insert]
    match c.objKind obj with
    | .TypeName =>
      .ok ⟨label, (c.formatType (c.objType obj)).1, insert, (c.formatType (c.objType obj)).2,
        snip⟩
    | .Const => .ok ⟨label, detail, insert, ItemKind.ConstantCompletion, snip⟩
    | .Var =>
      let detail1 : Except Stop String :=
        if c.isStructType (c.objType obj) then .ok "struct{...}"
        else if c.objIsField obj then
          match c.formatVarType obj with
          | .error err => .error (Stop.err (ItemError.other err))
          | .ok d => .ok d
        else .ok detail
      match detail1 with
      | .error stop => .error stop
      | .ok detail =>
        if c.objIsField obj then
          .ok ⟨label, detail, insert, ItemKind.FieldCompletion,
            snip ++ [SnipOp.structFieldSnippet detail]⟩
        else
          .ok ⟨label, detail, insert, ItemKind.VariableCompletion, snip⟩
    | .Func =>
      match c.objType obj with
      | none => .error (Stop.panic ItemPanic.nilType)
      | some t =>
        match c.underlyingSig t with
        | none => .ok ⟨label, detail, insert, ItemKind.TextCompletion, snip⟩
        | some sig =>
          .ok ⟨label, detail, insert,
            if c.sigHasRecv sig then ItemKind.MethodCompletion
            else ItemKind.FunctionCompletion, snip⟩
    | .PkgName =>
      .ok ⟨label, c.quote (c.importedPath obj), insert, ItemKind.ModuleCompletion, snip⟩
    | .Label => .ok ⟨label, "label", insert, ItemKind.ConstantCompletion, snip⟩
    | _ => .ok ⟨label, detail, insert, ItemKind.TextCompletion, snip⟩

/-- Lines 143 to 153 of `item`: the operators written before the candidate. -/
def modsPrefix (mods : List TypeMod) : String :=
  mods.foldl (fun pre mod =>
    match mod with
    | .reference => "&" ++ pre
    | .dereference => "*" ++ pre
    | .chanRead => "<-" ++ pre
    | _ => pre) ""

/-- The local variables and the map that the loop `Suffixes` changes. -/
structure Suffixed (T : Type) where
  isOverload : Bool
  tags : List ItemTag
  suffix : String
  funcType : Option T
  detail : String
  snip : List SnipOp
  skipFunc : List String

/-- Lines 178 to 187 of `item`: the loop over the overload objects. It marks
in `skipFunc` the objects whose name is an index overload of the name of the
candidate object and appends a line per object to the buffer. The map is
returned also when the loop ends early. -/
def listOverloads (c : Env O T S) (objName : String) :
    List O → List String → String → List String × Except Stop String
  | [], skipFunc, buf => (skipFunc, .ok buf)
  | o :: objs, skipFunc, buf =>
    let marked : Except Stop (List String) :=
      if isIndexOverload (c.objName o) objName then
        match c.asFunc o with
        | none => .error (Stop.panic ItemPanic.notFunc)
        | some f => .ok (skipFunc ++ [funcId f])
      else .ok skipFunc
    match marked with
    | .error stop => (skipFunc, .error stop)
    | .ok skipFunc =>
      match c.asSignature o with
      | none => (skipFunc, .error (Stop.panic ItemPanic.notSignature))
      | some sig =>
        match c.newSignature sig with
        | .error err => (skipFunc, .error (Stop.err (ItemError.other err)))
        | .ok s => listOverloads c objName objs skipFunc (buf ++ ("\n- func" ++ s.format))

/-- Lines 163 to 193 of `item`: the case `invoke` up to the test of
`c.opts.snippets`. -/
def invokeMod (c : Env O T S) (obj : O) (v : Suffixed T) : Suffixed T × Option Stop :=
  match v.funcType with
  | none => (v, some (Stop.panic ItemPanic.nilType))
  | some funcType =>
    match c.underlyingSig funcType with
    | none => (v, none)
    | some sig =>
      match c.newSignature sig with
      | .error err => (v, some (Stop.err (ItemError.other err)))
      | .ok s =>
        let v := { v with
          snip := v.snip ++ [SnipOp.functionCallSnippet "" s.typeParams s.params]
          funcType :=
            match c.sigResults sig with
            | [result] => some result
            | _ => v.funcType
          detail := "func" ++ s.format }
        if (c.overloads sig).length > 0 then
          let v := { v with isOverload := true }
          match listOverloads c (c.objName obj) (c.overloads sig) v.skipFunc
            "Go+ overload funcs\n" with
          | (skipFunc, .error stop) => ({ v with skipFunc := skipFunc }, some stop)
          | (skipFunc, .ok buf) =>
            ({ v with
              skipFunc := skipFunc
              tags := if c.showGopStyle then
                v.tags ++ [ItemTag.CompletionItemTagOverload] else v.tags
              detail := buf }, none)
        else (v, none)

/-- Lines 160 to 211 of `item`: the loop `Suffixes` over the modifiers. -/
def suffixes (c : Env O T S) (obj : O) : List TypeMod → Suffixed T → Suffixed T × Option Stop
  | [], v => (v, none)
  | mod :: mods, v =>
    match mod with
    | .invoke =>
      match invokeMod c obj v with
      | (v, some stop) => (v, some stop)
      | (v, none) =>
        if !c.snippets then (v, none)
        else suffixes c obj mods v
    | .takeSlice => suffixes c obj mods { v with suffix := v.suffix ++ "[:]" }
    | .takeDotDotDot => suffixes c obj mods { v with suffix := v.suffix ++ "..." }
    | .index =>
      suffixes c obj mods { v with
        snip := v.snip ++ [SnipOp.writeText "[", SnipOp.writePlaceholder,
          SnipOp.writeText "]"] }
    | _ => suffixes c obj mods v

/-- Lines 284 to 316 of `item`: the documentation of the item. -/
def document (c : Env O T S) (obj : O) (item : CompletionItem) (st : CState) :
    CompletionItem × CState :=
  if !c.documentation then (item, st)
  else if !c.posIsValid obj then (item, st)
  else
    let st := { st with effects := st.effects ++ [Effect.hoverDoc] }
    match c.hoverDoc obj with
    | .error _ => (item, { st with effects := st.effects ++ [Effect.logError] })
    | .ok text =>
      let item := { item with
        Documentation := if c.fullDocumentation then text else c.synopsis text }
      if hasPrefix text "Deprecated" then
        if c.completionTags then
          ({ item with Tags := [ItemTag.ComplDeprecated] }, st)
        else if c.completionDeprecated then
          ({ item with Deprecated := true }, st)
        else (item, st)
      else (item, st)

/-- Lines 223 to 228 of `item`: the detail with the note of the import,
which a module completion does not get. -/
def noteImport (c : Env O T S) (kind : ItemKind) (imp : ImportInfo) (detail : String) :
    String :=
  if kind ≠ ItemKind.ModuleCompletion then
    (if detail ≠ "" then detail ++ " " else detail) ++
      ("(from " ++ c.quote imp.importPath ++ ")")
  else detail

/-- Lines 213 to 282 of `item`: the import edits, the conversion, the
prefix and the suffix, the detail, and the item. -/
def assemble (c : Env O T S) (cand : Candidate O T) (score : ℚ) (d : Described)
    (pre : String) (v : Suffixed T) (st : CState) :
    Except Stop CompletionItem × CState :=
  -- lines 215 to 229
  let imported : Except Stop (List TextEdit × String) × CState :=
    match cand.imp with
    | none => (.ok ([], v.detail), st)
    | some imp =>
      let st := { st with effects := st.effects ++ [Effect.importEdits] }
      match importEdits c imp with
      | .error err => (.error (Stop.err (ItemError.other err)), st)
      | .ok addlEdits => (.ok (addlEdits, noteImport c d.kind imp v.detail), st)
  match imported with
  | (.error stop, st) => (.error stop, st)
  | (.ok (protocolEdits, detail), st) =>
    -- lines 231 to 243
    let pre :=
      match cand.convertTo with
      | some t =>
        (if c.convertNeedsParens t then "(" ++ c.convertString t ++ ")"
          else c.convertString t) ++ "(" ++ pre
      | none => pre
    let suffix :=
      match cand.convertTo with
      | some _ => ")"
      | none => v.suffix
    -- lines 245 to 258
    let placed : Except Stop (List TextEdit × String × List SnipOp) × CState :=
      if pre ≠ "" then
        match c.enclosingSelector with
        | some selPos =>
          let st := { st with effects := st.effects ++ [Effect.editText] }
          match c.editText selPos selPos pre with
          | .error err => (.error (Stop.err (ItemError.other err)), st)
          | .ok edits => (.ok (protocolEdits ++ edits, d.insert, v.snip), st)
        | none => (.ok (protocolEdits, pre ++ d.insert, v.snip ++ [SnipOp.prependText pre]), st)
      else (.ok (protocolEdits, d.insert, v.snip), st)
    match placed with
    | (.error stop, st) => (.error stop, st)
    | (.ok (protocolEdits, insert, snip), st) =>
      -- lines 260 to 263
      let insert := if suffix ≠ "" then insert ++ suffix else insert
      let snip := if suffix ≠ "" then snip ++ [SnipOp.writeText suffix] else snip
      -- lines 265 to 269
      let detail := trimPrefix detail "untyped "
      let detail := if cand.detail ≠ "" then cand.detail else detail
      (.ok {
        Label := d.label
        InsertText := insert
        AdditionalTextEdits := protocolEdits
        Detail := detail
        Kind := some d.kind
        Tags := v.tags
        Score := score
        Depth := cand.pathLen
        snippet := some snip
        isSlice := c.isSlice cand.obj
        isOverload := v.isOverload
        Documentation := ""
        Deprecated := false }, st)

/-- Lines 80 to 317 of `item`: the candidate of an object that is not
declared in the universe. -/
def formatObject (c : Env O T S) (st : CState) (cand : Candidate O T) : Outcome × CState :=
  match describe c cand with
  | .error stop => (stop.outcome, st)
  | .ok d =>
    match suffixes c cand.obj cand.mods
      ⟨false, [], "", c.objType cand.obj, d.detail, d.snip, st.skipFunc⟩ with
    | (v, some stop) => (stop.outcome, { st with skipFunc := v.skipFunc })
    | (v, none) =>
      match assemble c cand cand.score d (modsPrefix cand.mods) v
        { st with skipFunc := v.skipFunc } with
      | (.error stop, st) => (stop.outcome, st)
      | (.ok item, st) =>
        (Outcome.ret (document c cand.obj item st).1 none, (document c cand.obj item st).2)

/-- The completer after the test of line 71, which calls `isHighScore` for a
deep candidate only. -/
def afterDeepTest (st : CState) (cand : Candidate O T) : CState :=
  if cand.pathLen ≠ 0 then { st with effects := st.effects ++ [Effect.isHighScore] } else st

/-- The method `c.item(ctx, cand)`: how the call ends, and the completer
afterwards. -/
def item (c : Env O T S) (st : CState) (cand : Candidate O T) : Outcome × CState :=
  let matchScore := c.score cand.name
  if matchScore ≤ 0 then
    (Outcome.ret CompletionItem.zero (some ItemError.errNoMatch), st)
  else
    let cand := { cand with score := cand.score * matchScore }
    if cand.pathLen ≠ 0 ∧ c.isHighScore cand.score = false then
      (Outcome.ret CompletionItem.zero (some ItemError.errLowScore), afterDeepTest st cand)
    else if c.inUniverse cand.obj then
      (formatBuiltin c cand, afterDeepTest st cand)
    else
      formatObject c (afterDeepTest st cand) cand

end Item

/-- The keys that lines 179 to 181 set in `skipFunc` for a family of overload
objects: the `funcId` of each object whose name is an index overload of the
name of the candidate object. -/
def overloadMarks {O T S : Type} (c : Env O T S) (objName : String) (objs : List O) :
    List String :=
  (objs.filter (fun o => isIndexOverload (c.objName o) objName)).filterMap
    (fun o => (c.asFunc o).map funcId)

/-- The line of an overload object in the detail: a line feed, a hyphen, and
`func` with the formatted signature. -/
def overloadLine {O T S : Type} (c : Env O T S) (o : O) : String :=
  match c.asSignature o with
  | some sig =>
    match c.newSignature sig with
    | .ok s => "\n- func" ++ s.format
    | .error _ => ""
  | none => ""

/-- The lines of a family of overload objects, in order. -/
def overloadLines {O T S : Type} (c : Env O T S) : List O → String
  | [] => ""
  | o :: objs => overloadLine c o ++ overloadLines c objs

/-! ### Concrete completer

Objects, types and signatures are numbers: object 0 is the function `Foo`
of type 10, whose signature 20 carries the overload family; objects 1, 2 and
3 are the functions `Foo__0`, `Foo__1` and `Bar`. -/

/-- The names of the objects. -/
def demoName (o : Nat) : String :=
  if o = 0 then "Foo" else if o = 1 then "Foo__0" else if o = 2 then "Foo__1" else "Bar"

/-- The formatted signatures. -/
def demoSignature (sig : Nat) : FSig :=
  if sig = 21 then ⟨"(a int)", [], ["a int"]⟩
  else if sig = 22 then ⟨"(a string)", [], ["a string"]⟩
  else if sig = 23 then ⟨"(x float64)", [], ["x float64"]⟩
  else ⟨"(a int)", [], ["a int"]⟩

/-- A completer whose matcher gives every name the score `score`, and in
which the signature of `Foo` carries the overload objects `family`. -/
def demo (score : ℚ) (family : List Nat) : Env Nat Nat Nat :=
  { score := fun _ => score
    isHighScore := fun _ => true
    snippets := true
    documentation := false
    fullDocumentation := false
    completionTags := false
    completionDeprecated := false
    showGopStyle := true
    path := []
    inUniverse := fun _ => false
    objType := fun o => some (o + 10)
    objKind := fun _ => Source.ObjKind.Func
    objName := demoName
    objIsField := fun _ => false
    isTypeName := fun _ => false
    isSlice := fun _ => false
    importedPath := fun _ => ""
    typeString := fun _ => "func(a int)"
    namedTypeParams := fun _ => none
    formatType := fun _ => ("", ItemKind.ClassCompletion)
    isStructType := fun _ => false
    formatVarType := fun _ => .ok ""
    underlyingSig := fun t => some (t + 10)
    sigHasRecv := fun _ => false
    sigResults := fun _ => []
    newSignature := fun sig => .ok (demoSignature sig)
    newBuiltinSignature := fun _ => .error "not a builtin"
    overloads := fun sig => if sig = 20 then family else []
    asFunc := fun o => some ⟨true, none, some "example.com/a", demoName o⟩
    asSignature := fun o => some (o + 20)
    isInterface := fun _ => false
    gopFileErr := none
    computeImportFix := fun _ => .ok []
    enclosingSelector := none
    editText := fun _ _ _ => .ok []
    convertString := fun _ => ""
    convertNeedsParens := fun _ => false
    quote := fun s => "\"" ++ s ++ "\""
    posIsValid := fun _ => false
    hoverDoc := fun _ => .error "no documentation"
    synopsis := fun s => s }

/-- The candidate `Foo` with the modifier `invoke`. -/
def candFoo : Candidate Nat Nat :=
  { obj := 0, name := "Foo", score := 1, pathLen := 0, mods := [TypeMod.invoke], imp := none,
    convertTo := none, detail := "" }

/-- A completer state without marks. -/
def noMarks : CState := ⟨[], []⟩

end Completion


/-! ## Package source: more concrete objects -/

namespace Source

/-- A variable `x` declared in a function of package `a`: its scope is the
block of the function, inside the scope of the file, inside the scope of the
package, inside the universe. -/
def objLocal : Object :=
  { addr := 12, kind := ObjKind.Var, name := "x", pos := 120, pkg := some pkgA,
    parent := some (Scope.inner 4 (Scope.inner 3 (Scope.inner 2 (Scope.root 1)))),
    isField := false, hasRecv := false }

/-- A variable `w` that the scope of package `a` does not hold, with two
scopes from its parent to the root. -/
def objStray : Object :=
  { addr := 13, kind := ObjKind.Var, name := "w", pos := 130, pkg := some pkgA,
    parent := some (Scope.inner 2 (Scope.root 1)), isField := false, hasRecv := false }

end Source

/-! ## Completion: the run-time checks of `isIndexOverload` -/

namespace Completion

/-- The slice expression `s[:hi]` of Go on the bytes of a string; none is the
run-time panic on a bound that is out of range. -/
def sliceTo (s : List UInt8) (hi : Nat) : Option (List UInt8) :=
  if hi ≤ s.length then some (s.take hi) else none

/-- The index expression `s[i]` of Go on the bytes of a string; none is the
run-time panic on an index that is out of range. -/
def byteAt (s : List UInt8) (i : Nat) : Option UInt8 :=
  if i < s.length then s.get? i else none

/-- The function `isIndexOverload(fn, name)` with the run-time checks of its
slice and index expressions; none is a panic. The operator `&&` evaluates its
right operand only when the left one is true, so each expression is
evaluated only after the tests before it have passed. -/
def isIndexOverloadChecked (fn name : List UInt8) : Option Bool :=
  let n := name.length
  if fn.length = n + 3 then
    match sliceTo fn n with
    | none => none
    | some front =>
      if front = name then
        match byteAt fn n with
        | none => none
        | some b0 =>
          if b0 = 95 then
            match byteAt fn (n + 1) with
            | none => none
            | some b1 =>
              if b1 = 95 then
                match byteAt fn (n + 2) with
                | none => none
                | some c =>
                  if (48 ≤ c.toNat ∧ c.toNat ≤ 57) ∨ (97 ≤ c.toNat ∧ c.toNat ≤ 122) then
                    some true
                  else some false
              else some false
          else some false
      else some false
  else some false

/-- The bytes that end the name of an index overload: the ASCII digits `0` to
`9` and the ASCII lower-case letters `a` to `z`. -/
def isIndexByte (c : UInt8) : Bool :=
  (decide (48 ≤ c.toNat) && decide (c.toNat ≤ 57)) ||
    (decide (97 ≤ c.toNat) && decide (c.toNat ≤ 122))

/-! ### The modifiers of a candidate, by the words of the specification -/

/-- The operator that a modifier puts before the candidate: `&` for
address-of, `*` for dereference, `<-` for channel-receive, nothing for any
other modifier. -/
def operatorBefore : TypeMod → String
  | .reference => "&"
  | .dereference => "*"
  | .chanRead => "<-"
  | _ => ""

/-- The operators before the candidate for a chain of modifiers: the operator
of a modifier stands before the operators of the modifiers that precede it
in the chain. -/
def operatorsBefore : List TypeMod → String
  | [] => ""
  | m :: mods => operatorsBefore mods ++ operatorBefore m

/-- The suffix operators of a chain of modifiers, in order: `[:]` for a slice
and `...` for an ellipsis expansion. -/
def modsSuffix : List TypeMod → String
  | [] => ""
  | .takeSlice :: mods => "[:]" ++ modsSuffix mods
  | .takeDotDotDot :: mods => "..." ++ modsSuffix mods
  | _ :: mods => modsSuffix mods

/-- The calls on the snippet builder for the indexing modifiers of a chain:
an opening bracket, an empty placeholder and a closing bracket for each. -/
def indexOps : List TypeMod → List SnipOp
  | [] => []
  | .index :: mods =>
    [SnipOp.writeText "[", SnipOp.writePlaceholder, SnipOp.writeText "]"] ++ indexOps mods
  | _ :: mods => indexOps mods

/-- A completer in which every object is the variable `xs` of type `[]int`. -/
def demoSlice : Env Nat Nat Nat :=
  { demo 1 [] with
    objKind := fun _ => Source.ObjKind.Var
    objName := fun _ => "xs"
    typeString := fun _ => "[]int"
    underlyingSig := fun _ => none }

/-- The candidate `xs` with the modifier `index`. -/
def candIndex : Candidate Nat Nat :=
  { obj := 0, name := "xs", score := 1, pathLen := 0, mods := [TypeMod.index], imp := none,
    convertTo := none, detail := "" }

/-- The candidate `xs` with the modifiers `reference`, `dereference`,
`chanRead`, `index`, `takeSlice` and `takeDotDotDot`, in this order. -/
def candChain : Candidate Nat Nat :=
  { obj := 0, name := "xs", score := 1, pathLen := 0,
    mods := [TypeMod.reference, TypeMod.dereference, TypeMod.chanRead, TypeMod.index,
      TypeMod.takeSlice, TypeMod.takeDotDotDot],
    imp := none, convertTo := none, detail := "" }

end Completion

/-! ## Completion: `literal_gox.go` -/

namespace Completion

/-- A `*types.Var` of the parameters or the results of a signature as
`functionLiteral` reads it: `Name()` and `Type()`. -/
structure Var (T : Type) where
  name : String
  type : T

/-- A `*types.Signature` as `functionLiteral` reads it: `Params()`,
`Results()` and `Variadic()`. -/
structure Signature (T : Type) where
  params : List (Var T)
  results : List (Var T)
  variadic : Bool

/-- The `*types.TypeName` of a type parameter: its name; the address tells
two objects apart. -/
structure TypeObj where
  addr : Nat
  name : String
  deriving DecidableEq, Repr

/-- What `functionLiteral` calls but does not change: the rest of the
completer and the packages it uses. `T` are the values of `types.Type`. -/
structure LitEnv (T : Type) where
  /-- The option `c.opts.placeholders`. -/
  placeholders : Bool
  /-- Whether `ctx.Err()` is non-nil. -/
  ctxErr : Bool
  /-- The constant `literalCandidateScore`. -/
  literalCandidateScore : ℚ
  /-- The assertion `t.(*typeparams.TypeParam)`: none when the type is not a
  type parameter, else `tp.Obj()`, which may be nil. -/
  asTypeParam : T → Option (Option TypeObj)
  /-- The method `c.innermostScope()`: nil or a scope. -/
  innermostScope : Option Nat
  /-- The object that `scope.LookupParent(name, c.pos)` finds, if any. -/
  lookupParent : Nat → String → Option TypeObj
  /-- The function `source.FormatVarType` with the empty qualifiers of line
  198. -/
  formatVarTypeBare : Var T → Except String String
  /-- The function `source.FormatVarType` with `c.qf` and `c.mq`. -/
  formatVarType : Var T → Except String String
  /-- The function `abbreviateTypeName`. -/
  abbreviateTypeName : String → String
  /-- The function `types.Identical`. -/
  identical : T → T → Bool

/-- A map `map[string]int`: the value of a key, if the key is present. -/
abbrev NameCount := String → Option Nat

/-- The statement `m[name]++` on a map: a key that is absent counts as 0. -/
def NameCount.incr (m : NameCount) (name : String) : NameCount :=
  fun k => if k = name then some ((m k).getD 0 + 1) else m k

/-- The call `strings.Replace(s, "[]", "...", 1)` on the characters of the
string. -/
def replaceSlice : List Char → List Char
  | [] => []
  | [c] => [c]
  | c :: d :: rest =>
    if c = '[' ∧ d = ']' then '.' :: '.' :: '.' :: rest else c :: replaceSlice (d :: rest)

section Literal

variable {T : Type}

/-- The method `c.typeParamInScope(tp)` on the object `tp.Obj()`. -/
def typeParamInScope (c : LitEnv T) (obj : Option TypeObj) : Bool :=
  match obj with
  | none => false
  | some obj =>
    match c.innermostScope with
    | none => false
    | some scope => decide (c.lookupParent scope obj.name = some obj)

/-- The test `tp != nil && !c.typeParamInScope(tp)` of lines 190, 281, 302
and 335 on a type. -/
def freeTypeParam (c : LitEnv T) (t : T) : Bool :=
  match c.asTypeParam t with
  | none => false
  | some obj => !typeParamInScope c obj

/-- The variables that the loop of lines 184 to 215 sets. -/
structure ParamNames where
  paramNames : List String
  paramNameCount : NameCount
  hasTypeParams : Bool

/-- Lines 184 to 215 of `functionLiteral`: the loop that names the
parameters and counts the names. It ends early with the error of
`FormatVarType`. -/
def nameParams (c : LitEnv T) : List (Var T) → ParamNames → Except String ParamNames
  | [], s => .ok s
  | p :: ps, s =>
    let hasTypeParams := if freeTypeParam c p.type then true else s.hasTypeParams
    let named : Except String String :=
      if p.name = "" then
        match c.formatVarTypeBare p with
        | .error err => .error err
        | .ok typeName => .ok (c.abbreviateTypeName typeName)
      else .ok p.name
    match named with
    | .error err => .error err
    | .ok name =>
      nameParams c ps
        { paramNames := s.paramNames ++ [name]
          paramNameCount := if name ≠ "_" then s.paramNameCount.incr name else s.paramNameCount
          hasTypeParams := hasTypeParams }

/-- Lines 217 to 226 of `functionLiteral`: the loop over the map. Every key
is visited once; a count of 2 or more is reset to 1 and any other key is
deleted. -/
def resetCounts (m : NameCount) : NameCount :=
  fun n =>
    match m n with
    | some c => if c ≥ 2 then some 1 else none
    | none => none

/-- The variables that the loop of lines 228 to 289 changes; `names` is a
ghost record of the names that lines 256 to 260 write, in order. -/
structure Written where
  paramNameCount : NameCount
  snip : List SnipOp
  names : List String

/-- Lines 228 to 289 of `functionLiteral`: the loop that writes the
parameters, on the parameters from index `i` on, each with its entry of
`paramNames`. The error is that of `FormatVarType`, on which the function
returns. -/
def writeParams (c : LitEnv T) (variadic hasTypeParams : Bool) :
    Nat → List (Var T × String) → Written → Written × Option String
  | _, [], w => (w, none)
  | i, (p, name) :: rest, w =>
    if hasTypeParams && !c.placeholders then
      ({ w with snip := w.snip ++ [SnipOp.writePlaceholder] }, none)
    else
      let snip := if i > 0 then w.snip ++ [SnipOp.writeText ", "] else w.snip
      let count :=
        match w.paramNameCount name with
        | some _ => w.paramNameCount.incr name
        | none => w.paramNameCount
      let name :=
        match w.paramNameCount name with
        | some idx => name ++ toString idx
        | none => name
      let snip :=
        if name ≠ p.name ∧ c.placeholders = true then snip ++ [SnipOp.writePlaceholderText name]
        else snip ++ [SnipOp.writeText name]
      let last := rest.isEmpty
      let typed :=
        match rest.head? with
        | none => true
        | some next => !c.identical p.type next.1.type
      if typed then
        let snip := snip ++ [SnipOp.writeText " "]
        match c.formatVarType p with
        | .error err => (⟨count, snip, w.names ++ [name]⟩, some err)
        | .ok typeStr =>
          let typeStr :=
            if variadic && last then String.mk (replaceSlice typeStr.data) else typeStr
          let snip :=
            if freeTypeParam c p.type then snip ++ [SnipOp.writePlaceholderText typeStr]
            else snip ++ [SnipOp.writeText typeStr]
          writeParams c variadic hasTypeParams (i + 1) rest ⟨count, snip, w.names ++ [name]⟩
      else
        writeParams c variadic hasTypeParams (i + 1) rest ⟨count, snip, w.names ++ [name]⟩

/-- Lines 310 to 342 of `functionLiteral`: the loop that writes the results,
on the results from index `i` on. -/
def writeResults (c : LitEnv T) (resultHasTypeParams : Bool) :
    Nat → List (Var T) → List SnipOp → List SnipOp × Option String
  | _, [], snip => (snip, none)
  | i, r :: rest, snip =>
    if resultHasTypeParams && !c.placeholders then
      (snip ++ [SnipOp.writePlaceholder], none)
    else
      let snip := if i > 0 then snip ++ [SnipOp.writeText ", "] else snip
      let snip := if r.name ≠ "" then snip ++ [SnipOp.writeText (r.name ++ " ")] else snip
      match c.formatVarType r with
      | .error err => (snip, some err)
      | .ok text =>
        writeResults c resultHasTypeParams (i + 1) rest
          (if freeTypeParam c r.type then snip ++ [SnipOp.writePlaceholderText text]
            else snip ++ [SnipOp.writeText text])

/-- What a call of `functionLiteral` does: the item it appends to `c.items`,
if any, and whether it logs an error; `names` is the ghost record of the
parameter names it wrote to the snippet. -/
structure LitRun where
  item : Option CompletionItem
  logged : Bool
  names : List String
  deriving DecidableEq

/-- The method `c.functionLiteral(ctx, sig, matchScore)`. -/
def functionLiteral (c : LitEnv T) (sig : Signature T) (matchScore : ℚ) : LitRun :=
  let snip := [SnipOp.writeText "func("]
  match nameParams c sig.params ⟨[], fun _ => none, false⟩ with
  | .error _ => ⟨none, !c.ctxErr, []⟩
  | .ok named =>
    match writeParams c sig.variadic named.hasTypeParams 0 (sig.params.zip named.paramNames)
      ⟨resetCounts named.paramNameCount, snip, []⟩ with
    | (w, some _) => ⟨none, !c.ctxErr, w.names⟩
    | (w, none) =>
      let snip := w.snip ++ [SnipOp.writeText ")"]
      let snip := if sig.results.length > 0 then snip ++ [SnipOp.writeText " "] else snip
      let resultsNeedParens :=
        match sig.results with
        | [] => false
        | [r] => decide (r.name ≠ "")
        | _ => true
      let resultHasTypeParams := sig.results.any (fun r => freeTypeParam c r.type)
      let snip := if resultsNeedParens then snip ++ [SnipOp.writeText "("] else snip
      match writeResults c resultHasTypeParams 0 sig.results snip with
      | (_, some _) => ⟨none, !c.ctxErr, w.names⟩
      | (snip, none) =>
        let snip := if resultsNeedParens then snip ++ [SnipOp.writeText ")"] else snip
        let snip := snip ++ [SnipOp.writeText " \x7b", SnipOp.writeFinalTabstop,
          SnipOp.writeText "\x7d"]
        ⟨some { CompletionItem.zero with
            Label := "func(...) \x7b\x7d"
            Score := matchScore * c.literalCandidateScore
            Kind := some ItemKind.VariableCompletion
            snippet := some snip }, false, w.names⟩

end Literal

/-! ### The names of the parameters, by the words of the specification -/

/-- The base name of a parameter: the declared name, or the abbreviation
guessed from the type when the parameter is unnamed; none when the type
cannot be formatted. -/
def baseName {T : Type} (c : LitEnv T) (p : Var T) : Option String :=
  if p.name = "" then
    match c.formatVarTypeBare p with
    | .ok typeName => some (c.abbreviateTypeName typeName)
    | .error _ => none
  else some p.name

/-- The base names of the parameters, when every one has a base name. -/
def baseNames {T : Type} (c : LitEnv T) : List (Var T) → Option (List String)
  | [] => some []
  | p :: ps =>
    match baseName c p, baseNames c ps with
    | some b, some bs => some (b :: bs)
    | _, _ => none

/-- Whether a base name is repeated among the base names `all`: it is not
`_` and occurs twice or more. -/
def repeated (all : List String) (b : String) : Bool :=
  decide (b ≠ "_") && decide (2 ≤ all.count b)

/-- The names written for the base names `rest` that follow the base names
`seen`: a repeated base name gets the number of its occurrence so far, any
other name is written verbatim. -/
def uniquify (all : List String) : List String → List String → List String
  | _, [] => []
  | seen, b :: rest =>
    (if repeated all b then b ++ toString (seen.count b + 1) else b) ::
      uniquify all (seen ++ [b]) rest

/-- The names written for the base names `all`. -/
def uniqueNames (all : List String) : List String :=
  uniquify all [] all

/-- Whether the name `long` is the name `short` followed by one or more
decimal digits. -/
def digitExtends (short long : String) : Bool :=
  short.data.isPrefixOf long.data && decide (short.data.length < long.data.length) &&
    (long.data.drop short.data.length).all Char.isDigit

/-- No base name is a repeated base name followed by decimal digits. -/
def NoDigitExtension (all : List String) : Prop :=
  ∀ b ∈ all, repeated all b = true → ∀ b1 ∈ all, digitExtends b b1 = false

instance (all : List String) : Decidable (NoDigitExtension all) := by
  unfold NoDigitExtension
  infer_instance

/-! ### Concrete signatures

A type is its text. The abbreviation of a type is its first character in
lower case. -/

/-- A completer without placeholders, in which no type is a type parameter
and two types are identical when their texts are equal. -/
def demoLit : LitEnv String :=
  { placeholders := false
    ctxErr := false
    literalCandidateScore := 1
    asTypeParam := fun _ => none
    innermostScope := none
    lookupParent := fun _ _ => none
    formatVarTypeBare := fun p => .ok p.type
    formatVarType := fun p => .ok p.type
    abbreviateTypeName := fun s =>
      match s.data with
      | [] => ""
      | ch :: _ => String.singleton ch.toLower
    identical := fun s t => decide (s = t) }

/-- The signature `func(int)`. -/
def sigInt : Signature String :=
  ⟨[⟨"", "int"⟩], [], false⟩

/-- The signature `func(int, int64)`. -/
def sigIntInt64 : Signature String :=
  ⟨[⟨"", "int"⟩, ⟨"", "int64"⟩], [], false⟩

/-- The signature with the parameters `i1` of type `int` and `i`, twice, of
type `string`, which the type checker records next to the error it reports
for the second `i`. -/
def sigClash : Signature String :=
  ⟨[⟨"i1", "int"⟩, ⟨"i", "string"⟩, ⟨"i", "string"⟩], [], false⟩

end Completion

/-! ## Theorems on `parse_gox.go` -/

namespace Cache

section Theorems

variable {σ Tree Tok Fix E : Type}

theorem loopBody_counts (d : Deps σ Tree Tok Fix E) (uri : String) (mode i : Nat)
    (w : Work σ Tree Tok Fix) :
    (loopBody d uri mode i w).work.trace.countP Event.isFixSrc
        = w.trace.countP Event.isFixSrc + 1 ∧
      (loopBody d uri mode i w).work.trace.countP Event.isAdopt
        ≤ w.trace.countP Event.isAdopt + 1 ∧
      (loopBody d uri mode i w).work.trace.countP Event.isReparse
        ≤ w.trace.countP Event.isReparse + 1 := by
  unfold loopBody
  simp only []
  split
  · simp [Step.work, List.countP_append, Event.isFixSrc, Event.isAdopt, Event.isReparse]
  · split
    · simp [Step.work, List.countP_append, Event.isFixSrc, Event.isAdopt, Event.isReparse]
    · split
      · split <;> simp [Step.work, List.countP_append, Event.isFixSrc, Event.isAdopt, Event.isReparse]
      · split <;> split <;> simp [Step.work, List.countP_append, Event.isFixSrc, Event.isAdopt, Event.isReparse]

theorem repairLoop_counts (d : Deps σ Tree Tok Fix E) (uri : String) (mode : Nat) :
    ∀ (k i : Nat) (w : Work σ Tree Tok Fix),
      (repairLoop d uri mode k i w).trace.countP Event.isFixSrc
          ≤ w.trace.countP Event.isFixSrc + k ∧
        (repairLoop d uri mode k i w).trace.countP Event.isAdopt
          ≤ w.trace.countP Event.isAdopt + k ∧
        (repairLoop d uri mode k i w).trace.countP Event.isReparse
          ≤ w.trace.countP Event.isReparse + k := by
  intro k
  induction k with
  | zero => intro i w; simp [repairLoop]
  | succ k ih =>
    intro i w
    have hb := loopBody_counts d uri mode i w
    unfold repairLoop
    cases hstep : loopBody d uri mode i w with
    | brk w1 =>
      rw [hstep] at hb
      simp only [Step.work] at hb
      simp only []
      omega
    | next w1 =>
      rw [hstep] at hb
      simp only [Step.work] at hb
      have h := ih (i + 1) w1
      simp only []
      omega

theorem repair_counts (d : Deps σ Tree Tok Fix E) (uri : String) (mode : Nat)
    (parseErr : Option (List E)) (w : Work σ Tree Tok Fix) :
    (repair d uri mode parseErr w).trace.countP Event.isFixSrc
        ≤ w.trace.countP Event.isFixSrc + 10 ∧
      (repair d uri mode parseErr w).trace.countP Event.isAdopt
        ≤ w.trace.countP Event.isAdopt + 10 ∧
      (repair d uri mode parseErr w).trace.countP Event.isReparse
        ≤ w.trace.countP Event.isReparse + 10 := by
  unfold repair
  cases parseErr with
  | none => simp
  | some l =>
    simp only []
    have h := repairLoop_counts d uri mode 10 0
      { w with
        fixedAST := decide (w.fixes.length > 0)
        fixes := if decide (w.fixes.length > 0) then
          w.fixes ++ d.fixAST w.file w.tok w.src else w.fixes
        trace := w.trace ++ [Event.fixAST] }
    simpa [List.countP_append, Event.isFixSrc, Event.isAdopt, Event.isReparse] using h

theorem finish_trace (uri : String) (mode : Nat) (parseErr : Option (List E))
    (w : Work σ Tree Tok Fix) : (finish uri mode parseErr w).trace = w.trace := by
  unfold finish
  split <;> rfl

theorem parseAndRepair_counts (d : Deps σ Tree Tok Fix E) (fset : σ) (uri : String)
    (src : Bytes) (mode : Nat) :
    (parseAndRepair d fset uri src mode).trace.countP Event.isFixSrc ≤ 10 ∧
      (parseAndRepair d fset uri src mode).trace.countP Event.isAdopt ≤ 10 ∧
      (parseAndRepair d fset uri src mode).trace.countP Event.isReparse ≤ 10 := by
  unfold parseAndRepair
  simp only []
  cases assertErrorList (d.parseFile fset (d.filename uri) src mode).1.2 with
  | error f => simp [Event.isFixSrc, Event.isAdopt, Event.isReparse]
  | ok parseErr =>
    cases (d.parseFile fset (d.filename uri) src mode).1.1 with
    | none => simp [Event.isFixSrc, Event.isAdopt, Event.isReparse]
    | some file =>
      simp only [finish_trace]
      have h := repair_counts d uri mode parseErr
        (Work.init (tokenFile d (d.parseFile fset (d.filename uri) src mode).2 uri file src).2
          file src (tokenFile d (d.parseFile fset (d.filename uri) src mode).2 uri file src).1)
      simpa [Work.init, Event.isFixSrc, Event.isAdopt, Event.isReparse] using h

/-- C3. Repair bound: whatever the strict parser, the file set and the two
fixers do, a run of `ParseGopSrc` (a total function: it ends with a result or
a panic) calls `fixGopSrc`, that is executes the body of the repair loop, at
most 10 times, adopts at most 10 source fixes and parses at most 10 edited
buffers. -/
theorem ParseGopSrc_repair_bound (d : Deps σ Tree Tok Fix E) (fset : σ) (uri : String)
    (src : Bytes) (mode : Nat) (purgeFuncBodies : Bool) :
    (ParseGopSrc d fset uri src mode purgeFuncBodies).trace.countP Event.isFixSrc ≤ 10 ∧
      (ParseGopSrc d fset uri src mode purgeFuncBodies).trace.countP Event.isAdopt ≤ 10 ∧
      (ParseGopSrc d fset uri src mode purgeFuncBodies).trace.countP Event.isReparse ≤ 10 :=
  parseAndRepair_counts d fset uri _ mode

theorem repair_snapshot (d : Deps σ Tree Tok Fix E) (zero : Fix) (uri : String) (mode : Nat)
    (parseErr : Option (List E)) (fset : σ) (file : Tree) (src : Bytes) (tok : Option Tok) :
    (repair (d.snapshot zero) uri mode parseErr (Work.init fset file src tok)).fault = none ∧
      (repair (d.snapshot zero) uri mode parseErr (Work.init fset file src tok)).file = file := by
  cases parseErr with
  | none => simp [repair, Work.init]
  | some l =>
    simp [repair, Work.init, repairLoop, loopBody, Deps.snapshot, fixGopSrc, fixGopAST]

theorem snapshot_returns_tree (d : Deps σ Tree Tok Fix E) (zero : Fix) (fset : σ)
    (uri : String) (src : Bytes) (mode : Nat) (purgeFuncBodies : Bool) (file : Tree)
    (err : Option (GoError E))
    (htree : (d.parseFile fset (d.filename uri)
      (if purgeFuncBodies then d.purgeFuncBodies src else src) mode).1 = (some file, err))
    (herr : ∀ msg, err ≠ some (GoError.other msg)) :
    ∃ res fixes, (ParseGopSrc (d.snapshot zero) fset uri src mode purgeFuncBodies).result
        = .ok (res, fixes) ∧ res.File = some file ∧ res.File ≠ none := by
  have h1 : ((d.snapshot zero).parseFile fset ((d.snapshot zero).filename uri)
      (if purgeFuncBodies then (d.snapshot zero).purgeFuncBodies src else src) mode).1
      = (some file, err) := htree
  obtain ⟨parseErr, hpe⟩ : ∃ parseErr, assertErrorList err = .ok parseErr := by
    cases err with
    | none => exact ⟨none, rfl⟩
    | some e =>
      cases e with
      | errorList l => exact ⟨some l, rfl⟩
      | other msg => exact absurd rfl (herr msg)
  unfold ParseGopSrc parseAndRepair
  simp only [h1, hpe]
  have hs := repair_snapshot d zero uri mode parseErr
  generalize (tokenFile (d.snapshot zero) _ uri file _).2 = fs2
  generalize (tokenFile (d.snapshot zero) _ uri file _).1 = tok
  have hs2 := hs fs2 file
    (if purgeFuncBodies = true then (d.snapshot zero).purgeFuncBodies src else src) tok
  unfold finish
  rw [hs2.1]
  simp [hs2.2]

/-- C1. Parser total-ness. For every buffer, file set, URI and mode,
`ParseGopSrc` returns a `ParsedGopFile` without a panic, and its `File` is the
tree of the first strict parse, hence non-nil. The strict parser is outside
this repository; what it has to return is what the comment of line 69 relies
on: a tree, and an error that is nil or a `scanner.ErrorList`. -/
theorem ParseGopSrc_total_of_tree (d : Deps σ Tree Tok Fix E) (zero : Fix) (fset : σ)
    (uri : String) (src : Bytes) (mode : Nat) (purgeFuncBodies : Bool) (file : Tree)
    (err : Option (GoError E))
    (htree : (d.parseFile fset (d.filename uri)
      (if purgeFuncBodies then d.purgeFuncBodies src else src) mode).1 = (some file, err))
    (herr : ∀ msg, err ≠ some (GoError.other msg)) :
    ∃ res fixes, (ParseGopSrc (d.snapshot zero) fset uri src mode purgeFuncBodies).result
        = .ok (res, fixes) ∧ res.File = some file ∧ res.File ≠ none :=
  snapshot_returns_tree d zero fset uri src mode purgeFuncBodies file err htree herr

/-- Witness of C1: a run on the empty buffer whose first parse returns tree 1
and an error list. -/
theorem ParseGopSrc_total_of_tree_witness :
    ∃ res fixes, (ParseGopSrc ((demo parseByLength knownOne [] noEdit).snapshot 0) 0
        "a.gop" [] 0 false).result = .ok (res, fixes) ∧ res.File = some 1 ∧ res.File ≠ none :=
  ParseGopSrc_total_of_tree (demo parseByLength knownOne [] noEdit) 0 0 "a.gop" [] 0 false 1
    (some (.errorList ["expected package"])) rfl (by intro msg h; cases h)

theorem finish_ok (uri : String) (mode : Nat) (parseErr : Option (List E))
    (w : Work σ Tree Tok Fix) (res : ParsedGopFile Tree Tok E) (fixes : List Fix)
    (h : (finish uri mode parseErr w).result = .ok (res, fixes)) :
    w.fault = none ∧ res.ParseErr = parseErr ∧ res.Src = w.src ∧ res.File = some w.file ∧
      res.Tok = w.tok ∧ res.FixedSrc = w.fixedSrc ∧ res.FixedAST = w.fixedAST ∧
      fixes = w.fixes := by
  unfold finish at h
  cases hf : w.fault with
  | some f => simp [hf] at h
  | none =>
    simp only [hf, Except.ok.injEq, Prod.mk.injEq] at h
    obtain ⟨h1, h2⟩ := h
    subst h1
    simp [h2]

theorem first_error_kept (d : Deps σ Tree Tok Fix E) (fset : σ) (uri : String)
    (src : Bytes) (mode : Nat) (purgeFuncBodies : Bool) (res : ParsedGopFile Tree Tok E)
    (fixes : List Fix)
    (h : (ParseGopSrc d fset uri src mode purgeFuncBodies).result = .ok (res, fixes)) :
    assertErrorList (d.parseFile fset (d.filename uri)
        (if purgeFuncBodies then d.purgeFuncBodies src else src) mode).1.2
        = .ok res.ParseErr ∧
      (res.ParseErr = none ↔ (d.parseFile fset (d.filename uri)
        (if purgeFuncBodies then d.purgeFuncBodies src else src) mode).1.2 = none) := by
  unfold ParseGopSrc parseAndRepair at h
  simp only [] at h
  generalize (d.parseFile fset (d.filename uri)
    (if purgeFuncBodies then d.purgeFuncBodies src else src) mode) = out at h ⊢
  cases hpe : assertErrorList out.1.2 with
  | error f => simp [hpe] at h
  | ok parseErr =>
    cases hfile : out.1.1 with
    | none => simp [hpe, hfile] at h
    | some file =>
      simp only [hpe, hfile] at h
      have hk := (finish_ok uri mode parseErr _ res fixes h).2.1
      subst hk
      refine ⟨rfl, ?_⟩
      cases he : out.1.2 with
      | none => simp [he, assertErrorList] at hpe; simp [← hpe]
      | some e =>
        cases e with
        | errorList l => simp [he, assertErrorList] at hpe; simp [← hpe]
        | other msg => simp [he, assertErrorList] at hpe

/-- C2. For every behaviour of the strict parser, of the file set and of the
two fixers: when `ParseGopSrc` returns, its `ParseErr` is the error list of
the first strict parse of the buffer (the input, purged when
`purgeFuncBodies` is set), and it is nil exactly when that parse returned a
nil error. The errors of the parses of edited buffers do not enter it. -/
theorem ParseGopSrc_keeps_first_error (d : Deps σ Tree Tok Fix E) (fset : σ) (uri : String)
    (src : Bytes) (mode : Nat) (purgeFuncBodies : Bool) (res : ParsedGopFile Tree Tok E)
    (fixes : List Fix)
    (h : (ParseGopSrc d fset uri src mode purgeFuncBodies).result = .ok (res, fixes)) :
    assertErrorList (d.parseFile fset (d.filename uri)
        (if purgeFuncBodies then d.purgeFuncBodies src else src) mode).1.2
        = .ok res.ParseErr ∧
      (res.ParseErr = none ↔ (d.parseFile fset (d.filename uri)
        (if purgeFuncBodies then d.purgeFuncBodies src else src) mode).1.2 = none) :=
  first_error_kept d fset uri src mode purgeFuncBodies res fixes h

/-- Witness of C2: the first parse reports "expected package", the parse of
the adopted edit reports another error, and the result keeps the first. -/
theorem ParseGopSrc_keeps_first_error_witness :
    assertErrorList ((demo parseByLength knownOne [5] appendSemicolon).parseFile 0
        ((demo parseByLength knownOne [5] appendSemicolon).filename "a.gop")
        (if false then (demo parseByLength knownOne [5] appendSemicolon).purgeFuncBodies []
          else []) 0).1.2
        = .ok (some ["expected package"]) ∧
      ((some ["expected package"] : Option (List String)) = none ↔
        ((demo parseByLength knownOne [5] appendSemicolon).parseFile 0
        ((demo parseByLength knownOne [5] appendSemicolon).filename "a.gop")
        (if false then (demo parseByLength knownOne [5] appendSemicolon).purgeFuncBodies []
          else []) 0).1.2 = none) :=
  ParseGopSrc_keeps_first_error (demo parseByLength knownOne [5] appendSemicolon) 0 "a.gop" []
    0 false
    { URI := "a.gop", Mode := 0, Src := [59], FixedSrc := true, FixedAST := true,
      File := some 2, Tok := none, Mapper := ("a.gop", [59]),
      ParseErr := some ["expected package"] }
    [1, 5] rfl

/-- C4. Repair monotonicity: when, in an iteration `i` of the repair loop
entered with the local variables `w`, `fixGopSrc` proposes a buffer `newSrc`
and the strict parser returns no tree for it, the loop body ends with
`break` and so does the loop; the working buffer, tree, token file, the two
flags and the fix list are those of `w`, no fix was adopted, and a result
returned from there has them as `Src`, `File`, `Tok`, `FixedSrc`, `FixedAST`
and as the returned fixes. -/
theorem repairLoop_no_progress (d : Deps σ Tree Tok Fix E) (uri : String) (mode k i : Nat)
    (w : Work σ Tree Tok Fix) (newSrc : Bytes) (srcFix : Fix)
    (hfix : d.fixSrc w.file w.tok w.src = (some newSrc, srcFix))
    (hnil : (d.parseFile w.fset (d.filename uri) newSrc mode).1.1 = none) :
    ∃ w1, loopBody d uri mode i w = Step.brk w1 ∧
      repairLoop d uri mode (k + 1) i w = w1 ∧
      w1.src = w.src ∧ w1.file = w.file ∧ w1.tok = w.tok ∧ w1.fixedSrc = w.fixedSrc ∧
      w1.fixedAST = w.fixedAST ∧ w1.fixes = w.fixes ∧
      w1.trace.countP Event.isAdopt = w.trace.countP Event.isAdopt ∧
      ∀ (parseErr : Option (List E)) (res : ParsedGopFile Tree Tok E) (fixes : List Fix),
        (finish uri mode parseErr w1).result = .ok (res, fixes) →
          res.Src = w.src ∧ res.File = some w.file ∧ res.Tok = w.tok ∧
          res.FixedSrc = w.fixedSrc ∧ res.FixedAST = w.fixedAST ∧ fixes = w.fixes := by
  have key : ∃ w1, loopBody d uri mode i w = Step.brk w1 ∧
      w1.src = w.src ∧ w1.file = w.file ∧ w1.tok = w.tok ∧ w1.fixedSrc = w.fixedSrc ∧
      w1.fixedAST = w.fixedAST ∧ w1.fixes = w.fixes ∧
      w1.trace.countP Event.isAdopt = w.trace.countP Event.isAdopt := by
    unfold loopBody
    simp only [hfix]
    by_cases h9 : i = 9 ∧ w.tok.isNone = true
    · rw [if_pos h9]
      exact ⟨_, rfl, rfl, rfl, rfl, rfl, rfl, rfl, by simp [List.countP_append, Event.isAdopt]⟩
    · rw [if_neg h9]
      by_cases hi : i = 9
      · simp only [hi, if_true]
        generalize hout : d.parseFile w.fset (d.filename uri) newSrc mode = out at hnil
        obtain ⟨⟨t, e⟩, fs⟩ := out
        simp only at hnil
        subst hnil
        exact ⟨_, rfl, rfl, rfl, rfl, rfl, rfl, rfl, by simp [List.countP_append, Event.isAdopt]⟩
      · simp only [hi, if_false]
        generalize hout : d.parseFile w.fset (d.filename uri) newSrc mode = out at hnil
        obtain ⟨⟨t, e⟩, fs⟩ := out
        simp only at hnil
        subst hnil
        exact ⟨_, rfl, rfl, rfl, rfl, rfl, rfl, rfl, by simp [List.countP_append, Event.isAdopt]⟩
  obtain ⟨w1, hb, h1, h2, h3, h4, h5, h6, h7⟩ := key
  refine ⟨w1, hb, ?_, h1, h2, h3, h4, h5, h6, h7, ?_⟩
  · simp [repairLoop, hb]
  · intro parseErr res fixes hres
    have hf := finish_ok uri mode parseErr w1 res fixes hres
    obtain ⟨_, _, g1, g2, g3, g4, g5, g6⟩ := hf
    rw [g1, g2, g3, g4, g5, g6, h1, h2, h3, h4, h5, h6]
    exact ⟨rfl, rfl, rfl, rfl, rfl, rfl⟩

/-- Witness of C4: after one adopted fix the fixer proposes `;;`, for which
the parser has no tree; the loop stops with the buffer `;` and the fix list
it had. -/
theorem repairLoop_no_progress_witness :
    ∃ w1, loopBody (demo parseByLength knownOne [] appendSemicolon) "a.gop" 0 1 afterOneFix
        = Step.brk w1 ∧
      repairLoop (demo parseByLength knownOne [] appendSemicolon) "a.gop" 0 9 1 afterOneFix
        = w1 ∧
      w1.src = [59] ∧ w1.fixes = [1] :=
  let ⟨w1, h1, h2, h3, _, _, _, _, h8, _⟩ :=
    repairLoop_no_progress (demo parseByLength knownOne [] appendSemicolon) "a.gop" 0 8 1
      afterOneFix [59, 59] 1 rfl rfl
  ⟨w1, h1, h2, h3, h8⟩

/-- C5. When the first strict parse of the buffer returns a tree and a nil
error, `ParseGopSrc` returns at once: the run consists of that one parse
(neither `fixGopAST` nor `fixGopSrc` is called), `FixedAST` and `FixedSrc`
are false, no fix is returned, `Src` is the buffer that was parsed and `File`
the tree of that parse. -/
theorem ParseGopSrc_first_parse_ok (d : Deps σ Tree Tok Fix E) (fset fset1 : σ)
    (uri : String) (src : Bytes) (mode : Nat) (purgeFuncBodies : Bool) (file : Tree)
    (h : d.parseFile fset (d.filename uri)
      (if purgeFuncBodies then d.purgeFuncBodies src else src) mode
        = ((some file, none), fset1)) :
    ParseGopSrc d fset uri src mode purgeFuncBodies =
      { trace := [Event.parse false (if purgeFuncBodies then d.purgeFuncBodies src else src)]
        result := .ok ({
          URI := uri
          Mode := mode
          Src := if purgeFuncBodies then d.purgeFuncBodies src else src
          FixedSrc := false
          FixedAST := false
          File := some file
          Tok := (tokenFile d fset1 uri file
            (if purgeFuncBodies then d.purgeFuncBodies src else src)).1
          Mapper := (uri, if purgeFuncBodies then d.purgeFuncBodies src else src)
          ParseErr := none }, []) } := by
  unfold ParseGopSrc parseAndRepair
  simp only [h, assertErrorList, repair, finish, Work.init]

/-- Witness of C5: a parser that accepts the empty buffer. -/
theorem ParseGopSrc_first_parse_ok_witness :
    ParseGopSrc (demo parseClean knownOne [5] appendSemicolon) 0 "a.gop" [] 0 false =
      { trace := [Event.parse false []]
        result := .ok ({
          URI := "a.gop"
          Mode := 0
          Src := []
          FixedSrc := false
          FixedAST := false
          File := some 1
          Tok := some 7
          Mapper := ("a.gop", [])
          ParseErr := none }, []) } :=
  ParseGopSrc_first_parse_ok (demo parseClean knownOne [5] appendSemicolon) 0 1 "a.gop" [] 0
    false 1 rfl

theorem repair_snapshot_work (d : Deps σ Tree Tok Fix E) (zero : Fix) (uri : String)
    (mode : Nat) (parseErr : Option (List E)) (fset : σ) (file : Tree) (src : Bytes)
    (tok : Option Tok) :
    (repair (d.snapshot zero) uri mode parseErr (Work.init fset file src tok)).fault = none ∧
      (repair (d.snapshot zero) uri mode parseErr (Work.init fset file src tok)).file = file ∧
      (repair (d.snapshot zero) uri mode parseErr (Work.init fset file src tok)).src = src ∧
      (repair (d.snapshot zero) uri mode parseErr (Work.init fset file src tok)).tok = tok ∧
      (repair (d.snapshot zero) uri mode parseErr (Work.init fset file src tok)).fixes = [] ∧
      (repair (d.snapshot zero) uri mode parseErr (Work.init fset file src tok)).fixedSrc
        = false ∧
      (repair (d.snapshot zero) uri mode parseErr (Work.init fset file src tok)).fixedAST
        = false ∧
      (repair (d.snapshot zero) uri mode parseErr (Work.init fset file src tok)).trace =
        match parseErr with
        | none => [Event.parse false src]
        | some _ => [Event.parse false src, Event.fixAST, Event.fixSrc] := by
  cases parseErr with
  | none => simp [repair, Work.init]
  | some l =>
    simp [repair, Work.init, repairLoop, loopBody, Deps.snapshot, fixGopSrc, fixGopAST]

theorem snapshot_result (d : Deps σ Tree Tok Fix E) (zero : Fix) (fset : σ)
    (uri : String) (src : Bytes) (mode : Nat) (purgeFuncBodies : Bool)
    (res : ParsedGopFile Tree Tok E) (fixes : List Fix)
    (h : (ParseGopSrc (d.snapshot zero) fset uri src mode purgeFuncBodies).result
      = .ok (res, fixes)) :
    ∃ file, (d.parseFile fset (d.filename uri)
        (if purgeFuncBodies then d.purgeFuncBodies src else src) mode).1.1 = some file ∧
      res.File = some file ∧
      res.Src = (if purgeFuncBodies then d.purgeFuncBodies src else src) ∧
      res.Tok = (tokenFile d (d.parseFile fset (d.filename uri)
        (if purgeFuncBodies then d.purgeFuncBodies src else src) mode).2 uri file
        (if purgeFuncBodies then d.purgeFuncBodies src else src)).1 ∧
      res.FixedSrc = false ∧ res.FixedAST = false ∧ fixes = [] := by
  unfold ParseGopSrc parseAndRepair at h
  simp only [] at h
  have e1 : (d.snapshot zero).parseFile = d.parseFile := rfl
  have e2 : (d.snapshot zero).filename = d.filename := rfl
  have e3 : (d.snapshot zero).purgeFuncBodies = d.purgeFuncBodies := rfl
  rw [e1, e2, e3] at h
  generalize (d.parseFile fset (d.filename uri)
    (if purgeFuncBodies then d.purgeFuncBodies src else src) mode) = out at h ⊢
  generalize (if purgeFuncBodies then d.purgeFuncBodies src else src) = buf at h ⊢
  cases hpe : assertErrorList out.1.2 with
  | error f => simp [hpe] at h
  | ok parseErr =>
    cases hfile : out.1.1 with
    | none => simp [hpe, hfile] at h
    | some file =>
      simp only [hpe, hfile] at h
      have e4 : tokenFile (d.snapshot zero) out.2 uri file buf = tokenFile d out.2 uri file buf :=
        rfl
      rw [e4] at h
      obtain ⟨_, _, k3, k4, k5, k6, k7, k8⟩ := finish_ok uri mode parseErr _ res fixes h
      obtain ⟨_, r2, r3, r4, r5, r6, r7, _⟩ := repair_snapshot_work d zero uri mode parseErr
        (tokenFile d out.2 uri file buf).2 file buf (tokenFile d out.2 uri file buf).1
      refine ⟨file, rfl, ?_, ?_, ?_, ?_, ?_, ?_⟩
      · rw [k4, r2]
      · rw [k3, r3]
      · rw [k5, r4]
      · rw [k6, r6]
      · rw [k7, r7]
      · rw [k8, r5]

/-- C6. With the `fixGopAST` and `fixGopSrc` of this repository: when the
first strict parse fails with a tree and an error list, `ParseGopSrc` runs
`fixGopAST` once, on the initial tree, adopts no source fix, and returns a
result in which `FixedAST` tells whether `fixGopAST` reported a fix for that
tree and whose fix list is the list of the fixes it reported. -/
theorem ParseGopSrc_records_ast_repair (d : Deps σ Tree Tok Fix E) (zero : Fix) (fset : σ)
    (uri : String) (src : Bytes) (mode : Nat) (purgeFuncBodies : Bool) (file : Tree)
    (l : List E)
    (htree : (d.parseFile fset (d.filename uri)
      (if purgeFuncBodies then d.purgeFuncBodies src else src) mode).1
        = (some file, some (GoError.errorList l))) :
    ∃ res fixes, (ParseGopSrc (d.snapshot zero) fset uri src mode purgeFuncBodies).result
        = .ok (res, fixes) ∧
      res.ParseErr = some l ∧ res.File = some file ∧ res.FixedSrc = false ∧
      res.FixedAST = decide (0 < (fixGopAST file res.Tok res.Src : List Fix).length) ∧
      fixes = fixGopAST file res.Tok res.Src ∧
      (ParseGopSrc (d.snapshot zero) fset uri src mode purgeFuncBodies).trace.countP
        Event.isFixAST = 1 := by
  obtain ⟨res, fixes, hres, hfile, _⟩ := snapshot_returns_tree d zero fset uri src mode
    purgeFuncBodies file (some (GoError.errorList l)) htree (by intro msg h; cases h)
  obtain ⟨_, _, _, _, _, k5, k6, k7⟩ := snapshot_result d zero fset uri src mode
    purgeFuncBodies res fixes hres
  have hpe := (first_error_kept (d.snapshot zero) fset uri src mode purgeFuncBodies res fixes
    hres).1
  have e1 : (d.snapshot zero).parseFile = d.parseFile := rfl
  have e2 : (d.snapshot zero).filename = d.filename := rfl
  have e3 : (d.snapshot zero).purgeFuncBodies = d.purgeFuncBodies := rfl
  rw [e1, e2, e3, htree] at hpe
  simp only [assertErrorList, Except.ok.injEq] at hpe
  refine ⟨res, fixes, hres, hpe.symm, hfile, k5, ?_, ?_, ?_⟩
  · rw [k6]; simp [fixGopAST]
  · rw [k7]; simp [fixGopAST]
  · unfold ParseGopSrc parseAndRepair
    simp only []
    rw [e1, e2, e3, htree]
    simp only [assertErrorList]
    have hw := repair_snapshot_work d zero uri mode (some l)
    generalize (tokenFile (d.snapshot zero) _ uri file _).2 = fs2
    generalize (tokenFile (d.snapshot zero) _ uri file _).1 = tok
    obtain ⟨hf, _, _, _, _, _, _, ht⟩ := hw fs2 file
      (if purgeFuncBodies = true then d.purgeFuncBodies src else src) tok
    unfold finish
    rw [hf]
    simp only [ht]
    simp [Event.isFixAST]

/-- Witness of C6: the first parse of the empty buffer fails with tree 1; the
result has `FixedAST = false` and no fix, as `fixGopAST` reports none. -/
theorem ParseGopSrc_records_ast_repair_witness :
    ∃ res fixes, (ParseGopSrc ((demo parseByLength knownOne [5] appendSemicolon).snapshot 0) 0
        "a.gop" [] 0 false).result = .ok (res, fixes) ∧
      res.ParseErr = some ["expected package"] ∧ res.File = some 1 ∧ res.FixedSrc = false ∧
      res.FixedAST = decide (0 < (fixGopAST 1 res.Tok res.Src : List Nat).length) ∧
      fixes = fixGopAST 1 res.Tok res.Src ∧
      (ParseGopSrc ((demo parseByLength knownOne [5] appendSemicolon).snapshot 0) 0
        "a.gop" [] 0 false).trace.countP Event.isFixAST = 1 :=
  ParseGopSrc_records_ast_repair (demo parseByLength knownOne [5] appendSemicolon) 0 0 "a.gop"
    [] 0 false 1 ["expected package"] rfl

/-- C7. In every result of `ParseGopSrc`, with the `fixGopAST` and `fixGopSrc`
of this repository, `Tok` is non-nil and describes the returned `Src`, which
is the buffer that was parsed: `Tok` is the file that the file set resolves
the start position of the returned tree to, and when the file set does not
resolve it, the file that `AddFile` creates for the file name with base -1
and size `len(src)`, with the lines set from the content of the buffer. -/
theorem ParseGopSrc_tok_describes_src (d : Deps σ Tree Tok Fix E) (zero : Fix) (fset : σ)
    (uri : String) (src : Bytes) (mode : Nat) (purgeFuncBodies : Bool)
    (res : ParsedGopFile Tree Tok E) (fixes : List Fix)
    (h : (ParseGopSrc (d.snapshot zero) fset uri src mode purgeFuncBodies).result
      = .ok (res, fixes)) :
    res.Tok ≠ none ∧
      res.Src = (if purgeFuncBodies then d.purgeFuncBodies src else src) ∧
      ∃ file, (d.parseFile fset (d.filename uri)
          (if purgeFuncBodies then d.purgeFuncBodies src else src) mode).1.1 = some file ∧
        res.File = some file ∧
        (∀ t, d.fsetFile (d.parseFile fset (d.filename uri)
            (if purgeFuncBodies then d.purgeFuncBodies src else src) mode).2 (d.pos file)
            = some t → res.Tok = some t) ∧
        (d.fsetFile (d.parseFile fset (d.filename uri)
            (if purgeFuncBodies then d.purgeFuncBodies src else src) mode).2 (d.pos file)
            = none →
          res.Tok = some (d.setLinesForContent
            (d.addFile (d.parseFile fset (d.filename uri)
              (if purgeFuncBodies then d.purgeFuncBodies src else src) mode).2
              (d.filename uri) (-1) res.Src.length).1 res.Src)) := by
  obtain ⟨file, k1, k2, k3, k4, _⟩ := snapshot_result d zero fset uri src mode
    purgeFuncBodies res fixes h
  have htok : res.Tok ≠ none := by
    rw [k4]
    unfold tokenFile
    split <;> simp
  refine ⟨htok, k3, file, k1, k2, ?_, ?_⟩
  · intro t ht
    rw [k4]
    unfold tokenFile
    simp [ht]
  · intro hn
    rw [k4, k3]
    unfold tokenFile
    simp [hn]

/-- Witness of C7: the file set knows the position of tree 1 only. The parse
of the empty buffer returns tree 1, and `Tok` is the file 7 of the file set;
the parse of the buffer `;` returns tree 2, and `Tok` is the file 1001 that
`AddFile` creates with the size 1 of the buffer. -/
theorem ParseGopSrc_tok_describes_src_witness :
    (∃ res fixes, (ParseGopSrc ((demo parseByLength knownOne [] noEdit).snapshot 0) 0 "a.gop"
        [] 0 false).result = .ok (res, fixes) ∧ res.Src = [] ∧ res.Tok = some 7) ∧
      (∃ res fixes, (ParseGopSrc ((demo parseByLength knownOne [] noEdit).snapshot 0) 0 "a.gop"
        [59] 0 false).result = .ok (res, fixes) ∧ res.Src = [59] ∧ res.Tok = some 1001 ∧
        res.Tok ≠ none) :=
  ⟨⟨_, _, rfl, rfl, rfl⟩,
    ⟨_, _, rfl, rfl, rfl,
      (ParseGopSrc_tok_describes_src (demo parseByLength knownOne [] noEdit) 0 0 "a.gop" [59] 0
        false _ _ rfl).1⟩⟩

/-- Line 88 with another `fixGopAST`. On the empty buffer, whose first parse
fails, a `fixGopAST` that reports the fix 5 for the initial tree and a
`fixGopSrc` that proposes nothing give `FixedAST = false` and no fix: line 88
tests `len(fixes)`, the list of the results, where line 129 tests
`len(astFixes)`. No run with the `fixGopAST` of this repository reaches the
difference. -/
theorem ParseGopSrc_drops_first_ast_fixes :
    (demo parseByLength knownOne [5] noEdit).fixAST 1 (some 7) [] = [5] ∧
      ParseGopSrc (demo parseByLength knownOne [5] noEdit) 0 "a.gop" [] 0 false =
        { trace := [Event.parse false [], Event.fixAST, Event.fixSrc]
          result := .ok ({
            URI := "a.gop"
            Mode := 0
            Src := []
            FixedSrc := false
            FixedAST := false
            File := some 1
            Tok := some 7
            Mapper := ("a.gop", [])
            ParseErr := some ["expected package"] }, []) } :=
  ⟨rfl, rfl⟩

/-- Line 117 with another `fixGopSrc`. The first parse of the empty buffer
fails with tree 1, whose position the file set knows; a `fixGopSrc` that
proposes `;`, whose parse returns tree 2 at a position the file set does not
know, has its edit adopted: line 117 assigns `fset.File(file.Pos())` without
the fallback of lines 74 to 80, and the result carries a nil `Tok`. No run
with the `fixGopSrc` of this repository adopts a tree. -/
theorem ParseGopSrc_adopted_tree_nil_tok :
    (ParseGopSrc (demo parseByLength knownOne [] appendSemicolon) 0 "a.gop" [] 0
        false).result =
      .ok ({
        URI := "a.gop"
        Mode := 0
        Src := [59]
        FixedSrc := true
        FixedAST := false
        File := some 2
        Tok := none
        Mapper := ("a.gop", [59])
        ParseErr := some ["expected package"] }, [1]) :=
  rfl

/-- C8. `parseGopImpl` returns a non-nil error exactly when reading the content
failed or the context is cancelled at the check before the parse: it then
returns that read error, or else `ctx.Err()`, with a nil file. Otherwise it
hands back what `ParseGopSrc` returns together with a nil error, so it
returns whenever `ParseGopSrc` does; and with the fixers of this repository,
whenever the strict parser yields a tree and an error list `l` (the syntax
errors), it returns a non-nil file whose `ParseErr` is `l` and a nil error. -/
theorem parseGopImpl_errors (d : Deps σ Tree Tok Fix E) (zero : Fix) (fset : σ)
    (fh : FileHandle E) (mode : Nat) (purgeFuncBodies : Bool) :
    (∀ e, fh.contentErr = some e →
        parseGopImpl d fset fh mode purgeFuncBodies = .ok (none, some e)) ∧
      (∀ e, fh.contentErr = none → fh.ctxErr = some e →
        parseGopImpl d fset fh mode purgeFuncBodies = .ok (none, some e)) ∧
      (∀ pgf err, parseGopImpl d fset fh mode purgeFuncBodies = .ok (pgf, err) →
        (err ≠ none ↔ fh.contentErr ≠ none ∨ fh.ctxErr ≠ none) ∧
        (pgf = none ↔ err ≠ none)) ∧
      (∀ res fixes, fh.contentErr = none → fh.ctxErr = none →
        (ParseGopSrc d fset fh.URI fh.content mode purgeFuncBodies).result = .ok (res, fixes) →
        parseGopImpl d fset fh mode purgeFuncBodies = .ok (some res, none)) ∧
      (∀ file l, fh.contentErr = none → fh.ctxErr = none →
        (d.parseFile fset (d.filename fh.URI)
          (if purgeFuncBodies then d.purgeFuncBodies fh.content else fh.content) mode).1
          = (some file, some (GoError.errorList l)) →
        ∃ res, parseGopImpl (d.snapshot zero) fset fh mode purgeFuncBodies
            = .ok (some res, none) ∧ res.ParseErr = some l) := by
  refine ⟨?_, ?_, ?_, ?_, ?_⟩
  · intro e he
    simp [parseGopImpl, he]
  · intro e h1 h2
    simp [parseGopImpl, h1, h2]
  · intro pgf err h
    unfold parseGopImpl at h
    cases h1 : fh.contentErr with
    | some e =>
      simp only [h1, Except.ok.injEq, Prod.mk.injEq] at h
      simp [← h.1, ← h.2]
    | none =>
      cases h2 : fh.ctxErr with
      | some e =>
        simp only [h1, h2, Except.ok.injEq, Prod.mk.injEq] at h
        simp [← h.1, ← h.2]
      | none =>
        simp only [h1, h2] at h
        cases h3 : (ParseGopSrc d fset fh.URI fh.content mode purgeFuncBodies).result with
        | error f => simp [h3] at h
        | ok r =>
          obtain ⟨res, fixes⟩ := r
          simp only [h3, Except.ok.injEq, Prod.mk.injEq] at h
          simp [← h.1, ← h.2]
  · intro res fixes h1 h2 h3
    simp [parseGopImpl, h1, h2, h3]
  · intro file l h1 h2 h3
    obtain ⟨res, fixes, hres, _, _⟩ := snapshot_returns_tree d zero fset fh.URI
      fh.content mode purgeFuncBodies file (some (GoError.errorList l)) h3
      (by intro msg hm; cases hm)
    refine ⟨res, by simp [parseGopImpl, h1, h2, hres], ?_⟩
    have hk := (first_error_kept (d.snapshot zero) fset fh.URI fh.content mode
      purgeFuncBodies res fixes hres).1
    have h3' : ((d.snapshot zero).parseFile fset ((d.snapshot zero).filename fh.URI)
        (if purgeFuncBodies then (d.snapshot zero).purgeFuncBodies fh.content else fh.content)
        mode).1 = (some file, some (GoError.errorList l)) := h3
    rw [h3'] at hk
    simp only [assertErrorList, Except.ok.injEq] at hk
    exact hk.symm

/-- Witness of C8: the content is read, the context is live and the parser
reports a syntax error together with tree 1. -/
theorem parseGopImpl_errors_witness :
    ∃ res, parseGopImpl ((demo parseByLength knownOne [] noEdit).snapshot 0) 0 emptyFile 0 false
        = .ok (some res, none) ∧ res.ParseErr = some ["expected package"] :=
  (parseGopImpl_errors (demo parseByLength knownOne [] noEdit) 0 0 emptyFile 0 false).2.2.2.2
    1 ["expected package"] rfl rfl rfl

end Theorems

end Cache

/-! ## Theorems on `rename_check_gox.go` -/

namespace Source

theorem Checks.ofBody_get (f : Renamer → Renamer) (c : Check) (obj : Object) :
    (Checks.ofBody f).get c obj = f := by
  cases c <;> rfl

theorem gopCheck_eq_select (env : TypesEnv) (cs : Checks) (r : Renamer) (obj : Object) :
    gopCheck env cs r obj =
      if obj ∈ r.objsToUpdate then r
      else
        match selectCheck env obj with
        | some c =>
          Renamer.enter { r with objsToUpdate := obj :: r.objsToUpdate } cs c obj
        | none =>
          Renamer.errorf { r with objsToUpdate := obj :: r.objsToUpdate } obj.pos
            "unexpected %s object %q (please report a bug)\n"
            [env.objectKind obj, env.objectString obj] := by
  unfold gopCheck selectCheck
  by_cases hm : obj ∈ r.objsToUpdate
  · simp [hm]
  · simp only [hm, if_false]
    split_ifs <;> rfl

theorem gopCheck_recorded (env : TypesEnv) (cs : Checks) (r : Renamer) (obj : Object)
    (h : obj ∈ r.objsToUpdate) : gopCheck env cs r obj = r := by
  unfold gopCheck
  simp [h]

theorem KeepsCount.id (env : TypesEnv) : KeepsCount env (fun r => r) := by
  intro r
  refine ⟨fun x hx => hx, fun x => ?_⟩
  have : ¬ (x ∉ r.objsToUpdate ∧ x ∈ r.objsToUpdate ∧ hasCheck env x = true) :=
    fun h => h.1 h.2.1
  simp [this]

theorem KeepsCount.errorf (env : TypesEnv) (pos : Int) (format : String)
    (args : List String) : KeepsCount env (fun r => r.errorf pos format args) := by
  intro r
  refine ⟨fun x hx => hx, fun x => ?_⟩
  have : ¬ (x ∉ r.objsToUpdate ∧ x ∈ (r.errorf pos format args).objsToUpdate ∧
      hasCheck env x = true) := fun h => h.1 h.2.1
  simp only [this, if_false]
  rfl

theorem KeepsCount.comp (env : TypesEnv) (f g : Renamer → Renamer)
    (hf : KeepsCount env f) (hg : KeepsCount env g) : KeepsCount env (fun r => g (f r)) := by
  intro r
  obtain ⟨f1, f2⟩ := hf r
  obtain ⟨g1, g2⟩ := hg (f r)
  refine ⟨fun x hx => g1 x (f1 x hx), fun x => ?_⟩
  show (g (f r)).entered x = _
  rw [g2 x, f2 x]
  by_cases hr : x ∈ r.objsToUpdate
  · have hfr := f1 x hr
    simp [hr, hfr]
  · by_cases hfr : x ∈ (f r).objsToUpdate
    · have hgr := g1 x hfr
      simp [hr, hfr, hgr]
    · simp [hr, hfr]

theorem gopCheck_keepsCount (env : TypesEnv) (f : Renamer → Renamer)
    (hf : KeepsCount env f) (obj : Object) (r : Renamer) :
    (∀ x, x ∈ r.objsToUpdate → x ∈ (gopCheck env (Checks.ofBody f) r obj).objsToUpdate) ∧
    ∀ x, (gopCheck env (Checks.ofBody f) r obj).entered x = r.entered x +
      if x ∉ r.objsToUpdate ∧ x ∈ (gopCheck env (Checks.ofBody f) r obj).objsToUpdate ∧
        hasCheck env x = true then 1 else 0 := by
  rw [gopCheck_eq_select]
  by_cases hm : obj ∈ r.objsToUpdate
  · simp only [hm, if_true]
    exact KeepsCount.id env r
  · simp only [hm, if_false]
    cases hsel : selectCheck env obj with
    | none =>
      have hc : hasCheck env obj = false := by simp [hasCheck, hsel]
      refine ⟨fun x hx => ?_, fun x => ?_⟩
      · exact List.mem_cons_of_mem _ hx
      · show r.entered x = r.entered x +
          if x ∉ r.objsToUpdate ∧ x ∈ obj :: r.objsToUpdate ∧ hasCheck env x = true
            then 1 else 0
        by_cases hx : x = obj
        · subst hx
          simp [hc]
        · have : ¬ (x ∉ r.objsToUpdate ∧ x ∈ obj :: r.objsToUpdate ∧
              hasCheck env x = true) := by
            rintro ⟨h1, h2, _⟩
            rcases List.mem_cons.mp h2 with h | h
            · exact hx h
            · exact h1 h
          simp only [this, if_false, Nat.add_zero]
    | some c =>
      have hc : hasCheck env obj = true := by simp [hasCheck, hsel]
      simp only [Renamer.enter, Checks.ofBody_get]
      obtain ⟨f1, f2⟩ := hf ⟨r.to_, obj :: r.objsToUpdate, r.errors, r.invoked ++ [(c, obj)]⟩
      refine ⟨fun x hx => f1 x (List.mem_cons_of_mem _ hx), fun x => ?_⟩
      rw [f2 x]
      have hobj := f1 obj (List.mem_cons_self _ _)
      by_cases hx : x = obj
      · subst hx
        simp [Renamer.entered, List.countP_append, hm, hobj, hc]
      · have hne : ¬ (obj = x) := fun h => hx h.symm
        simp [Renamer.entered, List.countP_append, hne, hx]

theorem Script.run_keepsCount (env : TypesEnv) (s : Script) : KeepsCount env (s.run env) := by
  induction s with
  | done => exact KeepsCount.id env
  | errorf pos format args rest ih =>
    exact KeepsCount.comp env (fun r => r.errorf pos format args) (rest.run env)
      (KeepsCount.errorf env pos format args) ih
  | check obj body rest ihb ihr =>
    exact KeepsCount.comp env (fun r => gopCheck env (Checks.ofBody (fun r1 => body.run env r1)) r obj)
      (rest.run env) (fun r => gopCheck_keepsCount env _ ihb obj r) ihr

theorem gopCheck_records (env : TypesEnv) (cs : Checks) (r : Renamer) (obj : Object)
    (hcs : ∀ c o r1, ∀ x, x ∈ r1.objsToUpdate → x ∈ (cs.get c o r1).objsToUpdate) :
    obj ∈ (gopCheck env cs r obj).objsToUpdate := by
  rw [gopCheck_eq_select]
  by_cases hm : obj ∈ r.objsToUpdate
  · simp [hm]
  · simp only [hm, if_false]
    cases selectCheck env obj with
    | none => exact List.mem_cons_self _ _
    | some c => exact hcs c obj _ obj (List.mem_cons_self _ _)

theorem Script.calls_recorded (env : TypesEnv) (s : Script) :
    ∀ r x, x ∈ s.calls → x ∈ (s.run env r).objsToUpdate := by
  induction s with
  | done => intro r x hx; simp [Script.calls] at hx
  | errorf pos format args rest ih =>
    intro r x hx
    exact ih _ x hx
  | check obj body rest ihb ihr =>
    intro r x hx
    rcases List.mem_cons.mp hx with h | h
    · subst h
      refine (Script.run_keepsCount env rest _).1 x ?_
      apply gopCheck_records
      intro c o r1 y hy
      rw [Checks.ofBody_get]
      exact (Script.run_keepsCount env body r1).1 y hy
    · exact ihr _ x h

/-- C9. Rename dedup. A call `gopCheck(from)` on an object that is already in
`objsToUpdate` returns the renamer as it was: no safety predicate is entered,
the set and the errors are unchanged, whatever the predicates are. Hence,
for every request (a tree of `gopCheck` calls, those made by the predicates
included) run from any renamer `r0`: the predicate of an object `x` is
entered once if the request records `x` (`x` was not in `objsToUpdate` and is
afterwards) and `gopCheck` selects a predicate for `x`, and not at all
otherwise; so every object the request calls `gopCheck` on that was not
recorded before and has a predicate gets it entered exactly once, and an
object recorded before gets none. -/
theorem gopCheck_dedup (env : TypesEnv) :
    (∀ (cs : Checks) (r : Renamer) (from_ : Object), from_ ∈ r.objsToUpdate →
        gopCheck env cs r from_ = r) ∧
      (∀ (s : Script) (r0 : Renamer) (x : Object),
        (s.run env r0).entered x = r0.entered x +
          if x ∉ r0.objsToUpdate ∧ x ∈ (s.run env r0).objsToUpdate ∧ hasCheck env x = true
            then 1 else 0) ∧
      (∀ (s : Script) (r0 : Renamer) (x : Object), x ∈ s.calls → x ∉ r0.objsToUpdate →
        hasCheck env x = true → (s.run env r0).entered x = r0.entered x + 1) ∧
      (∀ (s : Script) (r0 : Renamer) (x : Object), x ∈ r0.objsToUpdate →
        (s.run env r0).entered x = r0.entered x) := by
  refine ⟨fun cs r from_ h => gopCheck_recorded env cs r from_ h,
    fun s r0 x => (Script.run_keepsCount env s r0).2 x, fun s r0 x hx hr hc => ?_,
    fun s r0 x hr => ?_⟩
  · rw [(Script.run_keepsCount env s r0).2 x]
    have := Script.calls_recorded env s r0 x hx
    simp [hr, this, hc]
  · rw [(Script.run_keepsCount env s r0).2 x]
    simp [hr]

/-- Witness of C9: `gopCheck` on the recorded `V` changes nothing, although
every predicate would report an error; and in the request that reaches `V`
three times and `F` twice, the predicate of `V` is entered once. -/
theorem gopCheck_dedup_witness :
    gopCheck demoEnv loudChecks renamerWithV objV = renamerWithV ∧
      (demoScript.run demoEnv freshRenamer).entered objV = freshRenamer.entered objV + 1 :=
  ⟨(gopCheck_dedup demoEnv).1 loudChecks renamerWithV objV (by decide),
    (gopCheck_dedup demoEnv).2.2.1 demoScript freshRenamer objV (by decide) (by decide) rfl⟩

/-- C10. Rename visibility. `gopCheckExport(id, pkg, from)` returns false
exactly when the new name `r.to` is not exported and `pkg` is not the package
`from.Pkg()`. It then appends two errors to those of the renamer and changes
nothing else: one at the position of `from`, and one at the position of `id`
whose argument is `pkg.Path()`. When it returns true the renamer is
unchanged. -/
theorem gopCheckExport_refuses (env : TypesEnv) (r : Renamer) (id : Ident) (pkg : Package)
    (from_ : Object) :
    ((gopCheckExport env r id pkg from_).1 = false ↔
        env.isExported r.to_ = false ∧ some pkg ≠ from_.pkg) ∧
      ((gopCheckExport env r id pkg from_).1 = false →
        (gopCheckExport env r id pkg from_).2 =
          { r with errors := r.errors ++
              [⟨from_.pos, "renaming %q to %q would make it unexported", [from_.name, r.to_]⟩,
               ⟨id.pos, "\tbreaking references from packages such as %q", [pkg.path]⟩] } ∧
        ∃ c, c ∈ (gopCheckExport env r id pkg from_).2.errors ∧ c.pos = id.pos ∧
          pkg.path ∈ c.args) ∧
      ((gopCheckExport env r id pkg from_).1 = true →
        (gopCheckExport env r id pkg from_).2 = r) := by
  unfold gopCheckExport
  by_cases h : env.isExported r.to_ = false ∧ some pkg ≠ from_.pkg
  · rw [if_pos h]
    refine ⟨⟨fun _ => h, fun _ => rfl⟩, fun _ => ⟨?_, ?_⟩, fun hf => by simp at hf⟩
    · simp [Renamer.errorf]
    · exact ⟨⟨id.pos, "\tbreaking references from packages such as %q", [pkg.path]⟩,
        by simp [Renamer.errorf], rfl, by simp⟩
  · rw [if_neg h]
    exact ⟨⟨fun hf => by simp at hf, fun hh => absurd hh h⟩, fun hf => by simp at hf,
      fun _ => rfl⟩

/-- Witness of C10: renaming `V` of package `a` to `v` is refused for the
identifier of package `b`, with an error that cites `example.com/b`. -/
theorem gopCheckExport_refuses_witness :
    (gopCheckExport demoEnv freshRenamer identV pkgB objV).2 =
        { freshRenamer with errors := freshRenamer.errors ++
          [⟨objV.pos, "renaming %q to %q would make it unexported", [objV.name, "v"]⟩,
           ⟨identV.pos, "\tbreaking references from packages such as %q", [pkgB.path]⟩] } ∧
      ∃ c, c ∈ (gopCheckExport demoEnv freshRenamer identV pkgB objV).2.errors ∧
        c.pos = identV.pos ∧ pkgB.path ∈ c.args :=
  (gopCheckExport_refuses demoEnv freshRenamer identV pkgB objV).2.1 rfl

end Source

/-! ## Theorems on the reference traversal -/

namespace Source

theorem feed_not_ok (pkg : RefPkg) (fn : RefFn) (l : List (Ident × List Node)) (s : Trav)
    (h : s.ok = false) : feed pkg fn l s = s := by
  cases l with
  | nil => rfl
  | cons p rest =>
    obtain ⟨id, stack⟩ := p
    simp [feed, h]

theorem feed_append (pkg : RefPkg) (fn : RefFn) (l1 l2 : List (Ident × List Node)) :
    ∀ s : Trav, feed pkg fn (l1 ++ l2) s = feed pkg fn l2 (feed pkg fn l1 s) := by
  induction l1 with
  | nil => intro s; rfl
  | cons p rest ih =>
    intro s
    obtain ⟨id, stack⟩ := p
    by_cases hok : s.ok = true
    · simp only [List.cons_append, feed, hok, if_true]
      exact ih _
    · have hf : s.ok = false := by simpa using hok
      rw [List.cons_append, feed_not_ok pkg fn _ s hf, feed_not_ok pkg fn _ s hf,
        feed_not_ok pkg fn _ s hf]

theorem feed_frame (pkg : RefPkg) (fn : RefFn) (l : List (Ident × List Node)) :
    ∀ s : Trav, (feed pkg fn l s).stack = s.stack ∧ (feed pkg fn l s).panicked = s.panicked := by
  induction l with
  | nil => intro s; exact ⟨rfl, rfl⟩
  | cons p rest ih =>
    intro s
    obtain ⟨id, stack⟩ := p
    by_cases hok : s.ok = true
    · simp only [feed, hok, if_true]
      exact ih _
    · have hf : s.ok = false := by simpa using hok
      rw [feed_not_ok pkg fn _ s hf]
      exact ⟨rfl, rfl⟩

theorem feed_with_stack (pkg : RefPkg) (fn : RefFn) (l : List (Ident × List Node))
    (t : List Node) :
    ∀ s : Trav, feed pkg fn l (s.withStack t) = (feed pkg fn l s).withStack t := by
  induction l with
  | nil => intro s; rfl
  | cons p rest ih =>
    intro s
    obtain ⟨id, stack⟩ := p
    by_cases hok : s.ok = true
    · have hok2 : (s.withStack t).ok = true := hok
      simp only [feed, hok, hok2, if_true]
      exact ih { s with
        calls := s.calls ++ [⟨id, pkg.enclosingBlock stack, fn s.calls id
          (pkg.enclosingBlock stack)⟩]
        ok := fn s.calls id (pkg.enclosingBlock stack) }
    · have hf : s.ok = false := by simpa using hok
      have hf2 : (s.withStack t).ok = false := hf
      rw [feed_not_ok pkg fn _ _ hf2, feed_not_ok pkg fn _ s hf]

theorem withStack_self (s : Trav) : s.withStack s.stack = s := by
  cases s
  rfl

theorem visitNil_push (s : Trav) (n : Node) (st : List Node) (hp : s.panicked = none) :
    (visitNil (s.withStack (st ++ [n]))).2 = s.withStack st := by
  have h1 : (s.withStack (st ++ [n])).panicked = none := hp
  have h2 : (s.withStack (st ++ [n])).stack = st ++ [n] := rfl
  simp [visitNil, Trav.withStack, hp]

theorem pop_feed (pkg : RefPkg) (fn : RefFn) (l : List (Ident × List Node)) (n : Node)
    (s : Trav) (hp : s.panicked = none) :
    (visitNil (feed pkg fn l (s.withStack (s.stack ++ [n])))).2 = feed pkg fn l s := by
  rw [feed_with_stack]
  have hfr := feed_frame pkg fn l s
  rw [visitNil_push _ n s.stack (by rw [hfr.2]; exact hp), ← hfr.1, withStack_self]

theorem enter_ok (n : Node) (s : Trav) (hp : s.panicked = none) (hok : s.ok = true) :
    enter n s = some (s.withStack (s.stack ++ [n])) := by
  simp [enter, hp, hok]

theorem enter_not_ok (n : Node) (s : Trav) (hok : s.ok = false) : enter n s = none := by
  simp [enter, hok]

theorem feed_push_frame (pkg : RefPkg) (fn : RefFn) (l : List (Ident × List Node))
    (s : Trav) (st : List Node) (hp : s.panicked = none) :
    (feed pkg fn l (s.withStack st)).panicked = none ∧
      (feed pkg fn l (s.withStack st)).stack = st := by
  have h := feed_frame pkg fn l (s.withStack st)
  exact ⟨by rw [h.2]; exact hp, by rw [h.1]; rfl⟩

mutual
theorem inspect_eq_feed (pkg : RefPkg) (obj : Option Object) (fn : RefFn) :
    ∀ (n : Node) (s : Trav), s.panicked = none →
      inspect pkg obj fn n s = feed pkg fn (lexicalRefs pkg obj s.stack n) s
  | .ident id, s, hp => by
    by_cases hok : s.ok = true
    · unfold inspect
      rw [enter_ok _ s hp hok]
      simp only [lexicalRefs, visitIdent]
      have hst : (s.withStack (s.stack ++ [Node.ident id])).stack = s.stack ++ [Node.ident id] :=
        rfl
      have hc : (s.withStack (s.stack ++ [Node.ident id])).calls = s.calls := rfl
      have hk : (s.withStack (s.stack ++ [Node.ident id])).ok = true := hok
      by_cases hu : pkg.uses id = obj
      · simp only [hu, if_true, hst, hc, hk, feed, hok]
        have := visitNil_push
          { s with
            calls := s.calls ++ [⟨id, pkg.enclosingBlock (s.stack ++ [Node.ident id]),
              fn s.calls id (pkg.enclosingBlock (s.stack ++ [Node.ident id]))⟩]
            ok := fn s.calls id (pkg.enclosingBlock (s.stack ++ [Node.ident id])) }
          (Node.ident id) s.stack hp
        rw [← withStack_self
          { s with
            calls := s.calls ++ [⟨id, pkg.enclosingBlock (s.stack ++ [Node.ident id]),
              fn s.calls id (pkg.enclosingBlock (s.stack ++ [Node.ident id]))⟩]
            ok := fn s.calls id (pkg.enclosingBlock (s.stack ++ [Node.ident id])) }]
        rw [← this]
        congr 2
        cases fn s.calls id (pkg.enclosingBlock (s.stack ++ [Node.ident id])) <;> rfl
      · simp only [hu, if_false, feed]
        rw [visitNil_push s _ s.stack hp, withStack_self]
    · have hf : s.ok = false := by simpa using hok
      unfold inspect
      rw [enter_not_ok _ s hf, feed_not_ok pkg fn _ s hf]
  | .selectorExpr X Sel, s, hp => by
    by_cases hok : s.ok = true
    · unfold inspect
      rw [enter_ok _ s hp hok]
      simp only [lexicalRefs]
      rw [inspect_eq_feed pkg obj fn X (s.withStack (s.stack ++ [Node.selectorExpr X Sel])) hp]
      exact pop_feed pkg fn _ _ s hp
    · have hf : s.ok = false := by simpa using hok
      unfold inspect
      rw [enter_not_ok _ s hf, feed_not_ok pkg fn _ s hf]
  | .compositeLit addr typ elts, s, hp => by
    by_cases hok : s.ok = true
    · unfold inspect
      rw [enter_ok _ s hp hok]
      simp only [lexicalRefs]
      cases hl : pkg.litStruct addr with
      | none =>
        simp only [feed]
        rw [visitNil_push s _ s.stack hp, withStack_self]
      | some b =>
        have hfr := fun l => feed_push_frame pkg fn l s
          (s.stack ++ [Node.compositeLit addr typ elts]) hp
        cases b with
        | true =>
          simp only []
          rw [inspectOpt_eq_feed pkg obj fn typ
            (s.withStack (s.stack ++ [Node.compositeLit addr typ elts])) hp]
          rw [inspectElts_eq_feed pkg obj fn elts _ (hfr _).1]
          rw [(hfr _).2, ← feed_append]
          exact pop_feed pkg fn _ _ s hp
        | false =>
          simp only []
          rw [inspectOpt_eq_feed pkg obj fn typ
            (s.withStack (s.stack ++ [Node.compositeLit addr typ elts])) hp]
          rw [inspectList_eq_feed pkg obj fn elts _ (hfr _).1]
          rw [(hfr _).2, ← feed_append]
          exact pop_feed pkg fn _ _ s hp
    · have hf : s.ok = false := by simpa using hok
      unfold inspect
      rw [enter_not_ok _ s hf, feed_not_ok pkg fn _ s hf]
  | .keyValueExpr key value, s, hp => by
    by_cases hok : s.ok = true
    · unfold inspect
      rw [enter_ok _ s hp hok]
      simp only [lexicalRefs]
      have hfr := fun l => feed_push_frame pkg fn l s
        (s.stack ++ [Node.keyValueExpr key value]) hp
      rw [inspect_eq_feed pkg obj fn key
        (s.withStack (s.stack ++ [Node.keyValueExpr key value])) hp]
      rw [inspect_eq_feed pkg obj fn value _ (hfr _).1]
      rw [(hfr _).2, ← feed_append]
      exact pop_feed pkg fn _ _ s hp
    · have hf : s.ok = false := by simpa using hok
      unfold inspect
      rw [enter_not_ok _ s hf, feed_not_ok pkg fn _ s hf]
  | .other addr children, s, hp => by
    by_cases hok : s.ok = true
    · unfold inspect
      rw [enter_ok _ s hp hok]
      simp only [lexicalRefs]
      rw [inspectList_eq_feed pkg obj fn children
        (s.withStack (s.stack ++ [Node.other addr children])) hp]
      exact pop_feed pkg fn _ _ s hp
    · have hf : s.ok = false := by simpa using hok
      unfold inspect
      rw [enter_not_ok _ s hf, feed_not_ok pkg fn _ s hf]
theorem inspectOpt_eq_feed (pkg : RefPkg) (obj : Option Object) (fn : RefFn) :
    ∀ (n : Option Node) (s : Trav), s.panicked = none →
      inspectOpt pkg obj fn n s = feed pkg fn (lexicalRefsOpt pkg obj s.stack n) s
  | none, s, _ => by simp [inspectOpt, lexicalRefsOpt, feed]
  | some n, s, hp => by
    simp only [inspectOpt, lexicalRefsOpt]
    exact inspect_eq_feed pkg obj fn n s hp
theorem inspectList_eq_feed (pkg : RefPkg) (obj : Option Object) (fn : RefFn) :
    ∀ (ns : List Node) (s : Trav), s.panicked = none →
      inspectList pkg obj fn ns s = feed pkg fn (lexicalRefsList pkg obj s.stack ns) s
  | [], s, _ => by simp [inspectList, lexicalRefsList, feed]
  | n :: ns, s, hp => by
    simp only [inspectList, lexicalRefsList]
    rw [inspect_eq_feed pkg obj fn n s hp]
    rw [inspectList_eq_feed pkg obj fn ns _ (by rw [(feed_frame pkg fn _ _).2]; exact hp)]
    rw [(feed_frame pkg fn _ _).1, ← feed_append]
theorem inspectElts_eq_feed (pkg : RefPkg) (obj : Option Object) (fn : RefFn) :
    ∀ (ns : List Node) (s : Trav), s.panicked = none →
      inspectElts pkg obj fn ns s = feed pkg fn (lexicalRefsElts pkg obj s.stack ns) s
  | [], s, _ => by simp [inspectElts, lexicalRefsElts, feed]
  | .keyValueExpr key value :: ns, s, hp => by
    simp only [inspectElts, lexicalRefsElts]
    rw [inspect_eq_feed pkg obj fn value s hp]
    rw [inspectElts_eq_feed pkg obj fn ns _ (by rw [(feed_frame pkg fn _ _).2]; exact hp)]
    rw [(feed_frame pkg fn _ _).1, ← feed_append]
  | .ident id :: ns, s, hp => by
    simp only [inspectElts, lexicalRefsElts]
    rw [inspect_eq_feed pkg obj fn _ s hp]
    rw [inspectElts_eq_feed pkg obj fn ns _ (by rw [(feed_frame pkg fn _ _).2]; exact hp)]
    rw [(feed_frame pkg fn _ _).1, ← feed_append]
  | .selectorExpr X Sel :: ns, s, hp => by
    simp only [inspectElts, lexicalRefsElts]
    rw [inspect_eq_feed pkg obj fn _ s hp]
    rw [inspectElts_eq_feed pkg obj fn ns _ (by rw [(feed_frame pkg fn _ _).2]; exact hp)]
    rw [(feed_frame pkg fn _ _).1, ← feed_append]
  | .compositeLit a t e :: ns, s, hp => by
    simp only [inspectElts, lexicalRefsElts]
    rw [inspect_eq_feed pkg obj fn _ s hp]
    rw [inspectElts_eq_feed pkg obj fn ns _ (by rw [(feed_frame pkg fn _ _).2]; exact hp)]
    rw [(feed_frame pkg fn _ _).1, ← feed_append]
  | .other a c :: ns, s, hp => by
    simp only [inspectElts, lexicalRefsElts]
    rw [inspect_eq_feed pkg obj fn _ s hp]
    rw [inspectElts_eq_feed pkg obj fn ns _ (by rw [(feed_frame pkg fn _ _).2]; exact hp)]
    rw [(feed_frame pkg fn _ _).1, ← feed_append]
end

theorem visitNil_fst (s : Trav) : (visitNil s).1 = false := by
  unfold visitNil
  split_ifs <;> rfl

theorem inspect_walks_visit (pkg : RefPkg) (obj : Option Object) (fn : RefFn) (n : Node)
    (s : Trav) :
    inspect pkg obj fn n s =
      if (visit pkg obj fn n s).1 = true then
        (visitNil (walkChildren pkg obj fn n (visit pkg obj fn n s).2)).2
      else (visit pkg obj fn n s).2 := by
  cases n with
  | ident id =>
    unfold inspect visit
    cases enter (Node.ident id) s <;> simp [visitNil_fst]
  | selectorExpr X Sel =>
    unfold inspect visit
    cases enter (Node.selectorExpr X Sel) s <;> simp [visitNil_fst]
  | compositeLit addr typ elts =>
    unfold inspect visit
    cases enter (Node.compositeLit addr typ elts) s with
    | none => simp
    | some s1 =>
      cases hl : pkg.litStruct addr with
      | none => simp only [hl]; simp [visitNil_fst]
      | some b => cases b <;> simp only [hl] <;> simp [visitNil_fst, walkChildren]
  | keyValueExpr key value =>
    unfold inspect visit
    cases enter (Node.keyValueExpr key value) s <;> simp [walkChildren]
  | other addr children =>
    unfold inspect visit
    cases enter (Node.other addr children) s <;> simp [walkChildren]

theorem filesLoop_eq_feed (pkg : RefPkg) (obj : Option Object) (fn : RefFn) :
    ∀ (fs : List Node) (s : Trav), s.panicked = none → s.stack = [] →
      filesLoop pkg obj fn fs s = feed pkg fn (lexicalRefsList pkg obj [] fs) s := by
  intro fs
  induction fs with
  | nil => intro s _ _; simp [filesLoop, lexicalRefsList, feed]
  | cons f fs ih =>
    intro s hp hs
    have hi := inspect_eq_feed pkg obj fn f s hp
    have hfr := feed_frame pkg fn (lexicalRefs pkg obj s.stack f) s
    rw [hs] at hi hfr
    simp only [filesLoop, lexicalRefsList, feed_append]
    rw [hi]
    have h1 : (feed pkg fn (lexicalRefs pkg obj [] f) s).panicked = none := by
      rw [hfr.2]; exact hp
    have h2 : (feed pkg fn (lexicalRefs pkg obj [] f) s).stack = [] := hfr.1
    simp only [h1, h2, Option.isSome_none, Bool.false_eq_true, if_false, List.length_nil,
      ne_eq, not_true_eq_false]
    by_cases hok : (feed pkg fn (lexicalRefs pkg obj [] f) s).ok = true
    · simp only [hok, Bool.not_true, Bool.false_eq_true, if_false]
      exact ih _ h1 h2
    · have hf : (feed pkg fn (lexicalRefs pkg obj [] f) s).ok = false := by simpa using hok
      simp only [hf, Bool.not_false, if_true]
      rw [feed_not_ok pkg fn _ _ hf]

theorem gopForEachLexicalRef_eq_feed (pkg : RefPkg) (obj : Option Object) (fn : RefFn) :
    gopForEachLexicalRef pkg obj fn =
      feed pkg fn (lexicalRefsList pkg obj [] pkg.files) Trav.start :=
  filesLoop_eq_feed pkg obj fn pkg.files Trav.start rfl rfl

theorem feed_consistent (pkg : RefPkg) (fn : RefFn) (l : List (Ident × List Node)) :
    ∀ s : Trav, s.Consistent fn → (feed pkg fn l s).Consistent fn := by
  induction l with
  | nil => intro s h; exact h
  | cons p rest ih =>
    intro s h
    obtain ⟨id, stack⟩ := p
    by_cases hok : s.ok = true
    · simp only [feed, hok, if_true]
      apply ih
      obtain ⟨h1, h2, h3⟩ := h
      have hall := h1.mp hok
      refine ⟨?_, ?_, ?_⟩
      · constructor
        · intro hr c hc
          rcases List.mem_append.mp hc with hc | hc
          · exact hall c hc
          · simp only [List.mem_singleton] at hc
            subst hc
            exact hr
        · intro hr
          exact hr _ (List.mem_append_right _ (List.mem_singleton.mpr rfl))
      · intro c hc
        have hd : (s.calls ++ [(⟨id, pkg.enclosingBlock stack,
            fn s.calls id (pkg.enclosingBlock stack)⟩ : Call)]).dropLast = s.calls := by
          simp
        simp only [hd] at hc
        exact hall c hc
      · intro pre c post hsplit
        rcases List.eq_nil_or_concat post with hpost | ⟨post1, last, hpost⟩
        · subst hpost
          have hsplit2 : s.calls ++ [(⟨id, pkg.enclosingBlock stack,
              fn s.calls id (pkg.enclosingBlock stack)⟩ : Call)] = pre ++ [c] := hsplit
          have := List.append_inj' hsplit2 rfl
          obtain ⟨e1, e2⟩ := this
          simp only [List.cons.injEq, and_true] at e2
          subst e1
          subst e2
          rfl
        · subst hpost
          have hsplit2 : s.calls ++ [(⟨id, pkg.enclosingBlock stack,
              fn s.calls id (pkg.enclosingBlock stack)⟩ : Call)]
              = (pre ++ c :: post1) ++ [last] := by
            have hsplit3 : s.calls ++ [(⟨id, pkg.enclosingBlock stack,
                fn s.calls id (pkg.enclosingBlock stack)⟩ : Call)]
                = pre ++ c :: post1.concat last := hsplit
            rw [hsplit3]; simp
          have := List.append_inj' hsplit2 rfl
          exact h3 pre c post1 this.1
    · have hf : s.ok = false := by simpa using hok
      rw [feed_not_ok pkg fn _ s hf]
      exact h

theorem start_consistent (fn : RefFn) : Trav.start.Consistent fn := by
  refine ⟨?_, ?_, ?_⟩
  · simp [Trav.start]
  · simp [Trav.start]
  · intro pre c post h
    simp [Trav.start] at h

theorem feed_all_true (pkg : RefPkg) (fn : RefFn) (hfn : ∀ h id b, fn h id b = true)
    (l : List (Ident × List Node)) :
    ∀ s : Trav, s.ok = true →
      (feed pkg fn l s).ok = true ∧
      (feed pkg fn l s).calls =
        s.calls ++ l.map (fun p => (⟨p.1, pkg.enclosingBlock p.2, true⟩ : Call)) := by
  induction l with
  | nil => intro s h; simp [feed, h]
  | cons p rest ih =>
    intro s h
    obtain ⟨id, stack⟩ := p
    simp only [feed, h, if_true, hfn]
    have := ih { s with
      calls := s.calls ++ [⟨id, pkg.enclosingBlock stack, true⟩]
      ok := true } rfl
    simp only [this, List.map_cons, List.append_assoc, List.singleton_append, and_self]

theorem feed_ok_all (pkg : RefPkg) (fn : RefFn) (l : List (Ident × List Node)) :
    ∀ s : Trav, (feed pkg fn l s).ok = true →
      (feed pkg fn l s).calls =
        s.calls ++ l.map (fun p => (⟨p.1, pkg.enclosingBlock p.2, true⟩ : Call)) := by
  induction l with
  | nil => intro s _; simp [feed]
  | cons p rest ih =>
    intro s h
    obtain ⟨id, stack⟩ := p
    by_cases hok : s.ok = true
    · simp only [feed, hok, if_true] at h ⊢
      have hr : fn s.calls id (pkg.enclosingBlock stack) = true := by
        by_contra hne
        have hf : fn s.calls id (pkg.enclosingBlock stack) = false := by simpa using hne
        rw [feed_not_ok pkg fn rest _ hf] at h
        rw [hf] at h
        exact Bool.noConfusion h
      rw [ih _ h]
      simp [hr]
    · have hf : s.ok = false := by simpa using hok
      rw [feed_not_ok pkg fn _ s hf] at h
      rw [hf] at h
      exact Bool.noConfusion h

theorem feed_calls_mem (pkg : RefPkg) (fn : RefFn) (l : List (Ident × List Node)) :
    ∀ (s : Trav) (c : Call), c ∈ (feed pkg fn l s).calls →
      c ∈ s.calls ∨ ∃ p ∈ l, c.id = p.1 := by
  induction l with
  | nil => intro s c h; exact Or.inl h
  | cons p rest ih =>
    intro s c h
    obtain ⟨id, stack⟩ := p
    by_cases hok : s.ok = true
    · simp only [feed, hok, if_true] at h
      rcases ih _ c h with h1 | ⟨q, hq, hc⟩
      · rcases List.mem_append.mp h1 with h2 | h2
        · exact Or.inl h2
        · simp only [List.mem_singleton] at h2
          exact Or.inr ⟨(id, stack), List.mem_cons_self _ _, by rw [h2]⟩
      · exact Or.inr ⟨q, List.mem_cons_of_mem _ hq, hc⟩
    · have hf : s.ok = false := by simpa using hok
      rw [feed_not_ok pkg fn _ s hf] at h
      exact Or.inl h

mutual
theorem lexicalRefs_idents (pkg : RefPkg) (obj : Option Object) :
    ∀ (n : Node) (stack : List Node) (p : Ident × List Node),
      p ∈ lexicalRefs pkg obj stack n → p.1 ∈ idents n
  | .ident id, stack, p, h => by
    simp only [lexicalRefs] at h
    split_ifs at h
    · simp only [List.mem_singleton] at h
      subst h
      simp [idents]
    · simp at h
  | .selectorExpr X Sel, stack, p, h => by
    simp only [lexicalRefs] at h
    simp only [idents, List.mem_append]
    exact Or.inl (lexicalRefs_idents pkg obj X _ p h)
  | .compositeLit addr typ elts, stack, p, h => by
    simp only [lexicalRefs] at h
    simp only [idents, List.mem_append]
    cases hl : pkg.litStruct addr with
    | none => simp [hl] at h
    | some b =>
      cases b with
      | true =>
        simp only [hl, List.mem_append] at h
        rcases h with h | h
        · exact Or.inl (lexicalRefsOpt_idents pkg obj typ _ p h)
        · exact Or.inr (lexicalRefsElts_idents pkg obj elts _ p h).1
      | false =>
        simp only [hl, List.mem_append] at h
        rcases h with h | h
        · exact Or.inl (lexicalRefsOpt_idents pkg obj typ _ p h)
        · exact Or.inr (lexicalRefsList_idents pkg obj elts _ p h)
  | .keyValueExpr key value, stack, p, h => by
    simp only [lexicalRefs, List.mem_append] at h
    simp only [idents, List.mem_append]
    rcases h with h | h
    · exact Or.inl (lexicalRefs_idents pkg obj key _ p h)
    · exact Or.inr (lexicalRefs_idents pkg obj value _ p h)
  | .other addr children, stack, p, h => by
    simp only [lexicalRefs] at h
    simp only [idents]
    exact lexicalRefsList_idents pkg obj children _ p h
theorem lexicalRefsOpt_idents (pkg : RefPkg) (obj : Option Object) :
    ∀ (n : Option Node) (stack : List Node) (p : Ident × List Node),
      p ∈ lexicalRefsOpt pkg obj stack n → p.1 ∈ identsOpt n
  | none, stack, p, h => by simp [lexicalRefsOpt] at h
  | some n, stack, p, h => by
    simp only [lexicalRefsOpt] at h
    simp only [identsOpt]
    exact lexicalRefs_idents pkg obj n _ p h
theorem lexicalRefsList_idents (pkg : RefPkg) (obj : Option Object) :
    ∀ (ns : List Node) (stack : List Node) (p : Ident × List Node),
      p ∈ lexicalRefsList pkg obj stack ns → p.1 ∈ identsList ns
  | [], stack, p, h => by simp [lexicalRefsList] at h
  | n :: ns, stack, p, h => by
    simp only [lexicalRefsList, List.mem_append] at h
    simp only [identsList, List.mem_append]
    rcases h with h | h
    · exact Or.inl (lexicalRefs_idents pkg obj n _ p h)
    · exact Or.inr (lexicalRefsList_idents pkg obj ns _ p h)
theorem lexicalRefsElts_idents (pkg : RefPkg) (obj : Option Object) :
    ∀ (ns : List Node) (stack : List Node) (p : Ident × List Node),
      p ∈ lexicalRefsElts pkg obj stack ns →
        p.1 ∈ identsList ns ∧ p.1 ∈ identsList (ns.map eltValue)
  | [], stack, p, h => by simp [lexicalRefsElts] at h
  | .keyValueExpr key value :: ns, stack, p, h => by
    simp only [lexicalRefsElts, List.mem_append] at h
    simp only [identsList, idents, List.map_cons, eltValue, List.mem_append]
    rcases h with h | h
    · have := lexicalRefs_idents pkg obj value _ p h
      exact ⟨Or.inl (Or.inr this), Or.inl this⟩
    · have := lexicalRefsElts_idents pkg obj ns _ p h
      exact ⟨Or.inr this.1, Or.inr this.2⟩
  | .ident id :: ns, stack, p, h => by
    simp only [lexicalRefsElts, List.mem_append] at h
    simp only [identsList, List.map_cons, eltValue, List.mem_append]
    rcases h with h | h
    · have := lexicalRefs_idents pkg obj _ _ p h
      exact ⟨Or.inl this, Or.inl this⟩
    · have := lexicalRefsElts_idents pkg obj ns _ p h
      exact ⟨Or.inr this.1, Or.inr this.2⟩
  | .selectorExpr X Sel :: ns, stack, p, h => by
    simp only [lexicalRefsElts, List.mem_append] at h
    simp only [identsList, List.map_cons, eltValue, List.mem_append]
    rcases h with h | h
    · have := lexicalRefs_idents pkg obj _ _ p h
      exact ⟨Or.inl this, Or.inl this⟩
    · have := lexicalRefsElts_idents pkg obj ns _ p h
      exact ⟨Or.inr this.1, Or.inr this.2⟩
  | .compositeLit a t e :: ns, stack, p, h => by
    simp only [lexicalRefsElts, List.mem_append] at h
    simp only [identsList, List.map_cons, eltValue, List.mem_append]
    rcases h with h | h
    · have := lexicalRefs_idents pkg obj _ _ p h
      exact ⟨Or.inl this, Or.inl this⟩
    · have := lexicalRefsElts_idents pkg obj ns _ p h
      exact ⟨Or.inr this.1, Or.inr this.2⟩
  | .other a c :: ns, stack, p, h => by
    simp only [lexicalRefsElts, List.mem_append] at h
    simp only [identsList, List.map_cons, eltValue, List.mem_append]
    rcases h with h | h
    · have := lexicalRefs_idents pkg obj _ _ p h
      exact ⟨Or.inl this, Or.inl this⟩
    · have := lexicalRefsElts_idents pkg obj ns _ p h
      exact ⟨Or.inr this.1, Or.inr this.2⟩
end

theorem lexicalRefsElts_eq_values (pkg : RefPkg) (obj : Option Object) (stack : List Node) :
    ∀ elts : List Node,
      lexicalRefsElts pkg obj stack elts = lexicalRefsList pkg obj stack (elts.map eltValue) := by
  intro elts
  induction elts with
  | nil => simp [lexicalRefsElts, lexicalRefsList]
  | cons e es ih =>
    cases e <;> simp [lexicalRefsElts, lexicalRefsList, eltValue, ih]

theorem inspect_frame (pkg : RefPkg) (obj : Option Object) (fn : RefFn) (n : Node) (s : Trav)
    (hp : s.panicked = none) :
    (inspect pkg obj fn n s).panicked = none ∧ (inspect pkg obj fn n s).stack = s.stack := by
  rw [inspect_eq_feed pkg obj fn n s hp]
  have h := feed_frame pkg fn (lexicalRefs pkg obj s.stack n) s
  exact ⟨by rw [h.2]; exact hp, h.1⟩

theorem false_call_is_last (calls : List Call) (h : ∀ c ∈ calls.dropLast, c.result = true)
    (pre : List Call) (c : Call) (post : List Call) (hsplit : calls = pre ++ c :: post)
    (hres : c.result = false) : post = [] := by
  by_contra hne
  have hmem : c ∈ calls.dropLast := by
    rw [hsplit, List.dropLast_append_of_ne_nil _ (List.cons_ne_nil c post),
      List.dropLast_cons_of_ne_nil hne]
    simp
  have := h c hmem
  rw [hres] at this
  exact Bool.noConfusion this

/-- C11. Struct-literal keys are not references. For a composite literal
whose recorded type has, after dereference, a struct underlying type, visited
with `ok` set or not: the literal reports to `fn` the references of its type
expression, of the values of its key-value elements and of its other
elements, in that order, as long as `fn` accepts them; every identifier it
passes to `fn` lies in one of these, so a key, which lies in none, is never
passed. In `type S struct { F int }; var s = S{F: 1}` the key `F` resolves to
the field `F`, and the traversal for that field calls `fn` not once, while
it would report the key if the literal had no struct type. -/
theorem structLit_keys_not_reported (pkg : RefPkg) (obj : Option Object) (fn : RefFn) :
    (∀ (addr : Nat) (typ : Option Node) (elts : List Node) (s : Trav),
      pkg.litStruct addr = some true → s.panicked = none →
        inspect pkg obj fn (Node.compositeLit addr typ elts) s =
          feed pkg fn
            (lexicalRefsOpt pkg obj (s.stack ++ [Node.compositeLit addr typ elts]) typ ++
              lexicalRefsList pkg obj (s.stack ++ [Node.compositeLit addr typ elts])
                (elts.map eltValue)) s ∧
        ∀ c ∈ (inspect pkg obj fn (Node.compositeLit addr typ elts) s).calls,
          c ∈ s.calls ∨ c.id ∈ identsOpt typ ++ identsList (elts.map eltValue)) ∧
      demoPkg.uses ⟨"F", 72⟩ = some objF ∧
      (gopForEachLexicalRef demoPkg (some objF) fnTrue).calls = [] ∧
      (gopForEachLexicalRef demoPkgMap (some objF) fnTrue).calls =
        [⟨⟨"F", 72⟩, some (Scope.root 6), true⟩] := by
  refine ⟨?_, by decide, by decide, by decide⟩
  intro addr typ elts s hstruct hp
  have heq : inspect pkg obj fn (Node.compositeLit addr typ elts) s =
      feed pkg fn
        (lexicalRefsOpt pkg obj (s.stack ++ [Node.compositeLit addr typ elts]) typ ++
          lexicalRefsList pkg obj (s.stack ++ [Node.compositeLit addr typ elts])
            (elts.map eltValue)) s := by
    rw [inspect_eq_feed pkg obj fn _ s hp]
    simp only [lexicalRefs, hstruct, lexicalRefsElts_eq_values]
  refine ⟨heq, ?_⟩
  intro c hc
  rw [heq] at hc
  rcases feed_calls_mem pkg fn _ s c hc with h | ⟨p, hp2, hid⟩
  · exact Or.inl h
  · right
    rw [hid]
    rcases List.mem_append.mp hp2 with h | h
    · exact List.mem_append_left _ (lexicalRefsOpt_idents pkg obj typ _ p h)
    · exact List.mem_append_right _ (lexicalRefsList_idents pkg obj _ _ p h)

/-- Witness of C11: the literal `S{F: 1}`, visited at the start of a
traversal for the field `F`, makes no call of `fn`. -/
theorem structLit_keys_not_reported_witness :
    ∀ c ∈ (inspect demoPkg (some objF) fnTrue litSF Trav.start).calls,
      c ∈ Trav.start.calls ∨
        c.id ∈ identsOpt (some (Node.ident ⟨"S", 70⟩)) ++
          identsList ([Node.keyValueExpr (Node.ident ⟨"F", 72⟩) (Node.other 10 [])].map
            eltValue) :=
  ((structLit_keys_not_reported demoPkg (some objF) fnTrue).1 9 (some (Node.ident ⟨"S", 70⟩))
    [Node.keyValueExpr (Node.ident ⟨"F", 72⟩) (Node.other 10 [])] Trav.start rfl rfl).2

/-- C12. The result of `gopForEachLexicalRef` is false exactly when a call of
`fn` returned false; such a call is the last call, so `fn` is not called
again in the same file or in a later one; every call returned what `fn`
answers. When every call of `fn` returned true, the result is true and `fn`
has been called, in order, on every reference that the traversal of section
4.5a reaches in the compiled files: every reached identifier that `Uses` maps
to `obj`, with the block of its stack. -/
theorem gopForEachLexicalRef_result (pkg : RefPkg) (obj : Option Object) (fn : RefFn) :
    ((gopForEachLexicalRef pkg obj fn).ok = false ↔
        ∃ c ∈ (gopForEachLexicalRef pkg obj fn).calls, c.result = false) ∧
      (∀ pre c post, (gopForEachLexicalRef pkg obj fn).calls = pre ++ c :: post →
        c.result = false → post = []) ∧
      (∀ pre c post, (gopForEachLexicalRef pkg obj fn).calls = pre ++ c :: post →
        c.result = fn pre c.id c.block) ∧
      ((∀ c ∈ (gopForEachLexicalRef pkg obj fn).calls, c.result = true) →
        (gopForEachLexicalRef pkg obj fn).ok = true ∧
        (gopForEachLexicalRef pkg obj fn).calls =
          (lexicalRefsList pkg obj [] pkg.files).map
            (fun p => (⟨p.1, pkg.enclosingBlock p.2, true⟩ : Call))) := by
  have hc := feed_consistent pkg fn (lexicalRefsList pkg obj [] pkg.files) Trav.start
    (start_consistent fn)
  rw [← gopForEachLexicalRef_eq_feed pkg obj fn] at hc
  obtain ⟨h1, h2, h3⟩ := hc
  refine ⟨?_, ?_, h3, ?_⟩
  · constructor
    · intro hf
      by_contra hne
      have hall : ∀ c ∈ (gopForEachLexicalRef pkg obj fn).calls, c.result = true := by
        intro c hcm
        by_contra hr
        exact hne ⟨c, hcm, by simpa using hr⟩
      have := h1.mpr hall
      rw [hf] at this
      exact Bool.noConfusion this
    · rintro ⟨c, hcm, hr⟩
      by_contra hne
      have hok : (gopForEachLexicalRef pkg obj fn).ok = true := by simpa using hne
      have := h1.mp hok c hcm
      rw [hr] at this
      exact Bool.noConfusion this
  · intro pre c post hsplit hres
    exact false_call_is_last _ h2 pre c post hsplit hres
  · intro hall
    have hok := h1.mpr hall
    refine ⟨hok, ?_⟩
    rw [gopForEachLexicalRef_eq_feed pkg obj fn] at hok ⊢
    have := feed_ok_all pkg fn (lexicalRefsList pkg obj [] pkg.files) Trav.start hok
    simpa [Trav.start] using this

/-- Witness of C12: the one call of the traversal for the variable `s`
returns true, and so does the traversal. -/
theorem gopForEachLexicalRef_result_witness :
    (gopForEachLexicalRef demoPkg (some objSmall) fnTrue).ok = true ∧
      (gopForEachLexicalRef demoPkg (some objSmall) fnTrue).calls =
        (lexicalRefsList demoPkg (some objSmall) [] demoPkg.files).map
          (fun p => (⟨p.1, demoPkg.enclosingBlock p.2, true⟩ : Call)) :=
  (gopForEachLexicalRef_result demoPkg (some objSmall) fnTrue).2.2.2 (by decide)

/-- C18. Traversal stack invariant. For every package, target and callback
`fn`, also one that returns false midway: visiting a tree leaves the stack
as it found it and raises no panic, so the pop of `visit(nil)` never meets
an empty stack; hence the stack is empty after each top-level file, the
`panic(stack)` of line 76 is not reached and `gopForEachLexicalRef` returns.
Trees are well formed by their type: a required child is never nil. -/
theorem gopForEachLexicalRef_stack_empty (pkg : RefPkg) (obj : Option Object) (fn : RefFn) :
    (∀ (f : Node) (s : Trav), s.panicked = none →
        (inspect pkg obj fn f s).panicked = none ∧ (inspect pkg obj fn f s).stack = s.stack) ∧
      (∀ f : Node, (inspect pkg obj fn f Trav.start).stack = []) ∧
      (gopForEachLexicalRef pkg obj fn).panicked = none ∧
      (gopForEachLexicalRef pkg obj fn).stack = [] := by
  refine ⟨fun f s hp => inspect_frame pkg obj fn f s hp,
    fun f => (inspect_frame pkg obj fn f Trav.start rfl).2, ?_, ?_⟩
  · rw [gopForEachLexicalRef_eq_feed, (feed_frame pkg fn _ _).2]
    rfl
  · rw [gopForEachLexicalRef_eq_feed, (feed_frame pkg fn _ _).1]
    rfl

/-- Witness of C18: the file with the literal, visited with a callback that
rejects the first reference. -/
theorem gopForEachLexicalRef_stack_empty_witness :
    (inspect demoPkg none fnFalse fileSF Trav.start).panicked = none ∧
      (inspect demoPkg none fnFalse fileSF Trav.start).stack = Trav.start.stack :=
  (gopForEachLexicalRef_stack_empty demoPkg none fnFalse).1 fileSF Trav.start rfl

/-- C20. Selector handling. Visiting a selector expression `X.Sel` reports
the references of the base `X`, found with the selector on the stack, and
nothing else: every identifier passed to `fn` lies in `X`, so the selected
name is never passed. In `s.F` the name `F` resolves to the field `F`: the
traversal for that field makes no call, the traversal for `s` reports the
base. -/
theorem selector_sel_not_reported (pkg : RefPkg) (obj : Option Object) (fn : RefFn) :
    (∀ (X : Node) (Sel : Ident) (s : Trav), s.panicked = none →
      inspect pkg obj fn (Node.selectorExpr X Sel) s =
        feed pkg fn (lexicalRefs pkg obj (s.stack ++ [Node.selectorExpr X Sel]) X) s ∧
      (s.ok = true → inspect pkg obj fn (Node.selectorExpr X Sel) s =
        (inspect pkg obj fn X (s.withStack (s.stack ++ [Node.selectorExpr X Sel]))).withStack
          s.stack) ∧
      ∀ c ∈ (inspect pkg obj fn (Node.selectorExpr X Sel) s).calls,
        c ∈ s.calls ∨ c.id ∈ idents X) ∧
      demoPkg.uses ⟨"F", 92⟩ = some objF ∧
      (inspect demoPkg (some objF) fnTrue selSF Trav.start).calls = [] ∧
      (inspect demoPkg (some objSmall) fnTrue selSF Trav.start).calls =
        [⟨⟨"s", 90⟩, some (Scope.root 2), true⟩] := by
  refine ⟨?_, by decide, by decide, by decide⟩
  intro X Sel s hp
  have heq : inspect pkg obj fn (Node.selectorExpr X Sel) s =
      feed pkg fn (lexicalRefs pkg obj (s.stack ++ [Node.selectorExpr X Sel]) X) s := by
    rw [inspect_eq_feed pkg obj fn _ s hp]
    simp only [lexicalRefs]
  refine ⟨heq, ?_, ?_⟩
  · intro hok
    rw [heq, inspect_eq_feed pkg obj fn X
      (s.withStack (s.stack ++ [Node.selectorExpr X Sel])) hp]
    have hst : (s.withStack (s.stack ++ [Node.selectorExpr X Sel])).stack
        = s.stack ++ [Node.selectorExpr X Sel] := rfl
    rw [hst, feed_with_stack]
    have hfr := feed_frame pkg fn
      (lexicalRefs pkg obj (s.stack ++ [Node.selectorExpr X Sel]) X) s
    cases hfs : feed pkg fn (lexicalRefs pkg obj (s.stack ++ [Node.selectorExpr X Sel]) X) s
    rw [hfs] at hfr
    simp only [Trav.withStack]
    simp only at hfr
    rw [hfr.1]
  · intro c hc
    rw [heq] at hc
    rcases feed_calls_mem pkg fn _ s c hc with h | ⟨p, hp2, hid⟩
    · exact Or.inl h
    · right
      rw [hid]
      exact lexicalRefs_idents pkg obj X _ p hp2

/-- Witness of C20: the selector `s.F` visited at the start of a traversal
for the field `F`. -/
theorem selector_sel_not_reported_witness :
    ∀ c ∈ (inspect demoPkg (some objF) fnTrue selSF Trav.start).calls,
      c ∈ Trav.start.calls ∨ c.id ∈ idents (Node.ident ⟨"s", 90⟩) :=
  ((selector_sel_not_reported demoPkg (some objF) fnTrue).1 (Node.ident ⟨"s", 90⟩) ⟨"F", 92⟩
    Trav.start rfl).2.2

theorem scopeDepth_three (p : Option Scope) :
    3 ≤ scopeDepth p ↔
      ∃ s1 s2 s3, p = some s1 ∧ s1.Parent = some s2 ∧ s2.Parent = some s3 := by
  constructor
  · intro h
    match p, h with
    | some (.inner a1 (.inner a2 s3)), _ =>
      exact ⟨_, _, s3, rfl, rfl, rfl⟩
    | some (.inner a1 (.root a2)), h => simp [scopeDepth] at h
    | some (.root a1), h => simp [scopeDepth] at h
    | none, h => simp [scopeDepth] at h
  · rintro ⟨s1, s2, s3, rfl, h2, h3⟩
    cases s1 with
    | root a1 => simp [Scope.Parent] at h2
    | inner a1 q =>
      simp only [Scope.Parent, Option.some.injEq] at h2
      subst h2
      cases q with
      | root a2 => simp [Scope.Parent] at h3
      | inner a2 q2 =>
        cases q2 <;> simp [scopeDepth]

/-- C19. Rename classification. For an object that is not in `objsToUpdate`,
`gopCheck` records it and runs one action on the renamer that has it
recorded, chosen by the first condition that holds: package name, then
label, then package level (the lookup of the name in the scope of its
package yields the object), then struct field, then function with a
receiver, then local: the chain of scopes from `Parent()` to the root has at
least 3 scopes, that is `Parent()`, its parent and the parent of that one
are all non-nil. When none holds it reports the error "unexpected ...
(please report a bug)" at the position of the object and enters no
predicate. -/
theorem gopCheck_classifies (env : TypesEnv) (cs : Checks) (r : Renamer) (from_ : Object)
    (hnew : from_ ∉ r.objsToUpdate) :
    (from_.kind = ObjKind.PkgName →
        gopCheck env cs r from_ = cs.checkInFileBlock from_
          ⟨r.to_, from_ :: r.objsToUpdate, r.errors,
            r.invoked ++ [(Check.checkInFileBlock, from_)]⟩) ∧
      (from_.kind = ObjKind.Label →
        gopCheck env cs r from_ = cs.checkLabel from_
          ⟨r.to_, from_ :: r.objsToUpdate, r.errors,
            r.invoked ++ [(Check.checkLabel, from_)]⟩) ∧
      (from_.kind ≠ ObjKind.PkgName → from_.kind ≠ ObjKind.Label →
        env.lookup from_.pkg from_.name = some from_ →
        gopCheck env cs r from_ = cs.checkInPackageBlock from_
          ⟨r.to_, from_ :: r.objsToUpdate, r.errors,
            r.invoked ++ [(Check.checkInPackageBlock, from_)]⟩) ∧
      (from_.kind = ObjKind.Var → from_.isField = true →
        env.lookup from_.pkg from_.name ≠ some from_ →
        gopCheck env cs r from_ = cs.checkStructField from_
          ⟨r.to_, from_ :: r.objsToUpdate, r.errors,
            r.invoked ++ [(Check.checkStructField, from_)]⟩) ∧
      (from_.kind = ObjKind.Func → from_.hasRecv = true →
        env.lookup from_.pkg from_.name ≠ some from_ →
        gopCheck env cs r from_ = cs.checkMethod from_
          ⟨r.to_, from_ :: r.objsToUpdate, r.errors,
            r.invoked ++ [(Check.checkMethod, from_)]⟩) ∧
      (from_.kind ≠ ObjKind.PkgName → from_.kind ≠ ObjKind.Label →
        env.lookup from_.pkg from_.name ≠ some from_ →
        ¬ (from_.kind = ObjKind.Var ∧ from_.isField = true) →
        ¬ (from_.kind = ObjKind.Func ∧ from_.hasRecv = true) →
        ((∃ s1 s2 s3, from_.parent = some s1 ∧ s1.Parent = some s2 ∧ s2.Parent = some s3) →
          gopCheck env cs r from_ = cs.checkInLexicalScope from_
            ⟨r.to_, from_ :: r.objsToUpdate, r.errors,
              r.invoked ++ [(Check.checkInLexicalScope, from_)]⟩) ∧
        ((¬ ∃ s1 s2 s3, from_.parent = some s1 ∧ s1.Parent = some s2 ∧
            s2.Parent = some s3) →
          gopCheck env cs r from_ =
            ⟨r.to_, from_ :: r.objsToUpdate,
              r.errors ++ [⟨from_.pos, "unexpected %s object %q (please report a bug)\n",
                [env.objectKind from_, env.objectString from_]⟩],
              r.invoked⟩)) := by
  refine ⟨?_, ?_, ?_, ?_, ?_, ?_⟩
  · intro h1
    simp [gopCheck, hnew, h1, Renamer.enter, Checks.get]
  · intro h2
    have h1 : from_.kind ≠ ObjKind.PkgName := by rw [h2]; decide
    simp [gopCheck, hnew, h1, h2, Renamer.enter, Checks.get]
  · intro h1 h2 h3
    simp [gopCheck, hnew, h1, h2, isGopPackageLevel, h3, Renamer.enter, Checks.get]
  · intro hk hf h3
    have h1 : from_.kind ≠ ObjKind.PkgName := by rw [hk]; decide
    have h2 : from_.kind ≠ ObjKind.Label := by rw [hk]; decide
    simp [gopCheck, hnew, hk, isGopPackageLevel, h3, hf, Renamer.enter, Checks.get]
  · intro hk hf h3
    have h1 : from_.kind ≠ ObjKind.PkgName := by rw [hk]; decide
    have h2 : from_.kind ≠ ObjKind.Label := by rw [hk]; decide
    simp [gopCheck, hnew, hk, isGopPackageLevel, h3, hf, Renamer.enter, Checks.get]
  · intro h1 h2 h3 h4 h5
    constructor
    · intro h6
      have h6b : isGopLocal from_ = true := by
        simp only [isGopLocal, ge_iff_le, decide_eq_true_eq]
        exact (scopeDepth_three from_.parent).mpr h6
      simp only [gopCheck, hnew, h1, h2, isGopPackageLevel, h3, h4, h5, h6b, if_false,
        if_true, decide_False, Bool.false_eq_true, Renamer.enter, Checks.get]
    · intro h6
      have h6b : isGopLocal from_ = false := by
        simp only [isGopLocal, ge_iff_le, decide_eq_false_iff_not]
        exact fun h => h6 ((scopeDepth_three from_.parent).mp h)
      simp only [gopCheck, hnew, h1, h2, isGopPackageLevel, h3, h4, h5, h6b, if_false,
        decide_False, Bool.false_eq_true, Renamer.errorf]

/-- Witness of C19: for a renamer that has recorded nothing, the variable `x`
of a function, with four scopes from its parent to the root, is checked by
`checkInLexicalScope`; the package-level variable `V` is checked by
`checkInPackageBlock`; the variable `w`, with two scopes and unknown to its
package, gets the error and no predicate. -/
theorem gopCheck_classifies_witness :
    gopCheck demoEnv loudChecks freshRenamer objLocal =
        loudChecks.checkInLexicalScope objLocal
          ⟨freshRenamer.to_, objLocal :: freshRenamer.objsToUpdate, freshRenamer.errors,
            freshRenamer.invoked ++ [(Check.checkInLexicalScope, objLocal)]⟩ ∧
      gopCheck demoEnv loudChecks freshRenamer objV = loudChecks.checkInPackageBlock objV
        ⟨freshRenamer.to_, objV :: freshRenamer.objsToUpdate, freshRenamer.errors,
          freshRenamer.invoked ++ [(Check.checkInPackageBlock, objV)]⟩ ∧
      gopCheck demoEnv loudChecks freshRenamer objStray =
        ⟨"v", [objStray],
          [⟨130, "unexpected %s object %q (please report a bug)\n", ["var", "w"]⟩], []⟩ :=
  ⟨((gopCheck_classifies demoEnv loudChecks freshRenamer objLocal (by decide)).2.2.2.2.2
      (by decide) (by decide) (by decide) (by decide) (by decide)).1
      ⟨_, _, _, rfl, rfl, rfl⟩,
    (gopCheck_classifies demoEnv loudChecks freshRenamer objV (by decide)).2.2.1 (by decide)
      (by decide) (by decide),
    ((gopCheck_classifies demoEnv loudChecks freshRenamer objStray (by decide)).2.2.2.2.2
      (by decide) (by decide) (by decide) (by decide) (by decide)).2
      (by
        rintro ⟨s1, s2, s3, h1, h2, h3⟩
        simp only [objStray, Option.some.injEq] at h1
        subst h1
        simp only [Scope.Parent, Option.some.injEq] at h2
        subst h2
        simp [Scope.Parent] at h3)⟩

end Source

/-! ## Theorems on `appends.go` -/

namespace Appends

theorem visitCall_eq (pass : Pass) (call : CallExpr) (reports : List Diagnostic) :
    visitCall pass call reports =
      reports ++ (expectedReport pass (ANode.callExpr call)).toList := by
  obtain ⟨addr, callee, args⟩ := call
  unfold visitCall expectedReport isBareAppend
  cases callee with
  | otherExpr a => simp
  | ident ident =>
    simp only []
    by_cases hn : ident.name = "append"
    · simp only [hn, if_true, decide_True, Bool.true_and]
      cases hu : pass.uses ident with
      | none => simp
      | some k =>
        cases k <;> by_cases ha : args.length = 1 <;> simp [ha]
    · simp [hn]

theorem preorderCalls_eq (pass : Pass) (nodes : List ANode) :
    ∀ reports : List Diagnostic,
      preorderCalls nodes (visitCall pass) reports =
        reports ++ nodes.filterMap (expectedReport pass) := by
  induction nodes with
  | nil => intro reports; simp [preorderCalls]
  | cons n ns ih =>
    intro reports
    have hstep : preorderCalls (n :: ns) (visitCall pass) reports =
        preorderCalls ns (visitCall pass)
          (match n with
            | .callExpr call => visitCall pass call reports
            | .otherNode _ => reports) := by
      simp [preorderCalls]
    rw [hstep, ih]
    cases n with
    | otherNode a => simp [expectedReport]
    | callExpr call =>
      simp only [visitCall_eq, List.append_assoc]
      cases h : expectedReport pass (ANode.callExpr call) <;> simp [List.filterMap_cons, h]

/-- C15. The pass `gopAppends` reports, in the order of the nodes, one
diagnostic "append with no values" for each call expression whose callee is
the bare identifier `append`, which `Uses` resolves to a built-in, and which
has one argument, and nothing for any other node: a diagnostic is reported on
a call exactly when the call is a node of the pass and meets the three
conditions. `run` returns (nil, nil). -/
theorem run_reports_bare_append (pass : Pass) :
    (run pass).1 = pass.nodes.filterMap (expectedReport pass) ∧
      (∀ d : Diagnostic, d ∈ (run pass).1 ↔
        ANode.callExpr d.node ∈ pass.nodes ∧ isBareAppend pass d.node = true ∧
          d.message = "append with no values") ∧
      (∀ call : CallExpr, isBareAppend pass call = true ↔
        ∃ ident, call.Fun = Callee.ident ident ∧ ident.name = "append" ∧
          pass.uses ident = some Source.ObjKind.Builtin ∧ call.Args.length = 1) ∧
      (run pass).2 = (none, none) := by
  have hrun : (run pass).1 = pass.nodes.filterMap (expectedReport pass) := by
    simp [run, preorderCalls_eq]
  refine ⟨hrun, ?_, ?_, rfl⟩
  · intro d
    rw [hrun, List.mem_filterMap]
    constructor
    · rintro ⟨n, hn, hd⟩
      cases n with
      | otherNode a => simp [expectedReport] at hd
      | callExpr call =>
        simp only [expectedReport] at hd
        by_cases hb : isBareAppend pass call = true
        · simp only [hb, if_true, Option.some.injEq] at hd
          subst hd
          exact ⟨hn, hb, rfl⟩
        · simp [hb] at hd
    · rintro ⟨hn, hb, hm⟩
      refine ⟨ANode.callExpr d.node, hn, ?_⟩
      simp only [expectedReport, hb, if_true, Option.some.injEq]
      cases d
      simp only at hm
      simp [hm]
  · intro call
    obtain ⟨addr, callee, args⟩ := call
    unfold isBareAppend
    cases callee with
    | otherExpr a => simp
    | ident ident => simp [and_assoc]

/-- Witness of C15: of the three calls of `append`, the one with a single
argument and the built-in callee is reported. -/
theorem run_reports_bare_append_witness :
    (run demoPass).1 = [⟨callAppendOne, "append with no values"⟩] :=
  (run_reports_bare_append demoPass).1.trans (by decide)

end Appends

/-! ## Theorems on `packages.go` -/

namespace Packages

theorem importPkgs_entries (pkgs : List (String × GoPackage)) :
    (pkgs = [] → importPkgs pkgs = none) ∧
      (pkgs ≠ [] → ∃ m, importPkgs pkgs = some m ∧
        m.map (fun e => (e.1, e.2.embedded)) = pkgs ∧ ∀ e ∈ m, e.2.Imports = none) := by
  constructor
  · intro h
    simp [importPkgs, h]
  · intro h
    have hs : pkgs = [] ↔ False := ⟨h, False.elim⟩
    refine ⟨pkgs.map (fun entry => (entry.1, Package.mk entry.2 [] [] none none)),
      by simp [importPkgs, hs], ?_, ?_⟩
    · simp [Package.embedded, Function.comp_def]
    · intro e he
      simp only [List.mem_map] at he
      obtain ⟨x, _, hx⟩ := he
      rw [← hx]
      rfl

/-- C16. `Load` returns a non-nil error exactly when the delegate loader does,
and then it returns that error with a nil package list. Otherwise it returns
one wrapper per package of the delegate, in the same order, each embedding
its package, so that the errors of a package are carried unchanged and do
not make the call fail. -/
theorem Load_errors {Config : Type}
    (delegate : Config → List String → List GoPackage × Option String) (cfg : Config)
    (patterns : List String) :
    ((Load delegate cfg patterns).2 ≠ none ↔ (delegate cfg patterns).2 ≠ none) ∧
      (∀ err, (delegate cfg patterns).2 = some err →
        Load delegate cfg patterns = (none, some err)) ∧
      ((delegate cfg patterns).2 = none →
        ∃ ret, Load delegate cfg patterns = (some ret, none) ∧
          ret.length = (delegate cfg patterns).1.length ∧
          ret.map Package.embedded = (delegate cfg patterns).1 ∧
          ret.map Package.Errors = (delegate cfg patterns).1.map GoPackage.Errors) := by
  unfold Load
  cases h : (delegate cfg patterns).2 with
  | some err => simp
  | none =>
    simp only [ne_eq, not_true_eq_false, false_iff, not_false_eq_true, true_and]
    refine ⟨by simp, fun _ => ⟨_, rfl, by simp, ?_, ?_⟩⟩
    · simp [Package.embedded, Function.comp_def]
    · simp [Package.Errors, Package.embedded, Function.comp_def]

/-- Witness of C16: the delegate fails with "invalid pattern", and so does
`Load`. -/
theorem Load_errors_witness :
    Load loadFails () ["./..."] = (none, some "invalid pattern") :=
  (Load_errors loadFails () ["./..."]).2.1 "invalid pattern" rfl

/-- C17. Depth-1 import wrapping. For every wrapper that `Load` returns: its
`Imports` is nil when the map `Imports` of its embedded package is empty;
otherwise its entries are, path by path, wrappers that embed the packages of
that map, and the `Imports` of each of these wrappers is nil, so the imports
of a dependency stay the plain references of its embedded package. -/
theorem Load_wraps_imports_once {Config : Type}
    (delegate : Config → List String → List GoPackage × Option String) (cfg : Config)
    (patterns : List String) (ret : List Package)
    (h : Load delegate cfg patterns = (some ret, none)) :
    ∀ w ∈ ret,
      w.embedded ∈ (delegate cfg patterns).1 ∧
      (w.embedded.Imports = [] → w.Imports = none) ∧
      (w.embedded.Imports ≠ [] → ∃ m, w.Imports = some m ∧
        m.map (fun e => (e.1, e.2.embedded)) = w.embedded.Imports ∧
        m.map Prod.fst = w.embedded.Imports.map Prod.fst ∧
        ∀ e ∈ m, e.2.Imports = none) := by
  unfold Load at h
  cases hd : (delegate cfg patterns).2 with
  | some err => simp [hd] at h
  | none =>
    simp only [hd, Prod.mk.injEq, Option.some.injEq, and_true] at h
    intro w hw
    rw [← h] at hw
    simp only [List.mem_map] at hw
    obtain ⟨pkg, hpkg, hwp⟩ := hw
    rw [← hwp]
    have hi := importPkgs_entries pkg.Imports
    refine ⟨hpkg, hi.1, fun hne => ?_⟩
    obtain ⟨m, hm1, hm2, hm3⟩ := hi.2 hne
    refine ⟨m, hm1, hm2, ?_, hm3⟩
    have : (m.map (fun e => (e.1, e.2.embedded))).map Prod.fst = pkg.Imports.map Prod.fst := by
      rw [hm2]
    simpa [Function.comp_def] using this

/-- Witness of C17: `a` imports `b`, which imports `c`; the wrapper of `a`
has the one entry `example.com/b`, and the wrapper of `b` in it has no
`Imports`. -/
theorem Load_wraps_imports_once_witness :
    (Package.mk goA [] [] (importPkgs goA.Imports) none).embedded ∈ (loadAC () ["./..."]).1 ∧
      ((Package.mk goA [] [] (importPkgs goA.Imports) none).embedded.Imports = [] →
        (Package.mk goA [] [] (importPkgs goA.Imports) none).Imports = none) ∧
      ((Package.mk goA [] [] (importPkgs goA.Imports) none).embedded.Imports ≠ [] →
        ∃ m, (Package.mk goA [] [] (importPkgs goA.Imports) none).Imports = some m ∧
          m.map (fun e => (e.1, e.2.embedded)) =
            (Package.mk goA [] [] (importPkgs goA.Imports) none).embedded.Imports ∧
          m.map Prod.fst =
            (Package.mk goA [] [] (importPkgs goA.Imports) none).embedded.Imports.map Prod.fst ∧
          ∀ e ∈ m, e.2.Imports = none) :=
  Load_wraps_imports_once loadAC () ["./..."]
    [Package.mk goA [] [] (importPkgs goA.Imports) none,
      Package.mk goC [] [] (importPkgs goC.Imports) none] rfl
    (Package.mk goA [] [] (importPkgs goA.Imports) none) (List.mem_cons_self _ _)

end Packages

/-! ## Theorems on `format_gox.go` -/

namespace Completion

section ItemTheorems

variable {O T S : Type}

/-- C13. Completion candidate gating: when the score of `cand.name` against
the typed prefix is zero or negative, `item` returns the zero
`CompletionItem` with `errNoMatch` and leaves the completer as it was: no
key of `skipFunc` is set and no callee that acts outside `item`
(`isHighScore`, `importEdits`, `editText`, the documentation lookup) has
been called. -/
theorem item_no_match (c : Env O T S) (st : CState) (cand : Candidate O T)
    (h : c.score cand.name ≤ 0) :
    item c st cand = (Outcome.ret CompletionItem.zero (some ItemError.errNoMatch), st) := by
  simp [item, h]

/-- Witness of C13: the matcher gives `Foo` the score 0. -/
theorem item_no_match_witness :
    item (demo 0 [1, 2]) noMarks candFoo =
      (Outcome.ret CompletionItem.zero (some ItemError.errNoMatch), noMarks) :=
  item_no_match (demo 0 [1, 2]) noMarks candFoo (by decide)

theorem listOverloads_ok (c : Env O T S) (objName : String) :
    ∀ (objs : List O) (skipFunc : List String) (buf : String) (skipFunc1 : List String)
      (buf1 : String),
      listOverloads c objName objs skipFunc buf = (skipFunc1, .ok buf1) →
        skipFunc1 = skipFunc ++ overloadMarks c objName objs ∧
          buf1 = buf ++ overloadLines c objs := by
  intro objs
  induction objs with
  | nil =>
    intro skipFunc buf skipFunc1 buf1 h
    simp only [listOverloads, Prod.mk.injEq, Except.ok.injEq] at h
    simp [overloadMarks, overloadLines, h.1, h.2]
  | cons o objs ih =>
    intro skipFunc buf skipFunc1 buf1 h
    unfold listOverloads at h
    cases hsig : c.asSignature o with
    | none =>
      by_cases hidx : isIndexOverload (c.objName o) objName = true
      · cases hf : c.asFunc o <;> simp [hidx, hf, hsig] at h
      · simp [hidx, hsig] at h
    | some sig =>
      cases hnew : c.newSignature sig with
      | error err =>
        by_cases hidx : isIndexOverload (c.objName o) objName = true
        · cases hf : c.asFunc o <;> simp [hidx, hf, hsig, hnew] at h
        · simp [hidx, hsig, hnew] at h
      | ok s =>
        have hline : overloadLine c o = "\n- func" ++ s.format := by
          simp [overloadLine, hsig, hnew]
        by_cases hidx : isIndexOverload (c.objName o) objName = true
        · cases hf : c.asFunc o with
          | none => simp [hidx, hf] at h
          | some f =>
            simp only [hidx, hf, hsig, hnew, if_true] at h
            obtain ⟨h1, h2⟩ := ih _ _ _ _ h
            refine ⟨?_, ?_⟩
            · rw [h1]
              simp [overloadMarks, List.filter_cons, hidx, hf]
            · rw [h2, overloadLines, hline, String.append_assoc]
        · simp only [hidx, hsig, hnew, if_false, Bool.false_eq_true] at h
          obtain ⟨h1, h2⟩ := ih _ _ _ _ h
          refine ⟨?_, ?_⟩
          · rw [h1]
            simp [overloadMarks, List.filter_cons, hidx]
          · rw [h2, overloadLines, hline, String.append_assoc]

theorem invokeMod_overload (c : Env O T S) (obj : O) (v v1 : Suffixed T) (ft : T) (sig : S)
    (hft : v.funcType = some ft) (hsig : c.underlyingSig ft = some sig)
    (hov : c.overloads sig ≠ []) (h : invokeMod c obj v = (v1, none)) :
    v1.isOverload = true ∧
      v1.skipFunc = v.skipFunc ++ overloadMarks c (c.objName obj) (c.overloads sig) ∧
      v1.detail = "Go+ overload funcs\n" ++ overloadLines c (c.overloads sig) := by
  unfold invokeMod at h
  simp only [hft, hsig] at h
  have hlen : (c.overloads sig).length > 0 := List.length_pos.mpr hov
  cases hnew : c.newSignature sig with
  | error err => simp [hnew] at h
  | ok s =>
    simp only [hnew, hlen, if_true] at h
    cases hlist : listOverloads c (c.objName obj) (c.overloads sig) v.skipFunc
      "Go+ overload funcs\n" with
    | mk sk res =>
      cases res with
      | error stop => simp [hlist] at h
      | ok buf =>
        simp only [hlist, Prod.mk.injEq, and_true] at h
        obtain ⟨h1, h2⟩ := listOverloads_ok c (c.objName obj) _ _ _ _ _ hlist
        rw [← h]
        exact ⟨rfl, h1, h2⟩

theorem suffixes_no_invoke (c : Env O T S) (obj : O) :
    ∀ (mods : List TypeMod) (v : Suffixed T), TypeMod.invoke ∉ mods →
      (suffixes c obj mods v).2 = none ∧
      (suffixes c obj mods v).1.isOverload = v.isOverload ∧
      (suffixes c obj mods v).1.funcType = v.funcType ∧
      (suffixes c obj mods v).1.detail = v.detail ∧
      (suffixes c obj mods v).1.skipFunc = v.skipFunc := by
  intro mods
  induction mods with
  | nil => intro v _; simp [suffixes]
  | cons m mods ih =>
    intro v hm
    have hm1 : m ≠ TypeMod.invoke := fun h => hm (by rw [h]; exact List.mem_cons_self _ _)
    have hm2 : TypeMod.invoke ∉ mods := fun h => hm (List.mem_cons_of_mem _ h)
    cases m with
    | invoke => exact absurd rfl hm1
    | takeSlice => simpa [suffixes] using ih { v with suffix := v.suffix ++ "[:]" } hm2
    | takeDotDotDot => simpa [suffixes] using ih { v with suffix := v.suffix ++ "..." } hm2
    | index =>
      simpa [suffixes] using ih { v with
        snip := v.snip ++ [SnipOp.writeText "[", SnipOp.writePlaceholder,
          SnipOp.writeText "]"] } hm2
    | reference => simpa [suffixes] using ih v hm2
    | dereference => simpa [suffixes] using ih v hm2
    | chanRead => simpa [suffixes] using ih v hm2
    | otherMod n => simpa [suffixes] using ih v hm2

theorem suffixes_one_invoke (c : Env O T S) (obj : O) (post : List TypeMod) (ft : T) (sig : S)
    (hsig : c.underlyingSig ft = some sig) (hov : c.overloads sig ≠ [])
    (hpost : TypeMod.invoke ∉ post) :
    ∀ (pre : List TypeMod) (v v1 : Suffixed T), TypeMod.invoke ∉ pre →
      v.funcType = some ft →
      suffixes c obj (pre ++ TypeMod.invoke :: post) v = (v1, none) →
        v1.isOverload = true ∧
        v1.skipFunc = v.skipFunc ++ overloadMarks c (c.objName obj) (c.overloads sig) ∧
        v1.detail = "Go+ overload funcs\n" ++ overloadLines c (c.overloads sig) := by
  intro pre
  induction pre with
  | nil =>
    intro v v1 _ hft h
    simp only [List.nil_append, suffixes] at h
    cases hinv : invokeMod c obj v with
    | mk v2 stop =>
      cases stop with
      | some s => simp [hinv] at h
      | none =>
        simp only [hinv] at h
        have hfacts := invokeMod_overload c obj v v2 ft sig hft hsig hov hinv
        by_cases hsn : c.snippets = true
        · simp only [hsn, Bool.not_true, Bool.false_eq_true, if_false] at h
          have hno := suffixes_no_invoke c obj post v2 hpost
          rw [h] at hno
          simp only at hno
          obtain ⟨_, g1, _, g3, g4⟩ := hno
          rw [g1, g3, g4]
          exact hfacts
        · have hsn2 : c.snippets = false := by simpa using hsn
          simp only [hsn2, Bool.not_false, if_true, Prod.mk.injEq, and_true] at h
          rw [← h]
          exact hfacts
  | cons m pre ih =>
    intro v v1 hm hft h
    have hm1 : m ≠ TypeMod.invoke := fun h => hm (by rw [h]; exact List.mem_cons_self _ _)
    have hm2 : TypeMod.invoke ∉ pre := fun h => hm (List.mem_cons_of_mem _ h)
    cases m with
    | invoke => exact absurd rfl hm1
    | takeSlice =>
      simp only [List.cons_append, suffixes] at h
      exact ih { v with suffix := v.suffix ++ "[:]" } v1 hm2 hft h
    | takeDotDotDot =>
      simp only [List.cons_append, suffixes] at h
      exact ih { v with suffix := v.suffix ++ "..." } v1 hm2 hft h
    | index =>
      simp only [List.cons_append, suffixes] at h
      exact ih { v with
        snip := v.snip ++ [SnipOp.writeText "[", SnipOp.writePlaceholder,
          SnipOp.writeText "]"] } v1 hm2 hft h
    | reference =>
      simp only [List.cons_append, suffixes] at h
      exact ih v v1 hm2 hft h
    | dereference =>
      simp only [List.cons_append, suffixes] at h
      exact ih v v1 hm2 hft h
    | chanRead =>
      simp only [List.cons_append, suffixes] at h
      exact ih v v1 hm2 hft h
    | otherMod n =>
      simp only [List.cons_append, suffixes] at h
      exact ih v v1 hm2 hft h

theorem assemble_ok (c : Env O T S) (cand : Candidate O T) (score : ℚ) (d : Described)
    (pre : String) (v : Suffixed T) (st st1 : CState) (it : CompletionItem)
    (h : assemble c cand score d pre v st = (.ok it, st1)) :
    it.isOverload = v.isOverload ∧ st1.skipFunc = st.skipFunc ∧ it.Kind = some d.kind ∧
      it.Detail =
        if cand.detail ≠ "" then cand.detail
        else trimPrefix
          (match cand.imp with
            | none => v.detail
            | some imp => noteImport c d.kind imp v.detail) "untyped " := by
  unfold assemble at h
  cases himp : cand.imp with
  | none =>
    simp only [himp] at h
    split at h
    · simp at h
    · rename_i edits ins snip st2 hplaced
      simp only [Prod.mk.injEq, Except.ok.injEq] at h
      obtain ⟨h1, h2⟩ := h
      have hst : st2.skipFunc = st.skipFunc := by
        split_ifs at hplaced
        · split at hplaced
          · split at hplaced <;> simp only [Prod.mk.injEq] at hplaced
            · exact absurd hplaced.1 (by simp)
            · rw [← hplaced.2]
          · simp only [Prod.mk.injEq] at hplaced
            rw [← hplaced.2]
        · simp only [Prod.mk.injEq] at hplaced
          rw [← hplaced.2]
      rw [← h1, ← h2]
      exact ⟨rfl, hst, rfl, rfl⟩
  | some imp =>
    simp only [himp] at h
    cases hie : importEdits c imp with
    | error err => simp [hie] at h
    | ok addl =>
      simp only [hie] at h
      split at h
      · simp at h
      · rename_i edits ins snip st2 hplaced
        simp only [Prod.mk.injEq, Except.ok.injEq] at h
        obtain ⟨h1, h2⟩ := h
        have hst : st2.skipFunc = st.skipFunc := by
          split_ifs at hplaced
          · split at hplaced
            · split at hplaced <;> simp only [Prod.mk.injEq] at hplaced
              · exact absurd hplaced.1 (by simp)
              · rw [← hplaced.2]
            · simp only [Prod.mk.injEq] at hplaced
              rw [← hplaced.2]
          · simp only [Prod.mk.injEq] at hplaced
            rw [← hplaced.2]
        rw [← h1, ← h2]
        exact ⟨rfl, hst, rfl, rfl⟩

theorem document_keeps (c : Env O T S) (obj : O) (it : CompletionItem) (st : CState) :
    (document c obj it st).1.isOverload = it.isOverload ∧
      (document c obj it st).1.Detail = it.Detail ∧
      (document c obj it st).1.Kind = it.Kind ∧
      (document c obj it st).1.InsertText = it.InsertText ∧
      (document c obj it st).1.snippet = it.snippet ∧
      (document c obj it st).2.skipFunc = st.skipFunc := by
  unfold document
  split_ifs <;> try exact ⟨rfl, rfl, rfl, rfl, rfl, rfl⟩
  all_goals split <;> (try split_ifs) <;> exact ⟨rfl, rfl, rfl, rfl, rfl, rfl⟩

theorem trimPrefix_header (x : String) :
    trimPrefix ("Go+ overload funcs\n" ++ x) "untyped " = "Go+ overload funcs\n" ++ x := by
  unfold trimPrefix
  have h : ("untyped ".data.isPrefixOf ("Go+ overload funcs\n" ++ x).data) = false := by
    simp [String.data_append, List.isPrefixOf]
  rw [h]
  simp

theorem header_ne_empty (x : String) : "Go+ overload funcs\n" ++ x ≠ "" := by
  intro h
  have := congrArg String.data h
  simp [String.data_append] at this

/-- C14 (counterexample). The signature of `Foo` carries the overload objects
`Foo__0` and `Bar`. `item` formats the candidate `Foo` with the modifier
`invoke`: the item has `isOverload` set and lists both siblings in its
detail, but only `Foo__0` is marked in `skipFunc`; the sibling `Bar`, whose
key would be `example.com/a.Bar`, is not. -/
theorem item_leaves_named_overload_unmarked :
    (demo 1 [1, 3]).overloads 20 = [1, 3] ∧
      funcId ⟨true, none, some "example.com/a", "Bar"⟩ = "example.com/a.Bar" ∧
      (∃ it, (item (demo 1 [1, 3]) noMarks candFoo).1 = Outcome.ret it none ∧
        it.isOverload = true ∧
        it.Detail = "Go+ overload funcs\n\n- func(a int)\n- func(x float64)") ∧
      (item (demo 1 [1, 3]) noMarks candFoo).2.skipFunc = ["example.com/a.Foo__0"] ∧
      "example.com/a.Bar" ∉ (item (demo 1 [1, 3]) noMarks candFoo).2.skipFunc := by
  refine ⟨by decide, by decide, ⟨_, rfl, by decide, by decide⟩, by decide, by decide⟩

/-- C14 (amended). When `item` returns an item for a candidate that is not a
built-in, has the modifier `invoke` once, and whose object has a type with
an underlying signature that carries a non-empty family of overload objects:
the item has `isOverload` set; its `Detail`, unless overridden by
`cand.detail`, is the header "Go+ overload funcs" followed by one line
"- func" with the signature per sibling, in order (and by the import note
when the candidate needs one); and the keys set in `skipFunc` are the
`funcId`s of the siblings whose name is the name of the candidate object
followed by two underscores and one character from 0-9 or a-z. A sibling
with another name is listed but not marked. -/
theorem item_groups_overloads (c : Env O T S) (st st1 : CState) (cand : Candidate O T)
    (it : CompletionItem) (pre post : List TypeMod) (t : T) (sig : S)
    (hret : item c st cand = (Outcome.ret it none, st1))
    (hobj : c.inUniverse cand.obj = false)
    (hmods : cand.mods = pre ++ TypeMod.invoke :: post)
    (hpre : TypeMod.invoke ∉ pre) (hpost : TypeMod.invoke ∉ post)
    (htype : c.objType cand.obj = some t) (hsig : c.underlyingSig t = some sig)
    (hov : c.overloads sig ≠ []) :
    it.isOverload = true ∧
      st1.skipFunc =
        st.skipFunc ++ overloadMarks c (c.objName cand.obj) (c.overloads sig) ∧
      (∀ o ∈ c.overloads sig, ∀ f,
        isIndexOverload (c.objName o) (c.objName cand.obj) = true → c.asFunc o = some f →
          funcId f ∈ st1.skipFunc) ∧
      it.Detail =
        if cand.detail ≠ "" then cand.detail
        else
          match cand.imp with
          | none => "Go+ overload funcs\n" ++ overloadLines c (c.overloads sig)
          | some imp =>
            if it.Kind ≠ some ItemKind.ModuleCompletion then
              "Go+ overload funcs\n" ++ (overloadLines c (c.overloads sig) ++ " " ++
                ("(from " ++ c.quote imp.importPath ++ ")"))
            else "Go+ overload funcs\n" ++ overloadLines c (c.overloads sig) := by
  unfold item at hret
  by_cases hscore : c.score cand.name ≤ 0
  · simp [hscore] at hret
  simp only [hscore, if_false, hobj, Bool.false_eq_true] at hret
  split_ifs at hret with hlow
  · simp at hret
  have hskip0 : (afterDeepTest st
      { cand with score := cand.score * c.score cand.name }).skipFunc = st.skipFunc := by
    unfold afterDeepTest
    split_ifs <;> rfl
  generalize afterDeepTest st { cand with score := cand.score * c.score cand.name } = st0
    at hret hskip0
  unfold formatObject at hret
  cases hdesc : describe c { cand with score := cand.score * c.score cand.name } with
  | error stop =>
    simp only [hdesc] at hret
    cases stop <;> simp [Stop.outcome] at hret
  | ok d =>
    simp only [hdesc] at hret
    cases hsuf : suffixes c cand.obj cand.mods
        ⟨false, [], "", c.objType cand.obj, d.detail, d.snip, st0.skipFunc⟩ with
    | mk v stop =>
      cases stop with
      | some s =>
        simp only [hsuf] at hret
        cases s <;> simp [Stop.outcome] at hret
      | none =>
        simp only [hsuf] at hret
        rw [hmods] at hsuf
        have hv := suffixes_one_invoke c cand.obj post t sig hsig hov hpost pre _ v hpre htype
          hsuf
        simp only [hskip0] at hv
        obtain ⟨hv1, hv2, hv3⟩ := hv
        cases hasm : assemble c { cand with score := cand.score * c.score cand.name }
            (cand.score * c.score cand.name) d (modsPrefix cand.mods) v
            { st0 with skipFunc := v.skipFunc } with
        | mk res st2 =>
          cases res with
          | error stop =>
            simp only [hasm] at hret
            cases stop <;> simp [Stop.outcome] at hret
          | ok it0 =>
            simp only [hasm, Prod.mk.injEq, Outcome.ret.injEq, and_true] at hret
            obtain ⟨hit, hst⟩ := hret
            have ha := assemble_ok c _ _ d _ v _ st2 it0 hasm
            obtain ⟨ha1, ha2, ha3, ha4⟩ := ha
            have hd := document_keeps c cand.obj it0 st2
            obtain ⟨hd1, hd2, hd3, _, _, hd6⟩ := hd
            have hskip : st1.skipFunc =
                st.skipFunc ++ overloadMarks c (c.objName cand.obj) (c.overloads sig) := by
              rw [← hst, hd6, ha2]
              exact hv2
            refine ⟨?_, hskip, ?_, ?_⟩
            · rw [← hit, hd1, ha1, hv1]
            · intro o ho f hidx hf
              rw [hskip]
              apply List.mem_append_right
              simp only [overloadMarks, List.mem_filterMap, List.mem_filter]
              exact ⟨o, ⟨ho, hidx⟩, by simp [hf]⟩
            · rw [← hit, hd2, ha4, hd3, ha3]
              by_cases hcd : cand.detail = ""
              · simp only [hcd, ne_eq, not_true_eq_false, if_false]
                cases himp : cand.imp with
                | none =>
                  simp only [hv3, trimPrefix_header]
                | some imp =>
                  simp only [noteImport, hv3]
                  by_cases hk : d.kind = ItemKind.ModuleCompletion
                  · simp [hk, trimPrefix_header]
                  · have hne := header_ne_empty (overloadLines c (c.overloads sig))
                    simp only [ne_eq, hk, not_false_eq_true, if_true, hne,
                      Option.some.injEq, String.append_assoc, trimPrefix_header]
              · simp [hcd]

/-- Witness of C14 (amended): the family `Foo__0`, `Foo__1` of `Foo`: both are
listed in the detail and both are marked in `skipFunc`. -/
theorem item_groups_overloads_witness :
    (item (demo 1 [1, 2]) noMarks candFoo).2.skipFunc =
        ["example.com/a.Foo__0", "example.com/a.Foo__1"] ∧
      ∃ it, (item (demo 1 [1, 2]) noMarks candFoo).1 = Outcome.ret it none ∧
        it.isOverload = true ∧
        it.Detail = "Go+ overload funcs\n\n- func(a int)\n- func(a string)" :=
  have h := item_groups_overloads (demo 1 [1, 2]) noMarks
    ⟨["example.com/a.Foo__0", "example.com/a.Foo__1"], []⟩ candFoo
    { Label := "Foo", InsertText := "Foo", AdditionalTextEdits := [],
      Detail := "Go+ overload funcs\n\n- func(a int)\n- func(a string)",
      Kind := some ItemKind.FunctionCompletion,
      Tags := [ItemTag.CompletionItemTagOverload],
      Score := candFoo.score * (demo 1 [1, 2]).score candFoo.name, Depth := 0,
      snippet := some [SnipOp.writeText "Foo", SnipOp.functionCallSnippet "" [] ["a int"]],
      isSlice := false, isOverload := true, Documentation := "", Deprecated := false }
    [] [] 10 20 rfl rfl rfl (by simp) (by simp) rfl rfl (by decide)
  ⟨rfl, _, rfl, h.1, rfl⟩

end ItemTheorems

end Completion

/-! ## Theorems on `isIndexOverload` -/

namespace Completion

theorem isIndexOverloadBytes_iff (fn name : List UInt8) :
    isIndexOverloadBytes fn name = true ↔
      ∃ c : UInt8, isIndexByte c = true ∧ fn = name ++ [95, 95, c] := by
  constructor
  · intro h
    unfold isIndexOverloadBytes at h
    simp only [List.get?_eq_getElem?] at h
    split_ifs at h with hc
    obtain ⟨hlen, htake, h0, h1⟩ := hc
    cases h2 : fn[name.length + 2]? with
    | none => simp [h2] at h
    | some c =>
      simp only [h2] at h
      refine ⟨c, h, ?_⟩
      have hsplit : fn = fn.take name.length ++ fn.drop name.length :=
        (List.take_append_drop _ _).symm
      have hdrop : fn.drop name.length = [95, 95, c] := by
        apply List.ext_getElem?
        intro i
        rw [List.getElem?_drop]
        match i with
        | 0 => simpa using h0
        | 1 => simpa using h1
        | 2 => simpa using h2
        | i + 3 =>
          have hge : fn.length ≤ name.length + (i + 3) := by omega
          rw [List.getElem?_eq_none hge]
          simp
      rw [hsplit, htake, hdrop]
  · rintro ⟨c, hc, rfl⟩
    unfold isIndexOverloadBytes
    have h0 : (name ++ [95, 95, c])[name.length]? = some 95 := by
      rw [List.getElem?_append_right (le_refl _)]; simp
    have h1 : (name ++ [95, 95, c])[name.length + 1]? = some 95 := by
      rw [List.getElem?_append_right (by omega)]; simp
    have h2 : (name ++ [95, 95, c])[name.length + 2]? = some c := by
      rw [List.getElem?_append_right (by omega)]; simp
    simp only [List.get?_eq_getElem?, h0, h1, h2]
    simpa [isIndexByte] using hc

theorem isIndexOverloadChecked_eq (fn name : List UInt8) :
    isIndexOverloadChecked fn name = some (isIndexOverloadBytes fn name) := by
  unfold isIndexOverloadChecked isIndexOverloadBytes sliceTo byteAt
  simp only [List.get?_eq_getElem?]
  by_cases hlen : fn.length = name.length + 3
  · have hle : name.length ≤ fn.length := by omega
    have hl0 : name.length < fn.length := by omega
    have hl1 : name.length + 1 < fn.length := by omega
    have hl2 : name.length + 2 < fn.length := by omega
    obtain ⟨b0, hb0⟩ : ∃ b, fn[name.length]? = some b :=
      ⟨_, List.getElem?_eq_getElem hl0⟩
    obtain ⟨b1, hb1⟩ : ∃ b, fn[name.length + 1]? = some b :=
      ⟨_, List.getElem?_eq_getElem hl1⟩
    obtain ⟨c, hc⟩ : ∃ b, fn[name.length + 2]? = some b :=
      ⟨_, List.getElem?_eq_getElem hl2⟩
    rw [if_pos hlen, if_pos hle, if_pos hl0, if_pos hl1, if_pos hl2, hb0, hb1, hc]
    by_cases htake : List.take name.length fn = name
    · by_cases e0 : b0 = 95
      · by_cases e1 : b1 = 95
        · by_cases hr : (48 ≤ c.toNat ∧ c.toNat ≤ 57) ∨ (97 ≤ c.toNat ∧ c.toNat ≤ 122)
          · have hb : (decide (48 ≤ c.toNat) && decide (c.toNat ≤ 57) ||
                decide (97 ≤ c.toNat) && decide (c.toNat ≤ 122)) = true := by
              simpa using hr
            simp [hlen, htake, e0, e1, hr, hb]
          · have hb : (decide (48 ≤ c.toNat) && decide (c.toNat ≤ 57) ||
                decide (97 ≤ c.toNat) && decide (c.toNat ≤ 122)) = false := by
              rw [Bool.eq_false_iff]
              simpa using hr
            simp [hlen, htake, e0, e1, hr, hb]
        · simp [hlen, htake, e0, e1]
      · simp [hlen, htake, e0]
    · simp [htake]
  · simp [hlen]

theorem goBytes_append (a b : String) : goBytes (a ++ b) = goBytes a ++ goBytes b := by
  simp [goBytes, String.toUTF8, String.data_append, List.flatMap_append]

theorem goBytes_singleton_ascii (ch : Char) (h : ch.val.toNat ≤ 127) :
    goBytes (String.singleton ch) = [ch.val.toUInt8] := by
  have h1 : ch.val ≤ 0x7f := by
    rw [UInt32.le_def]
    simpa using h
  simp [goBytes, String.toUTF8, String.singleton, String.utf8EncodeChar, h1]

theorem isIndexOverload_of_suffix (name : String) (ch : Char)
    (h : ch.isDigit = true ∨ ch.isLower = true) :
    isIndexOverload (name ++ "__" ++ String.singleton ch) name = true := by
  have hr : (48 ≤ ch.val.toNat ∧ ch.val.toNat ≤ 57) ∨ (97 ≤ ch.val.toNat ∧ ch.val.toNat ≤ 122) := by
    rcases h with h | h
    · left
      simpa [Char.isDigit, UInt32.le_def] using h
    · right
      simpa [Char.isLower, UInt32.le_def] using h
  have hascii : ch.val.toNat ≤ 127 := by omega
  unfold isIndexOverload
  rw [isIndexOverloadBytes_iff]
  refine ⟨ch.val.toUInt8, ?_, ?_⟩
  · have hto : ch.val.toUInt8.toNat = ch.val.toNat := by
      simp only [UInt32.toUInt8, UInt8.toNat, Nat.toUInt8, UInt8.ofNat, Fin.ofNat]
      show ch.val.toNat % 256 = ch.val.toNat
      omega
    simp only [isIndexByte, hto]
    simpa using hr
  · rw [goBytes_append, goBytes_append, goBytes_singleton_ascii ch hascii, List.append_assoc]
    rfl

/-- C21 (counterexample). The upper-case letter `A` is alphanumeric and
`Foo__A` is `Foo` followed by two underscores and `A`, of length
`len("Foo") + 3`; `isIndexOverload("Foo__A", "Foo")` is false, without a
panic. -/
theorem isIndexOverload_rejects_upper_case :
    'A'.isAlphanum = true ∧
      "Foo__A" = "Foo" ++ "__" ++ String.singleton 'A' ∧
      (goBytes "Foo__A").length = (goBytes "Foo").length + 3 ∧
      isIndexOverloadChecked (goBytes "Foo__A") (goBytes "Foo") = some false ∧
      isIndexOverload "Foo__A" "Foo" = false := by
  refine ⟨by decide, by decide, by decide, by decide, by decide⟩

/-- C21 (amended). Overload naming convention. For all byte strings `fn` and
`name`, `isIndexOverload(fn, name)` returns without a panic: every slice and
index expression it evaluates is in range, whatever the lengths, the empty
strings included. It is true if and only if `fn` is exactly `name` followed by
two underscores and one byte that is an ASCII digit `0`-`9` or an ASCII
lower-case letter `a`-`z`, so `len(fn) = len(name) + 3`; an upper-case letter
does not count. On strings, `name` followed by two underscores and one such
character is accepted. -/
theorem isIndexOverload_iff (fn name : List UInt8) :
    isIndexOverloadChecked fn name = some (isIndexOverloadBytes fn name) ∧
      (isIndexOverloadBytes fn name = true ↔
        ∃ c : UInt8, isIndexByte c = true ∧ fn = name ++ [95, 95, c]) ∧
      (isIndexOverloadBytes fn name = true → fn.length = name.length + 3) ∧
      (∀ s t : String, isIndexOverload s t = true ↔
        ∃ c : UInt8, isIndexByte c = true ∧ goBytes s = goBytes t ++ [95, 95, c]) ∧
      (∀ (t : String) (ch : Char), ch.isDigit = true ∨ ch.isLower = true →
        isIndexOverload (t ++ "__" ++ String.singleton ch) t = true) := by
  refine ⟨isIndexOverloadChecked_eq fn name, isIndexOverloadBytes_iff fn name, ?_, ?_, ?_⟩
  · intro h
    obtain ⟨c, _, rfl⟩ := (isIndexOverloadBytes_iff fn name).mp h
    simp
  · intro s t
    exact isIndexOverloadBytes_iff (goBytes s) (goBytes t)
  · intro t ch h
    exact isIndexOverload_of_suffix t ch h

/-- Witness of C21 (amended): `Foo__0` and `Foo__a` are index overloads of
`Foo`; `Foo_0`, the empty string and `Foo` itself are not, and none of the
calls panics. -/
theorem isIndexOverload_iff_witness :
    isIndexOverloadChecked (goBytes "Foo__0") (goBytes "Foo") = some true ∧
      isIndexOverload "Foo__a" "Foo" = true ∧
      isIndexOverloadChecked (goBytes "Foo_0") (goBytes "Foo") = some false ∧
      isIndexOverloadChecked (goBytes "") (goBytes "Foo") = some false ∧
      isIndexOverloadChecked (goBytes "Foo") (goBytes "") = some false ∧
      isIndexOverloadChecked (goBytes "") (goBytes "") = some false :=
  ⟨(isIndexOverload_iff (goBytes "Foo__0") (goBytes "Foo")).1.trans (by decide),
    (isIndexOverload_iff [] []).2.2.2.2 "Foo" 'a' (by decide),
    (isIndexOverload_iff (goBytes "Foo_0") (goBytes "Foo")).1.trans (by decide),
    by decide, by decide, by decide⟩

end Completion

/-! ## Theorems on the modifiers of `item` -/

namespace Completion

section ModifierTheorems

variable {O T S : Type}

theorem invokeMod_keeps (c : Env O T S) (obj : O) (v v1 : Suffixed T)
    (h : invokeMod c obj v = (v1, none)) :
    v1.suffix = v.suffix ∧ ∃ ops, v1.snip = v.snip ++ ops := by
  unfold invokeMod at h
  cases hft : v.funcType with
  | none => simp [hft] at h
  | some ft =>
    simp only [hft] at h
    cases hsig : c.underlyingSig ft with
    | none =>
      simp only [hsig, Prod.mk.injEq, and_true] at h
      rw [← h]
      exact ⟨rfl, [], by simp⟩
    | some sig =>
      simp only [hsig] at h
      cases hnew : c.newSignature sig with
      | error err => simp [hnew] at h
      | ok s =>
        simp only [hnew] at h
        by_cases hlen : (c.overloads sig).length > 0
        · simp only [hlen, if_true] at h
          cases hlist : listOverloads c (c.objName obj) (c.overloads sig) v.skipFunc
            "Go+ overload funcs\n" with
          | mk sk res =>
            cases res with
            | error stop => simp [hlist] at h
            | ok buf =>
              simp only [hlist, Prod.mk.injEq, and_true] at h
              rw [← h]
              exact ⟨rfl, _, rfl⟩
        · simp only [hlen, if_false, Prod.mk.injEq, and_true] at h
          rw [← h]
          exact ⟨rfl, _, rfl⟩

theorem suffixes_chain (c : Env O T S) (obj : O) (hsnip : c.snippets = true) :
    ∀ (mods : List TypeMod) (v v1 : Suffixed T), suffixes c obj mods v = (v1, none) →
      v1.suffix = v.suffix ++ modsSuffix mods ∧
        ∃ ops, v1.snip = v.snip ++ ops ∧ (indexOps mods).Sublist ops := by
  intro mods
  induction mods with
  | nil =>
    intro v v1 h
    simp only [suffixes, Prod.mk.injEq, and_true] at h
    rw [← h]
    exact ⟨by simp [modsSuffix], [], by simp, by simp [indexOps]⟩
  | cons m mods ih =>
    intro v v1 h
    cases m with
    | invoke =>
      simp only [suffixes] at h
      cases hinv : invokeMod c obj v with
      | mk v2 stop =>
        cases stop with
        | some s => simp [hinv] at h
        | none =>
          simp only [hinv, hsnip, Bool.not_true, Bool.false_eq_true, if_false] at h
          obtain ⟨k1, ops1, k2⟩ := invokeMod_keeps c obj v v2 hinv
          obtain ⟨i1, ops2, i2, i3⟩ := ih v2 v1 h
          refine ⟨by rw [i1, k1]; rfl, ops1 ++ ops2, by rw [i2, k2, List.append_assoc], ?_⟩
          exact List.Sublist.trans i3 (List.sublist_append_right _ _)
    | takeSlice =>
      simp only [suffixes] at h
      obtain ⟨i1, ops, i2, i3⟩ := ih _ v1 h
      exact ⟨by rw [i1]; simp [modsSuffix, String.append_assoc], ops, i2, i3⟩
    | takeDotDotDot =>
      simp only [suffixes] at h
      obtain ⟨i1, ops, i2, i3⟩ := ih _ v1 h
      exact ⟨by rw [i1]; simp [modsSuffix, String.append_assoc], ops, i2, i3⟩
    | index =>
      simp only [suffixes] at h
      obtain ⟨i1, ops, i2, i3⟩ := ih _ v1 h
      refine ⟨by rw [i1]; rfl, [SnipOp.writeText "[", SnipOp.writePlaceholder,
        SnipOp.writeText "]"] ++ ops, by rw [i2]; simp, ?_⟩
      exact List.Sublist.append (List.Sublist.refl _) i3
    | reference =>
      simp only [suffixes] at h
      exact ih v v1 h
    | dereference =>
      simp only [suffixes] at h
      exact ih v v1 h
    | chanRead =>
      simp only [suffixes] at h
      exact ih v v1 h
    | otherMod n =>
      simp only [suffixes] at h
      exact ih v v1 h

theorem describe_insert (c : Env O T S) (cand : Candidate O T) (d : Described)
    (h : describe c cand = .ok d) :
    d.insert = d.label ∧ ∃ tail, d.snip = SnipOp.writeText d.label :: tail := by
  unfold describe at h
  simp only at h
  split at h
  · simp at h
  · rename_i label _
    split at h
    · simp only [Except.ok.injEq] at h; rw [← h]; exact ⟨rfl, _, rfl⟩
    · simp only [Except.ok.injEq] at h; rw [← h]; exact ⟨rfl, _, rfl⟩
    · split at h
      · simp at h
      · split_ifs at h <;> simp only [Except.ok.injEq] at h <;> rw [← h] <;>
          exact ⟨rfl, _, rfl⟩
    · split at h
      · simp at h
      · split at h <;> simp only [Except.ok.injEq] at h <;> rw [← h] <;> exact ⟨rfl, _, rfl⟩
    · simp only [Except.ok.injEq] at h; rw [← h]; exact ⟨rfl, _, rfl⟩
    · simp only [Except.ok.injEq] at h; rw [← h]; exact ⟨rfl, _, rfl⟩
    · simp only [Except.ok.injEq] at h; rw [← h]; exact ⟨rfl, _, rfl⟩

theorem assemble_plain (c : Env O T S) (cand : Candidate O T) (score : ℚ) (d : Described)
    (pre : String) (v : Suffixed T) (st st1 : CState) (it : CompletionItem)
    (hsel : c.enclosingSelector = none) (hconv : cand.convertTo = none)
    (h : assemble c cand score d pre v st = (.ok it, st1)) :
    it.Label = d.label ∧ it.InsertText = pre ++ d.insert ++ v.suffix ∧
      it.snippet = some (v.snip ++ (if pre ≠ "" then [SnipOp.prependText pre] else []) ++
        (if v.suffix ≠ "" then [SnipOp.writeText v.suffix] else [])) := by
  unfold assemble at h
  simp only [hsel, hconv] at h
  have hins : (if v.suffix ≠ "" then (if pre ≠ "" then pre ++ d.insert else d.insert) ++ v.suffix
      else (if pre ≠ "" then pre ++ d.insert else d.insert)) = pre ++ d.insert ++ v.suffix := by
    by_cases hp : pre = "" <;> by_cases hs : v.suffix = "" <;> simp [hp, hs]
  have hsn : (if v.suffix ≠ "" then
      (if pre ≠ "" then v.snip ++ [SnipOp.prependText pre] else v.snip) ++
        [SnipOp.writeText v.suffix]
      else (if pre ≠ "" then v.snip ++ [SnipOp.prependText pre] else v.snip)) =
      v.snip ++ (if pre ≠ "" then [SnipOp.prependText pre] else []) ++
        (if v.suffix ≠ "" then [SnipOp.writeText v.suffix] else []) := by
    by_cases hp : pre = "" <;> by_cases hs : v.suffix = "" <;> simp [hp, hs]
  cases himp : cand.imp with
  | none =>
    simp only [himp] at h
    by_cases hp : pre = ""
    · simp only [hp, ne_eq, not_true_eq_false, if_false, Prod.mk.injEq, Except.ok.injEq] at h
      rw [← h.1]
      refine ⟨rfl, ?_, ?_⟩
      · simpa [hp] using hins
      · simpa [hp] using hsn
    · simp only [hp, ne_eq, not_false_eq_true, if_true, Prod.mk.injEq, Except.ok.injEq] at h
      rw [← h.1]
      refine ⟨rfl, ?_, ?_⟩
      · simpa [hp] using hins
      · simpa [hp] using hsn
  | some imp =>
    simp only [himp] at h
    cases hie : importEdits c imp with
    | error err => simp [hie] at h
    | ok addl =>
      simp only [hie] at h
      by_cases hp : pre = ""
      · simp only [hp, ne_eq, not_true_eq_false, if_false, Prod.mk.injEq, Except.ok.injEq] at h
        rw [← h.1]
        refine ⟨rfl, ?_, ?_⟩
        · simpa [hp] using hins
        · simpa [hp] using hsn
      · simp only [hp, ne_eq, not_false_eq_true, if_true, Prod.mk.injEq, Except.ok.injEq] at h
        rw [← h.1]
        refine ⟨rfl, ?_, ?_⟩
        · simpa [hp] using hins
        · simpa [hp] using hsn

/-- C22 (counterexample). The candidate `xs` with the single modifier `index`
is formatted with snippets enabled, outside a selector and without a
conversion target. The snippet gets the brackets of the index expression
around an empty placeholder; the `InsertText` is the bare name `xs`, so the
modifier is not applied to it. -/
theorem item_index_only_in_snippet :
    demoSlice.snippets = true ∧ demoSlice.enclosingSelector = none ∧
      candIndex.convertTo = none ∧ candIndex.mods = [TypeMod.index] ∧
      ∃ it, (item demoSlice noMarks candIndex).1 = Outcome.ret it none ∧
        it.InsertText = "xs" ∧
        it.snippet = some [SnipOp.writeText "xs", SnipOp.writeText "[", SnipOp.writePlaceholder,
          SnipOp.writeText "]"] :=
  ⟨rfl, rfl, rfl, rfl, _, rfl, rfl, rfl⟩

theorem modsPrefix_foldl (mods : List TypeMod) :
    ∀ acc : String, mods.foldl (fun pre mod =>
      match mod with
      | .reference => "&" ++ pre
      | .dereference => "*" ++ pre
      | .chanRead => "<-" ++ pre
      | _ => pre) acc = operatorsBefore mods ++ acc := by
  induction mods with
  | nil => intro acc; simp [operatorsBefore]
  | cons m mods ih =>
    intro acc
    cases m <;> simp [List.foldl_cons, ih, operatorsBefore, operatorBefore, String.append_assoc]

theorem modsPrefix_eq (mods : List TypeMod) : modsPrefix mods = operatorsBefore mods := by
  unfold modsPrefix
  rw [modsPrefix_foldl]
  simp

/-- C22 (amended). Modifier chain. When `item` returns an item for a
candidate that is not a built-in, with snippets enabled, outside any selector
context and without a conversion target: the prefix operators of `cand.mods`
(`&` for address-of, `*` for dereference, `<-` for channel-receive, the
operator of a later modifier before those of the earlier ones) and its suffix
operators `[:]` and `...` (in the order of the modifiers) are applied to both
the `InsertText` and the snippet. The `InsertText` is the prefix, the label
and the suffix; the snippet starts with the label and ends with the same
prefix, set by `PrependText`, and the same suffix, written last. The indexing
modifier is applied to the snippet only: every `index` writes an opening
bracket, an empty placeholder and a closing bracket to the snippet, and adds
nothing to the `InsertText`. -/
theorem item_applies_modifiers (c : Env O T S) (st st1 : CState) (cand : Candidate O T)
    (it : CompletionItem)
    (hret : item c st cand = (Outcome.ret it none, st1))
    (hobj : c.inUniverse cand.obj = false)
    (hsnip : c.snippets = true) (hsel : c.enclosingSelector = none)
    (hconv : cand.convertTo = none) :
    it.InsertText = operatorsBefore cand.mods ++ it.Label ++ modsSuffix cand.mods ∧
      ∃ body, it.snippet = some (SnipOp.writeText it.Label :: body ++
          (if operatorsBefore cand.mods ≠ "" then
            [SnipOp.prependText (operatorsBefore cand.mods)] else []) ++
          (if modsSuffix cand.mods ≠ "" then [SnipOp.writeText (modsSuffix cand.mods)]
            else [])) ∧
        (indexOps cand.mods).Sublist body := by
  unfold item at hret
  by_cases hscore : c.score cand.name ≤ 0
  · simp [hscore] at hret
  simp only [hscore, if_false, hobj, Bool.false_eq_true] at hret
  split_ifs at hret with hlow
  · simp at hret
  generalize afterDeepTest st { cand with score := cand.score * c.score cand.name } = st0
    at hret
  unfold formatObject at hret
  cases hdesc : describe c { cand with score := cand.score * c.score cand.name } with
  | error stop =>
    simp only [hdesc] at hret
    cases stop <;> simp [Stop.outcome] at hret
  | ok d =>
    simp only [hdesc] at hret
    cases hsuf : suffixes c cand.obj cand.mods
        ⟨false, [], "", c.objType cand.obj, d.detail, d.snip, st0.skipFunc⟩ with
    | mk v stop =>
      cases stop with
      | some s =>
        simp only [hsuf] at hret
        cases s <;> simp [Stop.outcome] at hret
      | none =>
        simp only [hsuf] at hret
        obtain ⟨hv1, ops, hv2, hv3⟩ := suffixes_chain c cand.obj hsnip cand.mods _ v hsuf
        simp only [String.empty_append] at hv1
        obtain ⟨hd1, tail, hd2⟩ := describe_insert c _ d hdesc
        cases hasm : assemble c { cand with score := cand.score * c.score cand.name }
            (cand.score * c.score cand.name) d (modsPrefix cand.mods) v
            { st0 with skipFunc := v.skipFunc } with
        | mk res st2 =>
          cases res with
          | error stop =>
            simp only [hasm] at hret
            cases stop <;> simp [Stop.outcome] at hret
          | ok it0 =>
            simp only [hasm, Prod.mk.injEq, Outcome.ret.injEq, and_true] at hret
            obtain ⟨hit, hst⟩ := hret
            obtain ⟨ha1, ha2, ha3⟩ := assemble_plain c _ _ d _ v _ st2 it0 hsel hconv hasm
            rw [modsPrefix_eq] at ha2 ha3
            have hd := document_keeps c cand.obj it0 st2
            obtain ⟨_, _, _, hd4, hd5, _⟩ := hd
            have hlabel : it.Label = d.label := by
              rw [← hit, ← ha1]
              unfold document
              split_ifs <;> try rfl
              all_goals split <;> (try split_ifs) <;> rfl
            refine ⟨?_, tail ++ ops, ?_, ?_⟩
            · rw [hlabel, ← hit, hd4, ha2, hd1, hv1]
            · rw [hlabel, ← hit, hd5, ha3, hv2, hd2, hv1]
              simp
            · exact List.Sublist.trans hv3 (List.sublist_append_right _ _)

/-- Witness of C22 (amended): the candidate `xs` with the modifiers
`reference`, `dereference`, `chanRead`, `index`, `takeSlice` and
`takeDotDotDot`. The `InsertText` is `<-*&xs[:]...`; the snippet is `xs`, the
index brackets around a placeholder, the prefix `<-*&` and the suffix
`[:]...`. -/
theorem item_applies_modifiers_witness :
    ∃ it, (item demoSlice noMarks candChain).1 = Outcome.ret it none ∧
      it.Label = "xs" ∧
      it.InsertText = "<-*&" ++ it.Label ++ "[:]..." ∧
      ∃ body, it.snippet = some (SnipOp.writeText it.Label :: body ++
          [SnipOp.prependText "<-*&"] ++ [SnipOp.writeText "[:]..."]) ∧
        [SnipOp.writeText "[", SnipOp.writePlaceholder, SnipOp.writeText "]"].Sublist body :=
  have h := item_applies_modifiers demoSlice noMarks noMarks candChain
    { Label := "xs", InsertText := "<-*&xs[:]...", AdditionalTextEdits := [],
      Detail := "[]int", Kind := some ItemKind.VariableCompletion, Tags := [],
      Score := candChain.score * demoSlice.score candChain.name, Depth := 0,
      snippet := some [SnipOp.writeText "xs", SnipOp.writeText "[", SnipOp.writePlaceholder,
        SnipOp.writeText "]", SnipOp.prependText "<-*&", SnipOp.writeText "[:]..."],
      isSlice := false, isOverload := false, Documentation := "", Deprecated := false }
    rfl rfl rfl rfl rfl
  ⟨_, rfl, rfl, h.1, h.2⟩

end ModifierTheorems

end Completion

/-! ## Theorems on `functionLiteral` -/

namespace Completion

theorem digitChar_isDigit (d : Nat) (h : d < 10) : (Nat.digitChar d).isDigit = true := by
  interval_cases d <;> decide

theorem digitChar_value (d : Nat) (h : d < 10) : (Nat.digitChar d).toNat - 48 = d := by
  interval_cases d <;> decide

theorem toDigitsCore_digits (fuel : Nat) :
    ∀ (n : Nat) (ds : List Char), (∀ ch ∈ ds, ch.isDigit = true) →
      ∀ ch ∈ Nat.toDigitsCore 10 fuel n ds, ch.isDigit = true := by
  induction fuel with
  | zero => intro n ds h; simpa [Nat.toDigitsCore] using h
  | succ fuel ih =>
    intro n ds h
    have hd : ∀ ch ∈ Nat.digitChar (n % 10) :: ds, ch.isDigit = true := by
      intro ch hch
      rcases List.mem_cons.mp hch with rfl | hch
      · exact digitChar_isDigit _ (Nat.mod_lt _ (by decide))
      · exact h ch hch
    simp only [Nat.toDigitsCore]
    split_ifs
    · exact hd
    · exact ih _ _ hd

theorem toDigitsCore_ne_nil (fuel : Nat) :
    ∀ (n : Nat) (ds : List Char), ds ≠ [] → Nat.toDigitsCore 10 fuel n ds ≠ [] := by
  induction fuel with
  | zero => intro n ds h; simpa [Nat.toDigitsCore] using h
  | succ fuel ih =>
    intro n ds _
    simp only [Nat.toDigitsCore]
    split_ifs
    · simp
    · exact ih _ _ (by simp)

theorem toDigitsCore_value (fuel : Nat) :
    ∀ (n : Nat) (ds : List Char), n < fuel →
      (Nat.toDigitsCore 10 fuel n ds).foldl (fun a ch => a * 10 + (ch.toNat - 48)) 0 =
        ds.foldl (fun a ch => a * 10 + (ch.toNat - 48)) n := by
  induction fuel with
  | zero => intro n ds h; omega
  | succ fuel ih =>
    intro n ds h
    simp only [Nat.toDigitsCore]
    have hv := digitChar_value (n % 10) (Nat.mod_lt _ (by decide))
    split_ifs with h0
    · simp only [List.foldl_cons, Nat.zero_mul, Nat.zero_add, hv]
      have : n % 10 = n := by omega
      rw [this]
    · rw [ih (n / 10) _ (by omega)]
      simp only [List.foldl_cons, hv]
      have : n / 10 * 10 + n % 10 = n := by omega
      rw [this]

theorem toString_data (k : Nat) : (toString k).data = Nat.toDigits 10 k := rfl

theorem toString_digits (k : Nat) : ∀ ch ∈ (toString k).data, ch.isDigit = true := by
  rw [toString_data]
  exact toDigitsCore_digits _ _ _ (by simp)

theorem toString_ne_nil (k : Nat) : (toString k).data ≠ [] := by
  rw [toString_data]
  unfold Nat.toDigits
  simp only [Nat.toDigitsCore]
  split_ifs
  · simp
  · exact toDigitsCore_ne_nil _ _ _ (by simp)

theorem toString_injective (a b : Nat) (h : toString a = toString b) : a = b := by
  have h1 : (toString a).data = (toString b).data := by rw [h]
  rw [toString_data, toString_data] at h1
  have ha := toDigitsCore_value (a + 1) a [] (by omega)
  have hb := toDigitsCore_value (b + 1) b [] (by omega)
  unfold Nat.toDigits at h1
  rw [h1] at ha
  rw [ha] at hb
  simpa using hb

theorem digitExtends_of_append (short long : String) (d : List Char) (hd : d ≠ [])
    (hdig : ∀ ch ∈ d, ch.isDigit = true) (h : long.data = short.data ++ d) :
    digitExtends short long = true := by
  unfold digitExtends
  rw [h]
  have hlen : 0 < d.length := List.length_pos.mpr hd
  simp only [List.isPrefixOf_iff_prefix, List.prefix_append, List.length_append,
    List.drop_left, Bool.and_eq_true, decide_eq_true_eq, List.all_eq_true, true_and]
  exact ⟨by omega, hdig⟩

theorem mem_uniquify (all : List String) :
    ∀ (rest seen : List String) (n : String), n ∈ uniquify all seen rest →
      ∃ b ∈ rest, (repeated all b = true ∧ ∃ k, seen.count b < k ∧ n = b ++ toString k) ∨
        (repeated all b = false ∧ n = b) := by
  intro rest
  induction rest with
  | nil => intro seen n h; simp [uniquify] at h
  | cons b rest ih =>
    intro seen n h
    simp only [uniquify, List.mem_cons] at h
    rcases h with h | h
    · refine ⟨b, List.mem_cons_self _ _, ?_⟩
      by_cases hr : repeated all b = true
      · left
        simp only [hr, if_true] at h
        exact ⟨hr, _, Nat.lt_succ_self _, h⟩
      · right
        simp only [hr, if_false, Bool.false_eq_true] at h
        exact ⟨by simpa using hr, h⟩
    · obtain ⟨b1, hb1, hcase⟩ := ih _ n h
      refine ⟨b1, List.mem_cons_of_mem _ hb1, ?_⟩
      rcases hcase with ⟨hr, k, hk, hn⟩ | hcase
      · left
        refine ⟨hr, k, ?_, hn⟩
        have : seen.count b1 ≤ (seen ++ [b]).count b1 := by
          rw [List.count_append]; omega
        omega
      · right
        exact hcase

theorem append_toString_ne (b : String) (j k : Nat) (h : j ≠ k) :
    b ++ toString j ≠ b ++ toString k := by
  intro he
  have hd := congrArg String.data he
  simp only [String.data_append, List.append_cancel_left_eq] at hd
  exact h (toString_injective j k (String.ext hd))

theorem append_toString_extends (b b1 : String) (j k : Nat) (hne : b ≠ b1)
    (h : b ++ toString j = b1 ++ toString k) :
    digitExtends b b1 = true ∨ digitExtends b1 b = true := by
  have hd := congrArg String.data h
  simp only [String.data_append] at hd
  rcases List.append_eq_append_iff.mp hd with ⟨a, h1, h2⟩ | ⟨a, h1, h2⟩
  · left
    refine digitExtends_of_append b b1 a ?_ ?_ h1
    · rintro rfl
      exact hne (String.ext (by simpa using h1.symm))
    · intro ch hch
      exact toString_digits j ch (by rw [h2]; exact List.mem_append_left _ hch)
  · right
    refine digitExtends_of_append b1 b a ?_ ?_ h1
    · rintro rfl
      exact hne (String.ext (by simpa using h1))
    · intro ch hch
      exact toString_digits k ch (by rw [h2]; exact List.mem_append_left _ hch)

theorem toString_extends (b b1 : String) (k : Nat) (h : b1 = b ++ toString k) :
    digitExtends b b1 = true :=
  digitExtends_of_append b b1 (toString k).data (toString_ne_nil k) (toString_digits k)
    (by rw [h, String.data_append])

theorem uniquify_pairwise (all : List String) (hno : NoDigitExtension all) :
    ∀ (rest seen : List String), seen ++ rest = all →
      (uniquify all seen rest).Pairwise (fun a b => a ≠ "_" → a ≠ b) := by
  intro rest
  induction rest with
  | nil => intro seen _; simp [uniquify]
  | cons b rest ih =>
    intro seen hall
    have hall1 : (seen ++ [b]) ++ rest = all := by simpa using hall
    have hbmem : b ∈ all := by rw [← hall]; simp
    simp only [uniquify, List.pairwise_cons]
    refine ⟨?_, ih _ hall1⟩
    intro n hn hblank
    obtain ⟨b1, hb1, hcase⟩ := mem_uniquify all rest _ n hn
    have hb1mem : b1 ∈ all := by rw [← hall]; simp [hb1]
    by_cases hr : repeated all b = true
    · simp only [hr, if_true]
      rcases hcase with ⟨hr1, k, hk, rfl⟩ | ⟨hr1, rfl⟩
      · by_cases hbb : b = b1
        · subst hbb
          apply append_toString_ne
          simp only [List.count_append, List.count_singleton_self] at hk
          omega
        · intro he
          rcases append_toString_extends b b1 _ _ hbb he with hx | hx
          · rw [hno b hbmem hr b1 hb1mem] at hx
            exact absurd hx (by simp)
          · rw [hno b1 hb1mem hr1 b hbmem] at hx
            exact absurd hx (by simp)
      · intro he
        have hx := toString_extends b n _ he.symm
        rw [hno b hbmem hr n hb1mem] at hx
        exact absurd hx (by simp)
    · have hr0 : repeated all b = false := by simpa using hr
      simp only [hr0, if_false, Bool.false_eq_true] at hblank ⊢
      rcases hcase with ⟨hr1, k, hk, rfl⟩ | ⟨hr1, rfl⟩
      · intro he
        have hx := toString_extends b1 b _ he
        rw [hno b1 hb1mem hr1 b hbmem] at hx
        exact absurd hx (by simp)
      · intro he
        subst he
        have hcount : 2 ≤ all.count b := by
          rw [← hall]
          have h1 : 1 ≤ rest.count b := List.count_pos_iff.mpr hb1
          simp only [List.count_append, List.count_cons_self]
          omega
        have : repeated all b = true := by
          simp [repeated, hblank, hcount]
        rw [this] at hr0
        exact absurd hr0 (by simp)

theorem uniqueNames_pairwise (all : List String) (hno : NoDigitExtension all) :
    (uniqueNames all).Pairwise (fun a b => a ≠ "_" → a ≠ b) :=
  uniquify_pairwise all hno all [] rfl

theorem uniquify_getElem? (all : List String) :
    ∀ (rest seen : List String) (i : Nat),
      (uniquify all seen rest)[i]? =
        (rest[i]?).map (fun b =>
          if repeated all b then b ++ toString ((seen ++ rest.take (i + 1)).count b) else b) := by
  intro rest
  induction rest with
  | nil => intro seen i; simp [uniquify]
  | cons b rest ih =>
    intro seen i
    cases i with
    | zero => simp [uniquify]
    | succ i =>
      simp only [uniquify, List.getElem?_cons_succ, List.take_succ_cons]
      rw [ih]
      simp

section LiteralTheorems

variable {T : Type}

theorem baseNames_cons (c : LitEnv T) (p : Var T) (ps : List (Var T)) (bs : List String)
    (h : baseNames c (p :: ps) = some bs) :
    ∃ b bs1, baseName c p = some b ∧ baseNames c ps = some bs1 ∧ bs = b :: bs1 := by
  unfold baseNames at h
  cases hb : baseName c p with
  | none => simp [hb] at h
  | some b =>
    cases hbs : baseNames c ps with
    | none => simp [hb, hbs] at h
    | some bs1 =>
      simp only [hb, hbs, Option.some.injEq] at h
      exact ⟨b, bs1, rfl, rfl, h.symm⟩

theorem baseNames_length (c : LitEnv T) :
    ∀ (ps : List (Var T)) (bs : List String), baseNames c ps = some bs →
      bs.length = ps.length := by
  intro ps
  induction ps with
  | nil => intro bs h; simp only [baseNames, Option.some.injEq] at h; simp [← h]
  | cons p ps ih =>
    intro bs h
    obtain ⟨b, bs1, _, h2, rfl⟩ := baseNames_cons c p ps bs h
    simp [ih bs1 h2]

theorem named_of_baseName (c : LitEnv T) (p : Var T) (b : String)
    (hb : baseName c p = some b) :
    (if p.name = "" then
      match c.formatVarTypeBare p with
      | .error err => Except.error err
      | .ok typeName => Except.ok (c.abbreviateTypeName typeName)
      else Except.ok p.name) = (Except.ok b : Except String String) := by
  unfold baseName at hb
  by_cases hn : p.name = ""
  · rw [if_pos hn] at hb ⊢
    cases hf : c.formatVarTypeBare p with
    | error err => simp [hf] at hb
    | ok t =>
      simp only [hf, Option.some.injEq] at hb
      simp [hb]
  · rw [if_neg hn] at hb ⊢
    simp only [Option.some.injEq] at hb
    rw [hb]

theorem incr_apply (m : NameCount) (b k : String) :
    m.incr b k = if k = b then some ((m k).getD 0 + 1) else m k := rfl

theorem nameParams_error (c : LitEnv T) :
    ∀ (ps : List (Var T)) (s : ParamNames), baseNames c ps = none →
      ∃ err, nameParams c ps s = .error err := by
  intro ps
  induction ps with
  | nil => intro s h; simp [baseNames] at h
  | cons p ps ih =>
    intro s h
    unfold nameParams
    cases hb : baseName c p with
    | none =>
      unfold baseName at hb
      by_cases hn : p.name = ""
      · simp only [hn, if_true] at hb ⊢
        cases hf : c.formatVarTypeBare p with
        | error err => exact ⟨err, by simp⟩
        | ok t => simp [hf] at hb
      · simp [hn] at hb
    | some b =>
      have hps : baseNames c ps = none := by
        cases hbs : baseNames c ps with
        | none => rfl
        | some bs => simp [baseNames, hb, hbs] at h
      have hnamed := named_of_baseName c p b hb
      simp only [hnamed]
      exact ih _ hps

theorem nameParams_ok (c : LitEnv T) :
    ∀ (ps : List (Var T)) (s : ParamNames) (bs : List String), baseNames c ps = some bs →
      ∃ r, nameParams c ps s = .ok r ∧ r.paramNames = s.paramNames ++ bs ∧
        (∀ k, r.paramNameCount k =
          if k ≠ "_" ∧ 0 < bs.count k then some ((s.paramNameCount k).getD 0 + bs.count k)
          else s.paramNameCount k) ∧
        r.hasTypeParams = (s.hasTypeParams || ps.any (fun p => freeTypeParam c p.type)) := by
  intro ps
  induction ps with
  | nil =>
    intro s bs h
    simp only [baseNames, Option.some.injEq] at h
    subst h
    exact ⟨s, rfl, by simp, by simp, by simp⟩
  | cons p ps ih =>
    intro s bs h
    obtain ⟨b, bs1, hb, hbs, rfl⟩ := baseNames_cons c p ps bs h
    have hnamed := named_of_baseName c p b hb
    unfold nameParams
    simp only [hnamed]
    obtain ⟨r, hr1, hr2, hr3, hr4⟩ := ih
      { paramNames := s.paramNames ++ [b]
        paramNameCount := if b ≠ "_" then s.paramNameCount.incr b else s.paramNameCount
        hasTypeParams := if freeTypeParam c p.type then true else s.hasTypeParams } bs1 hbs
    refine ⟨r, hr1, by simp [hr2], ?_, ?_⟩
    · intro k
      rw [hr3 k]
      simp only
      by_cases hk : k = "_"
      · subst hk
        by_cases hb0 : b = "_"
        · simp [hb0]
        · have hne : ¬ "_" = b := fun e => hb0 e.symm
          simp [hb0, incr_apply, hne]
      · by_cases hkb : k = b
        · subst hkb
          simp only [ne_eq, hk, not_false_eq_true, if_true, incr_apply, true_and,
            List.count_cons_self, Nat.zero_lt_succ, Option.getD_some]
          split_ifs with h0
          · congr 1; omega
          · congr 1; omega
        · have hbk : ¬ b = k := fun e => hkb e.symm
          by_cases hb0 : b = "_"
          · simp [hb0, hk, List.count_cons, hbk]
          · simp [hb0, hk, List.count_cons, hbk, incr_apply, hkb]
    · rw [hr4]
      by_cases hf : freeTypeParam c p.type = true
      · simp [hf]
      · simp [hf]

theorem resetCounts_named (bs : List String) (m : NameCount)
    (hm : ∀ k, m k = if k ≠ "_" ∧ 0 < bs.count k then some (bs.count k) else none) :
    ∀ k, resetCounts m k = if repeated bs k = true then some ([].count k + 1) else none := by
  intro k
  unfold resetCounts repeated
  rw [hm k]
  by_cases hk : k = "_"
  · simp [hk]
  · by_cases h2 : 2 ≤ bs.count k
    · have h0 : 0 < bs.count k := by omega
      simp [hk, h2, h0]
    · by_cases h0 : 0 < bs.count k
      · simp [hk, h2, h0]
      · simp [hk, h2, h0]

theorem writeParams_names (c : LitEnv T) (variadic h : Bool) (all : List String) :
    ∀ (rest : List (Var T × String)) (i : Nat) (seen : List String) (w : Written),
      (∀ k, w.paramNameCount k =
        if repeated all k = true then some (seen.count k + 1) else none) →
      ∃ l, (writeParams c variadic h i rest w).1.names = w.names ++ l ∧
        l <+: uniquify all seen (rest.map Prod.snd) ∧
        (∀ op ∈ w.snip, op ∈ (writeParams c variadic h i rest w).1.snip) ∧
        (∀ n ∈ l, SnipOp.writeText n ∈ (writeParams c variadic h i rest w).1.snip ∨
          SnipOp.writePlaceholderText n ∈ (writeParams c variadic h i rest w).1.snip) ∧
        ((h && !c.placeholders) = false → (writeParams c variadic h i rest w).2 = none →
          l = uniquify all seen (rest.map Prod.snd)) ∧
        ((∀ p ∈ rest, ∃ t, c.formatVarType p.1 = .ok t) →
          (writeParams c variadic h i rest w).2 = none) := by
  intro rest
  induction rest with
  | nil =>
    intro i seen w _
    exact ⟨[], by simp [writeParams], by simp [uniquify], by simp [writeParams], by simp,
      by simp [uniquify], by simp [writeParams]⟩
  | cons pn rest ih =>
    intro i seen w hinv
    obtain ⟨p, name⟩ := pn
    by_cases hbrk : (h && !c.placeholders) = true
    · refine ⟨[], ?_, List.nil_prefix, ?_, by simp, ?_, ?_⟩
      · simp [writeParams, hbrk]
      · intro op hop
        simp only [writeParams, hbrk, if_true]
        exact List.mem_append_left _ hop
      · intro hf
        rw [hf] at hbrk
        exact absurd hbrk (by simp)
      · intro _
        simp [writeParams, hbrk]
    · -- the name that is written, and the map afterwards
      have hname : (match w.paramNameCount name with
          | some idx => name ++ toString idx
          | none => name) =
          (if repeated all name = true then name ++ toString (seen.count name + 1)
            else name) := by
        rw [hinv name]
        split_ifs <;> rfl
      have hcount : ∀ k, (match w.paramNameCount name with
          | some _ => w.paramNameCount.incr name
          | none => w.paramNameCount) k =
          if repeated all k = true then some ((seen ++ [name]).count k + 1) else none := by
        intro k
        by_cases hr : repeated all name = true
        · have hw : w.paramNameCount name = some (seen.count name + 1) := by
            rw [hinv name]; simp [hr]
          simp only [hw, incr_apply]
          by_cases hk : k = name
          · subst hk
            simp [hr, hw]
          · have hnk : ¬ name = k := fun e => hk e.symm
            simp only [hk, if_false]
            rw [hinv k]
            simp [List.count_append, List.count_cons, hnk]
        · have hw : w.paramNameCount name = none := by
            rw [hinv name]; simp [hr]
          simp only [hw]
          rw [hinv k]
          by_cases hk : k = name
          · subst hk
            simp [hr]
          · have hnk : ¬ name = k := fun e => hk e.symm
            simp [List.count_append, List.count_cons, hnk]
      generalize hnm : (match w.paramNameCount name with
          | some idx => name ++ toString idx
          | none => name) = name1 at hname
      generalize hcm : (match w.paramNameCount name with
          | some _ => w.paramNameCount.incr name
          | none => w.paramNameCount) = count1 at hcount
      have huniq : uniquify all seen (List.map Prod.snd ((p, name) :: rest)) =
          name1 :: uniquify all (seen ++ [name]) (rest.map Prod.snd) := by
        simp only [List.map_cons, uniquify, hname]
      -- the snippet after the name
      generalize hs1 : (if name1 ≠ p.name ∧ c.placeholders = true then
          (if i > 0 then w.snip ++ [SnipOp.writeText ", "] else w.snip) ++
            [SnipOp.writePlaceholderText name1]
          else (if i > 0 then w.snip ++ [SnipOp.writeText ", "] else w.snip) ++
            [SnipOp.writeText name1]) = snip1
      have hmono1 : ∀ op ∈ w.snip, op ∈ snip1 := by
        intro op hop
        rw [← hs1]
        split_ifs <;> simp [hop]
      have hin1 : SnipOp.writeText name1 ∈ snip1 ∨ SnipOp.writePlaceholderText name1 ∈ snip1 := by
        rw [← hs1]
        split_ifs <;> simp
      have hstep : writeParams c variadic h i ((p, name) :: rest) w =
          if (match rest.head? with
              | none => true
              | some next => !c.identical p.type next.1.type) = true then
            match c.formatVarType p with
            | .error err =>
              (⟨count1, snip1 ++ [SnipOp.writeText " "], w.names ++ [name1]⟩, some err)
            | .ok typeStr =>
              writeParams c variadic h (i + 1) rest
                ⟨count1,
                  if freeTypeParam c p.type then
                    snip1 ++ [SnipOp.writeText " "] ++ [SnipOp.writePlaceholderText
                      (if variadic && rest.isEmpty then String.mk (replaceSlice typeStr.data)
                        else typeStr)]
                  else snip1 ++ [SnipOp.writeText " "] ++ [SnipOp.writeText
                      (if variadic && rest.isEmpty then String.mk (replaceSlice typeStr.data)
                        else typeStr)],
                  w.names ++ [name1]⟩
          else writeParams c variadic h (i + 1) rest ⟨count1, snip1, w.names ++ [name1]⟩ := by
        have hbrk0 : (h && !c.placeholders) = false := by simpa using hbrk
        rw [← hs1, ← hnm, ← hcm]
        simp only [writeParams, hbrk0, Bool.false_eq_true, if_false]
      have hbrk0 : (h && !c.placeholders) = false := by simpa using hbrk
      by_cases htyped : (match rest.head? with
          | none => true
          | some next => !c.identical p.type next.1.type) = true
      · cases hfmt : c.formatVarType p with
        | error err =>
          have hs : writeParams c variadic h i ((p, name) :: rest) w =
              (⟨count1, snip1 ++ [SnipOp.writeText " "], w.names ++ [name1]⟩, some err) := by
            rw [hstep, if_pos htyped, hfmt]
          rw [hs]
          refine ⟨[name1], rfl, ?_, ?_, ?_, ?_, ?_⟩
          · rw [huniq]
            exact (List.prefix_cons_inj _).mpr List.nil_prefix
          · intro op hop
            exact List.mem_append_left _ (hmono1 op hop)
          · intro n hn
            simp only [List.mem_singleton] at hn
            subst hn
            rcases hin1 with h1 | h1
            · exact Or.inl (List.mem_append_left _ h1)
            · exact Or.inr (List.mem_append_left _ h1)
          · intro _ hnone
            simp at hnone
          · intro hall
            obtain ⟨t, ht⟩ := hall (p, name) (List.mem_cons_self _ _)
            rw [hfmt] at ht
            simp at ht
        | ok typeStr =>
          have hs : writeParams c variadic h i ((p, name) :: rest) w =
              writeParams c variadic h (i + 1) rest
                ⟨count1,
                  if freeTypeParam c p.type then
                    snip1 ++ [SnipOp.writeText " "] ++ [SnipOp.writePlaceholderText
                      (if variadic && rest.isEmpty then String.mk (replaceSlice typeStr.data)
                        else typeStr)]
                  else snip1 ++ [SnipOp.writeText " "] ++ [SnipOp.writeText
                      (if variadic && rest.isEmpty then String.mk (replaceSlice typeStr.data)
                        else typeStr)],
                  w.names ++ [name1]⟩ := by
            rw [hstep, if_pos htyped, hfmt]
          generalize hs2 : (if freeTypeParam c p.type then
              snip1 ++ [SnipOp.writeText " "] ++ [SnipOp.writePlaceholderText
                (if variadic && rest.isEmpty then String.mk (replaceSlice typeStr.data)
                  else typeStr)]
              else snip1 ++ [SnipOp.writeText " "] ++ [SnipOp.writeText
                (if variadic && rest.isEmpty then String.mk (replaceSlice typeStr.data)
                  else typeStr)]) = snip2 at hs
          have hmono2 : ∀ op ∈ snip1, op ∈ snip2 := by
            intro op hop
            rw [← hs2]
            split_ifs <;> simp [hop]
          rw [hs]
          obtain ⟨l, i1, i2, i3, i4, i5, i6⟩ := ih (i + 1) (seen ++ [name])
            ⟨count1, snip2, w.names ++ [name1]⟩ hcount
          refine ⟨name1 :: l, by rw [i1]; simp, ?_, ?_, ?_, ?_, ?_⟩
          · rw [huniq]
            exact (List.prefix_cons_inj _).mpr i2
          · intro op hop
            exact i3 op (hmono2 op (hmono1 op hop))
          · intro n hn
            rcases List.mem_cons.mp hn with rfl | hn
            · rcases hin1 with h1 | h1
              · exact Or.inl (i3 _ (hmono2 _ h1))
              · exact Or.inr (i3 _ (hmono2 _ h1))
            · exact i4 n hn
          · intro hb hnone
            rw [huniq, i5 hb hnone]
          · intro hall
            exact i6 (fun q hq => hall q (List.mem_cons_of_mem _ hq))
      · have hs : writeParams c variadic h i ((p, name) :: rest) w =
            writeParams c variadic h (i + 1) rest ⟨count1, snip1, w.names ++ [name1]⟩ := by
          rw [hstep, if_neg htyped]
        rw [hs]
        obtain ⟨l, i1, i2, i3, i4, i5, i6⟩ := ih (i + 1) (seen ++ [name])
          ⟨count1, snip1, w.names ++ [name1]⟩ hcount
        refine ⟨name1 :: l, by rw [i1]; simp, ?_, ?_, ?_, ?_, ?_⟩
        · rw [huniq]
          exact (List.prefix_cons_inj _).mpr i2
        · intro op hop
          exact i3 op (hmono1 op hop)
        · intro n hn
          rcases List.mem_cons.mp hn with rfl | hn
          · rcases hin1 with h1 | h1
            · exact Or.inl (i3 _ h1)
            · exact Or.inr (i3 _ h1)
          · exact i4 n hn
        · intro hb hnone
          rw [huniq, i5 hb hnone]
        · intro hall
          exact i6 (fun q hq => hall q (List.mem_cons_of_mem _ hq))

theorem writeResults_mono (c : LitEnv T) (rh : Bool) :
    ∀ (rest : List (Var T)) (i : Nat) (snip : List SnipOp),
      (∀ op ∈ snip, op ∈ (writeResults c rh i rest snip).1) ∧
        ((∀ r ∈ rest, ∃ t, c.formatVarType r = .ok t) →
          (writeResults c rh i rest snip).2 = none) := by
  intro rest
  induction rest with
  | nil => intro i snip; simp [writeResults]
  | cons r rest ih =>
    intro i snip
    by_cases hbrk : (rh && !c.placeholders) = true
    · simp only [writeResults, hbrk, if_true]
      exact ⟨fun op hop => List.mem_append_left _ hop, fun _ => trivial⟩
    · have hbrk0 : (rh && !c.placeholders) = false := by simpa using hbrk
      generalize hs1 : (if r.name ≠ "" then
          (if i > 0 then snip ++ [SnipOp.writeText ", "] else snip) ++
            [SnipOp.writeText (r.name ++ " ")]
          else (if i > 0 then snip ++ [SnipOp.writeText ", "] else snip)) = snip1
      have hmono1 : ∀ op ∈ snip, op ∈ snip1 := by
        intro op hop
        rw [← hs1]
        split_ifs <;> simp [hop]
      cases hfmt : c.formatVarType r with
      | error err =>
        have hs : writeResults c rh i (r :: rest) snip = (snip1, some err) := by
          rw [← hs1]
          simp only [writeResults, hbrk0, Bool.false_eq_true, if_false, hfmt]
        rw [hs]
        refine ⟨hmono1, ?_⟩
        intro hall
        obtain ⟨t, ht⟩ := hall r (List.mem_cons_self _ _)
        rw [hfmt] at ht
        simp at ht
      | ok text =>
        have hs : writeResults c rh i (r :: rest) snip =
            writeResults c rh (i + 1) rest
              (if freeTypeParam c r.type then snip1 ++ [SnipOp.writePlaceholderText text]
                else snip1 ++ [SnipOp.writeText text]) := by
          rw [← hs1]
          simp only [writeResults, hbrk0, Bool.false_eq_true, if_false, hfmt]
        generalize hs2 : (if freeTypeParam c r.type then
            snip1 ++ [SnipOp.writePlaceholderText text]
            else snip1 ++ [SnipOp.writeText text]) = snip2 at hs
        have hmono2 : ∀ op ∈ snip1, op ∈ snip2 := by
          intro op hop
          rw [← hs2]
          split_ifs <;> simp [hop]
        rw [hs]
        obtain ⟨i1, i2⟩ := ih (i + 1) snip2
        exact ⟨fun op hop => i1 op (hmono2 op (hmono1 op hop)),
          fun hall => i2 (fun q hq => hall q (List.mem_cons_of_mem _ hq))⟩

theorem noDigitExtension_of_unique (all : List String)
    (h : ∀ b ∈ all, repeated all b = false) : NoDigitExtension all := by
  intro b hb hr
  rw [h b hb] at hr
  exact absurd hr (by simp)

theorem noDigitExtension_of_letters (all : List String)
    (h : ∀ b ∈ all, ∀ ch ∈ b.data, ch.isDigit = false) : NoDigitExtension all := by
  intro b _ _ b1 hb1
  by_contra hx
  have hx1 : digitExtends b b1 = true := by simpa using hx
  unfold digitExtends at hx1
  simp only [Bool.and_eq_true, decide_eq_true_eq, List.all_eq_true] at hx1
  obtain ⟨⟨_, hlen⟩, hdig⟩ := hx1
  have hne : b1.data.drop b.data.length ≠ [] := by
    intro he
    have := congrArg List.length he
    simp only [List.length_drop, List.length_nil] at this
    omega
  obtain ⟨ch, hch⟩ := List.exists_mem_of_ne_nil _ hne
  have h1 := hdig ch hch
  rw [h b1 hb1 ch (List.mem_of_mem_drop hch)] at h1
  exact absurd h1 (by simp)

theorem uniqueNames_getElem? (bases : List String) (i : Nat) (b : String)
    (h : bases[i]? = some b) :
    (uniqueNames bases)[i]? =
      some (if b ≠ "_" ∧ 2 ≤ bases.count b then
        b ++ toString ((bases.take (i + 1)).count b) else b) := by
  unfold uniqueNames
  rw [uniquify_getElem?, h]
  simp only [Option.map_some', List.nil_append, repeated, Bool.and_eq_true, decide_eq_true_eq]

theorem functionLiteral_run (c : LitEnv T) (sig : Signature T) (matchScore : ℚ)
    (bases : List String) (hb : baseNames c sig.params = some bases) :
    (functionLiteral c sig matchScore).names <+: uniqueNames bases ∧
      (∀ it, (functionLiteral c sig matchScore).item = some it →
        ∃ ops, it.snippet = some ops ∧ ∀ n ∈ (functionLiteral c sig matchScore).names,
          SnipOp.writeText n ∈ ops ∨ SnipOp.writePlaceholderText n ∈ ops) ∧
      ((∀ p ∈ sig.params ++ sig.results, ∃ t, c.formatVarType p = .ok t) →
        (c.placeholders = true ∨ ∀ p ∈ sig.params, freeTypeParam c p.type = false) →
        (∃ it, (functionLiteral c sig matchScore).item = some it) ∧
          (functionLiteral c sig matchScore).names = uniqueNames bases) := by
  obtain ⟨r, hr1, hr2, hr3, hr4⟩ := nameParams_ok c sig.params ⟨[], fun _ => none, false⟩ bases hb
  have hlen := baseNames_length c sig.params bases hb
  simp only [List.nil_append] at hr2
  have hinv := resetCounts_named bases r.paramNameCount (by
    intro k
    rw [hr3 k]
    simp)
  have hmap : (sig.params.zip r.paramNames).map Prod.snd = bases := by
    rw [hr2]
    exact List.map_snd_zip _ _ (by omega)
  obtain ⟨l, w1, w2, w3, w4, w5, w6⟩ := writeParams_names c sig.variadic r.hasTypeParams bases
    (sig.params.zip r.paramNames) 0 []
    ⟨resetCounts r.paramNameCount, [SnipOp.writeText "func("], []⟩ hinv
  rw [hmap] at w2 w5
  simp only [List.nil_append] at w1
  unfold functionLiteral
  simp only [hr1]
  cases hwp : writeParams c sig.variadic r.hasTypeParams 0 (sig.params.zip r.paramNames)
      ⟨resetCounts r.paramNameCount, [SnipOp.writeText "func("], []⟩ with
  | mk w stop =>
    rw [hwp] at w1 w3 w4 w5 w6
    simp only at w1 w3 w4 w5 w6
    cases stop with
    | some err =>
      simp only
      refine ⟨by rw [w1]; exact w2, by simp, ?_⟩
      intro hfmt _
      have : (some err : Option String) = none := w6 (fun q hq =>
        hfmt q.1 (List.mem_append_left _ (List.of_mem_zip hq).1))
      simp at this
    | none =>
      simp only
      generalize hs0 : (if (match sig.results with
            | [] => false
            | [r] => decide (r.name ≠ "")
            | _ => true) = true then
          (if sig.results.length > 0 then w.snip ++ [SnipOp.writeText ")"] ++
              [SnipOp.writeText " "]
            else w.snip ++ [SnipOp.writeText ")"]) ++ [SnipOp.writeText "("]
          else (if sig.results.length > 0 then w.snip ++ [SnipOp.writeText ")"] ++
              [SnipOp.writeText " "]
            else w.snip ++ [SnipOp.writeText ")"])) = snip0
      have hmono0 : ∀ op ∈ w.snip, op ∈ snip0 := by
        intro op hop
        rw [← hs0]
        split_ifs <;> simp [hop]
      obtain ⟨m1, m2⟩ := writeResults_mono c
        (sig.results.any (fun r => freeTypeParam c r.type)) sig.results 0 snip0
      cases hwr : writeResults c (sig.results.any (fun r => freeTypeParam c r.type)) 0
          sig.results snip0 with
      | mk snipR stopR =>
        rw [hwr] at m1 m2
        simp only at m1 m2
        cases stopR with
        | some err =>
          simp only
          refine ⟨by rw [w1]; exact w2, by simp, ?_⟩
          intro hfmt _
          have : (some err : Option String) = none := m2 (fun q hq =>
            hfmt q (List.mem_append_right _ hq))
          simp at this
        | none =>
          simp only
          refine ⟨by rw [w1]; exact w2, ?_, ?_⟩
          · intro it hit
            simp only [Option.some.injEq] at hit
            rw [← hit]
            refine ⟨_, rfl, ?_⟩
            intro n hn
            rw [w1] at hn
            have hsub : ∀ op ∈ w.snip, op ∈ (if (match sig.results with
                  | [] => false
                  | [r] => decide (r.name ≠ "")
                  | _ => true) = true then snipR ++ [SnipOp.writeText ")"] else snipR) ++
                [SnipOp.writeText " \x7b", SnipOp.writeFinalTabstop, SnipOp.writeText "\x7d"] := by
              intro op hop
              have := m1 op (hmono0 op hop)
              split_ifs <;> simp [this]
            rcases w4 n hn with h1 | h1
            · exact Or.inl (hsub _ h1)
            · exact Or.inr (hsub _ h1)
          · intro hfmt hph
            refine ⟨⟨_, rfl⟩, ?_⟩
            rw [w1]
            apply w5 _ rfl
            rw [hr4]
            rcases hph with hph | hph
            · simp [hph]
            · have : sig.params.any (fun p => freeTypeParam c p.type) = false := by
                rw [List.any_eq_false]
                intro p hp
                simp [hph p hp]
              simp [this]


/-- C23. Parameter-name uniquification in `functionLiteral` fails on the
signature with the parameters `i1 int`, `i string`, `i string`, whose base
names are `i1`, `i`, `i`. The base name `i` occurs twice and is written with
the suffixes 1 and 2, as `i1` and `i2`; the base name `i1` occurs once and is
written verbatim. The snippet is `func(i1 int, i1, i2 string)` with an empty
body: the name `i1` is written twice, so the written names are not pairwise
distinct, although the loop of lines 217 to 226 and line 246 mean to make
them unique. -/
theorem functionLiteral_repeats_name :
    baseNames demoLit sigClash.params = some ["i1", "i", "i"] ∧
      (functionLiteral demoLit sigClash 1).names = ["i1", "i1", "i2"] ∧
      (∃ it, (functionLiteral demoLit sigClash 1).item = some it ∧
        it.snippet = some [SnipOp.writeText "func(", SnipOp.writeText "i1",
          SnipOp.writeText " ", SnipOp.writeText "int", SnipOp.writeText ", ",
          SnipOp.writeText "i1", SnipOp.writeText ", ", SnipOp.writeText "i2",
          SnipOp.writeText " ", SnipOp.writeText "string", SnipOp.writeText ")",
          SnipOp.writeText " \x7b", SnipOp.writeFinalTabstop, SnipOp.writeText "\x7d"]) ∧
      ¬ (functionLiteral demoLit sigClash 1).names.Pairwise (fun a b => a ≠ "_" → a ≠ b) := by
  refine ⟨by decide, by decide, ⟨_, rfl, rfl⟩, ?_⟩
  have h : (functionLiteral demoLit sigClash 1).names = ["i1", "i1", "i2"] := by decide
  rw [h]
  intro hp
  simp only [List.pairwise_cons, List.mem_cons] at hp
  exact hp.1 "i1" (Or.inl rfl) (by decide) rfl

/-- The names that `functionLiteral` writes. The base name of a parameter is
its declared name, or the abbreviation guessed from its type when it is
unnamed. When a type cannot be formatted for the abbreviation the function
returns at once. Otherwise the names written into the snippet are, in
parameter order, an initial part of the unique names: a base name that is `_`
or occurs once is written verbatim, and the `j`-th occurrence of a base name
that occurs twice or more is written with the suffix `j`. Every written name
is in the snippet of the item. They are all written, and the item is
appended, when every type can be formatted and the loop is not cut short by a
type parameter without placeholders. The written names other than `_` are
pairwise distinct when no base name is a repeated base name followed by
decimal digits, which holds when no base name is repeated and when no base
name contains a digit. `func(int)` becomes `func(i int)` and
`func(int, int64)` becomes `func(i1 int, i2 int64)`. -/
theorem functionLiteral_names (c : LitEnv T) (sig : Signature T) (matchScore : ℚ) :
    (baseNames c sig.params = none →
      (functionLiteral c sig matchScore).item = none ∧
        (functionLiteral c sig matchScore).names = []) ∧
    (∀ bases, baseNames c sig.params = some bases →
      (functionLiteral c sig matchScore).names <+: uniqueNames bases ∧
      (∀ it, (functionLiteral c sig matchScore).item = some it →
        ∃ ops, it.snippet = some ops ∧ ∀ n ∈ (functionLiteral c sig matchScore).names,
          SnipOp.writeText n ∈ ops ∨ SnipOp.writePlaceholderText n ∈ ops) ∧
      ((∀ p ∈ sig.params ++ sig.results, ∃ t, c.formatVarType p = .ok t) →
        (c.placeholders = true ∨ ∀ p ∈ sig.params, freeTypeParam c p.type = false) →
        (∃ it, (functionLiteral c sig matchScore).item = some it) ∧
          (functionLiteral c sig matchScore).names = uniqueNames bases) ∧
      (NoDigitExtension bases →
        (functionLiteral c sig matchScore).names.Pairwise (fun a b => a ≠ "_" → a ≠ b))) ∧
    (∀ (bases : List String) (i : Nat) (b : String), bases[i]? = some b →
      (uniqueNames bases)[i]? =
        some (if b ≠ "_" ∧ 2 ≤ bases.count b then
          b ++ toString ((bases.take (i + 1)).count b) else b)) ∧
    (∀ bases : List String,
      ((∀ b ∈ bases, repeated bases b = false) ∨
        (∀ b ∈ bases, ∀ ch ∈ b.data, ch.isDigit = false)) → NoDigitExtension bases) ∧
    (∃ it, (functionLiteral demoLit sigInt 1).item = some it ∧
      it.snippet = some [SnipOp.writeText "func(", SnipOp.writeText "i", SnipOp.writeText " ",
        SnipOp.writeText "int", SnipOp.writeText ")", SnipOp.writeText " \x7b",
        SnipOp.writeFinalTabstop, SnipOp.writeText "\x7d"]) ∧
    (∃ it, (functionLiteral demoLit sigIntInt64 1).item = some it ∧
      it.snippet = some [SnipOp.writeText "func(", SnipOp.writeText "i1", SnipOp.writeText " ",
        SnipOp.writeText "int", SnipOp.writeText ", ", SnipOp.writeText "i2",
        SnipOp.writeText " ", SnipOp.writeText "int64", SnipOp.writeText ")",
        SnipOp.writeText " \x7b", SnipOp.writeFinalTabstop, SnipOp.writeText "\x7d"]) := by
  refine ⟨?_, ?_, uniqueNames_getElem?, ?_, ⟨_, rfl, rfl⟩, ⟨_, rfl, rfl⟩⟩
  · intro hb
    obtain ⟨err, he⟩ := nameParams_error c sig.params ⟨[], fun _ => none, false⟩ hb
    simp [functionLiteral, he]
  · intro bases hb
    obtain ⟨h1, h2, h3⟩ := functionLiteral_run c sig matchScore bases hb
    exact ⟨h1, h2, h3, fun hno => List.Pairwise.sublist h1.sublist (uniqueNames_pairwise bases hno)⟩
  · intro bases h
    rcases h with h | h
    · exact noDigitExtension_of_unique bases h
    · exact noDigitExtension_of_letters bases h

/-- The names written for the signature `func(int, int64)`. Its base names
are `i` and `i`, no base name is `i` followed by digits, every type can be
formatted and there is no type parameter: the names written are `i1` and
`i2`, and they are distinct. -/
theorem functionLiteral_names_witness :
    baseNames demoLit sigIntInt64.params = some ["i", "i"] ∧
      NoDigitExtension ["i", "i"] ∧
      (functionLiteral demoLit sigIntInt64 1).names = ["i1", "i2"] ∧
      (functionLiteral demoLit sigIntInt64 1).names.Pairwise (fun a b => a ≠ "_" → a ≠ b) :=
  have h := (functionLiteral_names demoLit sigIntInt64 1).2.1 ["i", "i"] (by decide)
  ⟨by decide, by decide,
    (h.2.2.1 (fun p _ => ⟨p.type, rfl⟩) (Or.inr (fun _ _ => rfl))).2.trans (by decide),
    h.2.2.2 (by decide)⟩

end LiteralTheorems

end Completion
end Goxls
